import Mathlib

/-!
# nox-plugin-exposure: a shallow embedding of the scanner

The development follows `main.go`:

* `rules`, `supportedExtensions`, `skippedDirs` are the package-level tables;
* `scanFile`, `extToLanguage` and `handleScan` are the three functions of the core;
* the library routines they call (`regexp.MatchString`, `bufio.Scanner` with the
  default `ScanLines` split, `strings.TrimSpace`, `filepath.Ext`, `filepath.Join`,
  `filepath.WalkDir`, `context.Context.Err`) are embedded next to them, with the
  behaviour the Go standard library documents.

Text is a list of Unicode code points (`List Char`): file contents are taken to be
well-formed UTF-8, and path separators are those of a Unix system.
-/

namespace Exposure

/-! ## Regular expressions (the fragment of RE2 syntax used by `rules`) -/

/-- Abstract syntax of the patterns. A character class is a predicate on code points;
bounded repetitions are written out with `seq`, `alt` and `star`, the way
`regexp/syntax` simplifies them. -/
inductive Regex where
  | eps : Regex
  | chr (p : Char → Bool) : Regex
  | seq (r s : Regex) : Regex
  | alt (r s : Regex) : Regex
  | star (r : Regex) : Regex
  | wordBoundary : Regex

/-- Perl class `\d`: ASCII digits only. -/
def isDigit (c : Char) : Bool := decide (48 ≤ c.toNat ∧ c.toNat ≤ 57)

/-- ASCII lower-case letter. -/
def isLower (c : Char) : Bool := decide (97 ≤ c.toNat ∧ c.toNat ≤ 122)

/-- ASCII upper-case letter. -/
def isUpper (c : Char) : Bool := decide (65 ≤ c.toNat ∧ c.toNat ≤ 90)

/-- Perl class `\w` without case folding, also the class used by the assertion `\b`:
`[0-9A-Za-z_]`. -/
def isWordChar (c : Char) : Bool := isDigit c || isLower c || isUpper c || c.toNat == 95

/-- Perl class `\s`: `[\t\n\f\r ]`. -/
def isSpaceRe (c : Char) : Bool :=
  c.toNat == 9 || c.toNat == 10 || c.toNat == 12 || c.toNat == 13 || c.toNat == 32

/-- ASCII lower-casing of a code point. -/
def asciiLower (c : Char) : Char := if isUpper c then Char.ofNat (c.toNat + 32) else c

/-- Under the flag `(?i)` a literal matches every code point of its simple-folding
orbit. For an ASCII letter that is its two cases, and in addition the Kelvin sign
(U+212A) for `k` and the long s (U+017F) for `s`; any other ASCII character folds
only to itself. -/
def foldEq (a c : Char) : Bool :=
  if isLower a || isUpper a then
    asciiLower c == asciiLower a
      || (asciiLower a == 'k' && c.toNat == 0x212A)
      || (asciiLower a == 's' && c.toNat == 0x17F)
  else c == a

/-- Class `\w` under `(?i)`: the folding closure of `[0-9A-Za-z_]`. -/
def isWordFold (c : Char) : Bool := isWordChar c || c.toNat == 0x212A || c.toNat == 0x17F

/-- Concatenation of a list of expressions. -/
def Regex.cat : List Regex → Regex
  | [] => .eps
  | [r] => r
  | r :: rs => .seq r (Regex.cat rs)

/-- Alternation of a list of expressions (the empty alternation matches nothing). -/
def Regex.oneOf : List Regex → Regex
  | [] => .chr (fun _ => false)
  | [r] => r
  | r :: rs => .alt r (Regex.oneOf rs)

/-- A case-sensitive literal string. -/
def Regex.lit (s : String) : Regex := Regex.cat (s.toList.map (fun a => Regex.chr (fun c => c == a)))

/-- A literal string under `(?i)`. -/
def Regex.litI (s : String) : Regex := Regex.cat (s.toList.map (fun a => Regex.chr (foldEq a)))

/-- Repetition `r+`. -/
def Regex.plus (r : Regex) : Regex := .seq r (.star r)

/-- Repetition `r?`. -/
def Regex.opt (r : Regex) : Regex := .alt r .eps

/-- Repetition `r{1,3}`. -/
def Regex.rep13 (r : Regex) : Regex := .seq r (Regex.opt (.seq r (Regex.opt r)))

/-- Repetition `r{2,}`. -/
def Regex.atLeast2 (r : Regex) : Regex := .seq r (.seq r (.star r))

/-- Whether the optional code point is an ASCII word character (absent: no). -/
def isWordAt : Option Char → Bool
  | none => false
  | some c => isWordChar c

/-- The loop of `star`: `step` is the matcher of the body. Every iteration has to
consume input, so `fuel = length of the input` is never exhausted. -/
def starLoop (step : Option Char → List Char → (Option Char → List Char → Bool) → Bool) :
    Nat → Option Char → List Char → (Option Char → List Char → Bool) → Bool
  | 0, prev, s, k => k prev s
  | fuel + 1, prev, s, k =>
    k prev s ||
      step prev s (fun prev1 s1 => decide (s1.length < s.length) && starLoop step fuel prev1 s1 k)

/-- Backtracking matcher in continuation-passing style. `matchK r prev s k` holds when
`r` matches a prefix of `s` (the code point before `s` being `prev`) such that the
continuation `k` accepts the code point before the rest and the rest. -/
def matchK : Regex → Option Char → List Char → (Option Char → List Char → Bool) → Bool
  | .eps, prev, s, k => k prev s
  | .chr p, _, s, k =>
    match s with
    | [] => false
    | c :: t => p c && k (some c) t
  | .seq r1 r2, prev, s, k => matchK r1 prev s (fun prev1 s1 => matchK r2 prev1 s1 k)
  | .alt r1 r2, prev, s, k => matchK r1 prev s k || matchK r2 prev s k
  | .star r, prev, s, k => starLoop (matchK r) s.length prev s k
  | .wordBoundary, prev, s, k => (isWordAt prev != isWordAt s.head?) && k prev s

/-- Whether `r` matches at the very start of `s`, `prev` being the code point before. -/
def matchFrom (r : Regex) (prev : Option Char) (s : List Char) : Bool :=
  matchK r prev s (fun _ _ => true)

/-- Unanchored search: try every start position from left to right. -/
def searchFrom (r : Regex) : Option Char → List Char → Bool
  | prev, [] => matchFrom r prev []
  | prev, c :: t => matchFrom r prev (c :: t) || searchFrom r (some c) t

/-- Go `(*Regexp).MatchString`: does the line contain any match of the expression? -/
def MatchString (r : Regex) (line : List Char) : Bool := searchFrom r none line

/-! ## The rule catalog -/

/-- Severity scale of the plugin SDK (the values the catalog uses, and `low`). -/
inductive Severity where
  | low | medium | high
  deriving DecidableEq, Repr

/-- Confidence scale of the plugin SDK. -/
inductive Confidence where
  | low | medium | high
  deriving DecidableEq, Repr

/-- An exposure detection rule; `Patterns` is the Go map from extension to compiled
expression, kept as an association list. -/
structure exposureRule where
  ID : String
  Description : String
  Severity : Severity
  ConfLevel : Confidence
  Patterns : List (String × Regex)

/-- Pattern piece `\d`. -/
def reDigit : Regex := .chr isDigit

/-- Pattern piece `\d{1,3}`. -/
def reOctet : Regex := Regex.rep13 reDigit

/-- Pattern piece `\w+` under `(?i)`. -/
def reWords : Regex := Regex.plus (.chr isWordFold)

/-- Pattern piece `\s*`. -/
def reSpaces : Regex := .star (.chr isSpaceRe)

/-- Pattern piece `\d+\.\d+\.\d+`. -/
def reSemver : Regex :=
  Regex.cat [Regex.plus reDigit, Regex.litI ".", Regex.plus reDigit, Regex.litI ".", Regex.plus reDigit]

/-- Pattern piece `(Apache|Nginx|IIS)` under `(?i)`. -/
def reServerName : Regex := Regex.oneOf [Regex.litI "Apache", Regex.litI "Nginx", Regex.litI "IIS"]

/-- EXPOSE-001, every extension:
`(?i)(10\.\d{1,3}\.\d{1,3}\.\d{1,3}|172\.(1[6-9]|2\d|3[01])\.\d{1,3}\.\d{1,3}|192\.168\.\d{1,3}\.\d{1,3}|\w+\.internal\.\w+|\w+\.corp\.\w+|\w+\.local\b)`. -/
def patInternalHost : Regex :=
  Regex.oneOf [
    Regex.cat [Regex.litI "10", Regex.litI ".", reOctet, Regex.litI ".", reOctet, Regex.litI ".", reOctet],
    Regex.cat [Regex.litI "172", Regex.litI ".",
      Regex.oneOf [
        Regex.cat [Regex.litI "1", .chr (fun c => decide (54 ≤ c.toNat ∧ c.toNat ≤ 57))],
        Regex.cat [Regex.litI "2", reDigit],
        Regex.cat [Regex.litI "3", .chr (fun c => c.toNat == 48 || c.toNat == 49)]],
      Regex.litI ".", reOctet, Regex.litI ".", reOctet],
    Regex.cat [Regex.litI "192", Regex.litI ".", Regex.litI "168", Regex.litI ".", reOctet,
      Regex.litI ".", reOctet],
    Regex.cat [reWords, Regex.litI ".", Regex.litI "internal", Regex.litI ".", reWords],
    Regex.cat [reWords, Regex.litI ".", Regex.litI "corp", Regex.litI ".", reWords],
    Regex.cat [reWords, Regex.litI ".", Regex.litI "local", .wordBoundary]]

/-- Class `[a-zA-Z0-9._%+\-]`. -/
def isEmailLocal (c : Char) : Bool :=
  isLower c || isUpper c || isDigit c || c.toNat == 46 || c.toNat == 95 || c.toNat == 37
    || c.toNat == 43 || c.toNat == 45

/-- Class `[a-zA-Z0-9.\-]`. -/
def isEmailDomain (c : Char) : Bool :=
  isLower c || isUpper c || isDigit c || c.toNat == 46 || c.toNat == 45

/-- EXPOSE-002, every extension: `[a-zA-Z0-9._%+\-]+@[a-zA-Z0-9.\-]+\.[a-zA-Z]{2,}`. -/
def patEmail : Regex :=
  Regex.cat [Regex.plus (.chr isEmailLocal), Regex.lit "@", Regex.plus (.chr isEmailDomain),
    Regex.lit ".", Regex.atLeast2 (.chr (fun c => isLower c || isUpper c))]

/-- EXPOSE-003 for `.go`, `.py`, `.js`, `.ts`:
`(?i)(/etc/passwd|/etc/shadow|/etc/hosts|/var/log/\w+|/proc/self|/dev/null|C:\\Windows\\System32|C:\\Users\\)`. -/
def patSystemPathCode : Regex :=
  Regex.oneOf [Regex.litI "/etc/passwd", Regex.litI "/etc/shadow", Regex.litI "/etc/hosts",
    Regex.cat [Regex.litI "/var/log/", reWords], Regex.litI "/proc/self", Regex.litI "/dev/null",
    Regex.litI "C:\\Windows\\System32", Regex.litI "C:\\Users\\"]

/-- EXPOSE-003 for `.json`, `.yaml`:
`(?i)(/etc/passwd|/etc/shadow|/etc/hosts|/var/log/\w+|/proc/self|C:\\Windows\\System32|C:\\Users\\)`. -/
def patSystemPathData : Regex :=
  Regex.oneOf [Regex.litI "/etc/passwd", Regex.litI "/etc/shadow", Regex.litI "/etc/hosts",
    Regex.cat [Regex.litI "/var/log/", reWords], Regex.litI "/proc/self",
    Regex.litI "C:\\Windows\\System32", Regex.litI "C:\\Users\\"]

/-- EXPOSE-004 for `.go`, `.py`, `.js`, `.ts`:
`(?i)(Server:\s*(Apache|Nginx|IIS)/\d|X-Powered-By|version["':\s]+\d+\.\d+\.\d+)`. -/
def patVersionCode : Regex :=
  Regex.oneOf [
    Regex.cat [Regex.litI "Server:", reSpaces, reServerName, Regex.litI "/", reDigit],
    Regex.litI "X-Powered-By",
    Regex.cat [Regex.litI "version",
      Regex.plus (.chr (fun c => c.toNat == 34 || c.toNat == 39 || c.toNat == 58 || isSpaceRe c)),
      reSemver]]

/-- EXPOSE-004 for `.json`:
`(?i)("server"\s*:\s*"(Apache|Nginx|IIS)/\d|"X-Powered-By"|"version"\s*:\s*"\d+\.\d+\.\d+")`. -/
def patVersionJSON : Regex :=
  Regex.oneOf [
    Regex.cat [Regex.litI "\"server\"", reSpaces, Regex.litI ":", reSpaces, Regex.litI "\"",
      reServerName, Regex.litI "/", reDigit],
    Regex.litI "\"X-Powered-By\"",
    Regex.cat [Regex.litI "\"version\"", reSpaces, Regex.litI ":", reSpaces, Regex.litI "\"",
      reSemver, Regex.litI "\""]]

/-- EXPOSE-004 for `.yaml`:
`(?i)(server:\s*(Apache|Nginx|IIS)/\d|X-Powered-By|version:\s*['"]?\d+\.\d+\.\d+)`. -/
def patVersionYAML : Regex :=
  Regex.oneOf [
    Regex.cat [Regex.litI "server:", reSpaces, reServerName, Regex.litI "/", reDigit],
    Regex.litI "X-Powered-By",
    Regex.cat [Regex.litI "version:", reSpaces,
      Regex.opt (.chr (fun c => c.toNat == 39 || c.toNat == 34)), reSemver]]

/-- The catalog `rules`, in source order. -/
def rules : List exposureRule := [
  { ID := "EXPOSE-001"
    Description := "Exposed internal IP address or hostname in source code"
    Severity := .high
    ConfLevel := .high
    Patterns := [(".go", patInternalHost), (".py", patInternalHost), (".js", patInternalHost),
      (".ts", patInternalHost), (".json", patInternalHost), (".yaml", patInternalHost)] },
  { ID := "EXPOSE-002"
    Description := "Exposed email address in source code (potential PII leak)"
    Severity := .high
    ConfLevel := .medium
    Patterns := [(".go", patEmail), (".py", patEmail), (".js", patEmail), (".ts", patEmail),
      (".json", patEmail), (".yaml", patEmail)] },
  { ID := "EXPOSE-003"
    Description := "Exposed file path pointing to system directory"
    Severity := .medium
    ConfLevel := .high
    Patterns := [(".go", patSystemPathCode), (".py", patSystemPathCode),
      (".js", patSystemPathCode), (".ts", patSystemPathCode), (".json", patSystemPathData),
      (".yaml", patSystemPathData)] },
  { ID := "EXPOSE-004"
    Description := "Exposed version information in user-facing response"
    Severity := .medium
    ConfLevel := .medium
    Patterns := [(".go", patVersionCode), (".py", patVersionCode), (".js", patVersionCode),
      (".ts", patVersionCode), (".json", patVersionJSON), (".yaml", patVersionYAML)] }]

/-- The map `supportedExtensions` (a missing key reads as `false`). -/
def supportedExtensions (ext : String) : Bool :=
  ext == ".go" || ext == ".py" || ext == ".js" || ext == ".ts" || ext == ".json" || ext == ".yaml"

/-- The map `skippedDirs` (a missing key reads as `false`). -/
def skippedDirs (name : String) : Bool :=
  name == ".git" || name == "vendor" || name == "node_modules" || name == "__pycache__"
    || name == ".venv"

/-! ## Findings and the line scanner -/

/-- A finding as the response builder records it: `Finding(id, severity, confidence,
message).At(file, start, end).WithMetadata(key, value).Done()`. -/
structure Finding where
  RuleId : String
  Severity : Severity
  Confidence : Confidence
  Message : String
  File : String
  StartLine : Nat
  EndLine : Nat
  Metadata : List (String × String)
  deriving DecidableEq, Repr

/-- The error values that travel through the walk: `context.Canceled`,
`context.DeadlineExceeded`, `bufio.ErrTooLong`, an error returned by the file's `Read`,
and the sentinel `filepath.SkipDir`. -/
inductive GoErr where
  | canceled | deadlineExceeded | errTooLong | readErr | skipDir
  deriving DecidableEq, Repr

/-- What `os.Open` and the subsequent reads give for a directory entry that is not a
directory: either the open fails, or the reads deliver `content` and then end with EOF
(`readFails = false`) or with an error (`readFails = true`). -/
inductive FileData where
  | unopenable : FileData
  | bytes (content : List Char) (readFails : Bool) : FileData
  deriving DecidableEq, Repr

/-- Go `unicode.IsSpace`, the white space `strings.TrimSpace` removes. -/
def isSpaceGo (c : Char) : Bool :=
  let n := c.toNat
  (9 ≤ n && n ≤ 13) || n == 32 || n == 0x85 || n == 0xA0 || n == 0x1680
    || (0x2000 ≤ n && n ≤ 0x200A) || n == 0x2028 || n == 0x2029 || n == 0x202F
    || n == 0x205F || n == 0x3000

/-- Go `strings.TrimSpace`: remove leading and trailing white space. -/
def trimSpace (s : List Char) : List Char :=
  ((s.dropWhile isSpaceGo).reverse.dropWhile isSpaceGo).reverse

/-- The function `extToLanguage`: the language tag of an extension. -/
def extToLanguage (ext : String) : String :=
  if ext == ".go" then "go"
  else if ext == ".py" then "python"
  else if ext == ".js" then "javascript"
  else if ext == ".ts" then "typescript"
  else if ext == ".json" then "json"
  else if ext == ".yaml" then "yaml"
  else "unknown"

/-- Go `bufio.MaxScanTokenSize`. -/
def maxScanTokenSize : Nat := 64 * 1024

/-- Number of bytes of the UTF-8 encoding of a code point. -/
def utf8Width (c : Char) : Nat :=
  if c.toNat < 0x80 then 1 else if c.toNat < 0x800 then 2 else if c.toNat < 0x10000 then 3 else 4

/-- Number of bytes of a text. -/
def byteLen (s : List Char) : Nat := (s.map utf8Width).sum

/-- The helper `dropCR` of `bufio`: drop one trailing carriage return; the argument is the line
in reverse. -/
def dropCR : List Char → List Char
  | c :: t => if c.toNat == 13 then t.reverse else (c :: t).reverse
  | [] => []

/-- The tokens a `bufio.Scanner` with the default split function `ScanLines` and the
default buffer delivers, and the value of `Err()` after the last `Scan()`. `cur` holds
(in reverse) the bytes of the line being read. A line is cut at `\n`; a line that does
not fit the buffer (`maxScanTokenSize` bytes, terminator included) stops the scan with
`ErrTooLong`; when the reads end with an error the data read so far is still split,
and the error is reported afterwards. -/
def scanTokens (readFails : Bool) : List Char → List Char → List (List Char) × Option GoErr
  | [], cur =>
    if maxScanTokenSize ≤ byteLen cur then ([], some .errTooLong)
    else
      let fin : Option GoErr := if readFails then some .readErr else none
      if cur.isEmpty then ([], fin) else ([dropCR cur], fin)
  | c :: t, cur =>
    if c.toNat == 10 then
      if maxScanTokenSize ≤ byteLen cur then ([], some .errTooLong)
      else
        let rest := scanTokens readFails t []
        (dropCR cur :: rest.1, rest.2)
    else scanTokens readFails t (c :: cur)

/-- The finding `scanFile` records for a rule that matches line `lineNum`. -/
def mkFinding (rule : exposureRule) (filePath ext : String) (lineNum : Nat) (line : List Char) :
    Finding :=
  { RuleId := rule.ID
    Severity := rule.Severity
    Confidence := rule.ConfLevel
    Message := rule.Description ++ ": " ++ String.mk (trimSpace line)
    File := filePath
    StartLine := lineNum
    EndLine := lineNum
    Metadata := [("language", extToLanguage ext)] }

/-- The inner loop of `scanFile` (`for i := range rules`), on one line. -/
def scanRules (filePath ext : String) (lineNum : Nat) (line : List Char) :
    List exposureRule → List Finding → List Finding
  | [], resp => resp
  | rule :: rest, resp =>
    match rule.Patterns.lookup ext with
    | none => scanRules filePath ext lineNum line rest resp
    | some pattern =>
      if MatchString pattern line then
        scanRules filePath ext lineNum line rest (resp ++ [mkFinding rule filePath ext lineNum line])
      else scanRules filePath ext lineNum line rest resp

/-- The outer loop of `scanFile` (`for scanner.Scan()`); `lineNum` is the counter before
the line is read. -/
def scanLoop (filePath ext : String) : List (List Char) → Nat → List Finding → List Finding
  | [], _, resp => resp
  | line :: rest, lineNum, resp =>
    scanLoop filePath ext rest (lineNum + 1) (scanRules filePath ext (lineNum + 1) line rules resp)

/-- The function `scanFile`: the response builder after the call, and the returned error. -/
def scanFile (resp : List Finding) (filePath ext : String) (f : FileData) :
    List Finding × Option GoErr :=
  match f with
  | .unopenable => (resp, none)
  | .bytes content readFails =>
    let toks := scanTokens readFails content []
    (scanLoop filePath ext toks.1 0 resp, toks.2)

/-- Backwards scan of `filepath.Ext` over the reversed path; `acc` is the suffix
already passed. -/
def extRev : List Char → List Char → List Char
  | [], _ => []
  | c :: t, acc =>
    if c.toNat == 47 then [] else if c.toNat == 46 then c :: acc else extRev t (c :: acc)

/-- Go `filepath.Ext`: the suffix beginning at the final dot in the final element of the
path, empty if there is no dot. -/
def Ext (path : String) : String := String.mk (extRev path.toList.reverse [])

/-! ## Paths and the directory walk -/

/-- Split a path at the separators, like `strings.Split(path, "/")`; `cur` holds the
current element in reverse. -/
def splitPath : List Char → List Char → List (List Char)
  | [], cur => [cur.reverse]
  | c :: t, cur => if c.toNat == 47 then cur.reverse :: splitPath t [] else splitPath t (c :: cur)

/-- One element of `filepath.Clean`: `out` is the stack of elements kept so far (last
one first). Empty and `.` elements are dropped; `..` removes the element before it
when there is one that is not itself `..`, is dropped at the root of a rooted path,
and is kept otherwise. -/
def cleanStep (rooted : Bool) (out : List (List Char)) (elem : List Char) : List (List Char) :=
  if elem = [] ∨ elem = ".".toList then out
  else if elem = "..".toList then
    match out with
    | top :: rest => if top = "..".toList then elem :: out else rest
    | [] => if rooted then [] else [elem]
  else elem :: out

/-- Go `filepath.Clean`, on the elements of the path. -/
def Clean (path : String) : String :=
  if path = "" then "."
  else
    let rooted := path.toList.head? == some (Char.ofNat 47)
    let out := (splitPath path.toList []).foldl (cleanStep rooted) []
    let body := String.mk ("/".toList.intercalate out.reverse)
    if rooted then "/" ++ body else if body = "" then "." else body

/-- Go `filepath.Join` of two elements. -/
def Join (dir name : String) : String :=
  if dir = "" then (if name = "" then "" else Clean name) else Clean (dir ++ "/" ++ name)

/-- A node of the file tree as the walk sees it. `file` is any entry that is not a
directory, with what opening and reading it gives. `dir` carries the entries
`os.ReadDir` returns for it, in the order it returns them (sorted by file name), and
whether `os.ReadDir` reported an error as well. -/
inductive Entry where
  | file (name : String) (data : FileData) : Entry
  | dir (name : String) (readErr : Bool) (kids : List Entry) : Entry

/-- The name `d.Name()` of an entry. -/
def Entry.name : Entry → String
  | .file n _ => n
  | .dir n _ _ => n

/-- Whether the entry is a directory, `d.IsDir()`. -/
def Entry.isDir : Entry → Bool
  | .file _ _ => false
  | .dir _ _ _ => true

/-- The two non-nil values of `ctx.Err()`. -/
inductive CtxErr where
  | canceled | deadlineExceeded
  deriving DecidableEq, Repr

/-- The error value of a context error. -/
def CtxErr.toErr : CtxErr → GoErr
  | .canceled => .canceled
  | .deadlineExceeded => .deadlineExceeded

/-- The caller's context: `ctx k` is what `ctx.Err()` returns during the `k`-th
invocation (counted from 0) of the walk callback. -/
abbrev Ctx := Nat → Option CtxErr

/-- State threaded through the walk: the response builder and the number of callback
invocations made so far. -/
structure WalkState where
  resp : List Finding
  tick : Nat
  deriving DecidableEq, Repr

/-- The callback on an entry reported with an error: `if err != nil { return nil }`. -/
def visitErr (st : WalkState) : WalkState × Option GoErr :=
  ({ st with tick := st.tick + 1 }, none)

/-- The callback of `handleScan` on an entry reported without error. -/
def visit (ctx : Ctx) (path : String) (d : Entry) (st : WalkState) : WalkState × Option GoErr :=
  let st1 : WalkState := { st with tick := st.tick + 1 }
  match ctx st.tick with
  | some e => (st1, some e.toErr)
  | none =>
    match d with
    | .dir name _ _ => if skippedDirs name then (st1, some .skipDir) else (st1, none)
    | .file _ data =>
      let ext := Ext path
      if !supportedExtensions ext then (st1, none)
      else
        let r := scanFile st1.resp path ext data
        ({ st1 with resp := r.1 }, r.2)

mutual
/-- The function `walkDir` of `path/filepath`: call the callback on the entry; descend into a
directory unless the callback returned an error (`SkipDir` on a directory counts as
success). -/
def walkDir (ctx : Ctx) : Entry → String → WalkState → WalkState × Option GoErr
  | .file name data, path, st => visit ctx path (.file name data) st
  | .dir name readErr kids, path, st =>
    let r := visit ctx path (.dir name readErr kids) st
    match r.2 with
    | some e => (r.1, if e = .skipDir then none else some e)
    | none =>
      let r2 := if readErr then visitErr r.1 else (r.1, none)
      match r2.2 with
      | some e => (r2.1, if e = .skipDir then none else some e)
      | none => walkKids ctx kids path r2.1
/-- The loop of `walkDir` over the entries of a directory: an error stops the walk,
`SkipDir` only leaves the loop. -/
def walkKids (ctx : Ctx) : List Entry → String → WalkState → WalkState × Option GoErr
  | [], _, st => (st, none)
  | d1 :: rest, path, st =>
    let r := walkDir ctx d1 (Join path d1.name) st
    match r.2 with
    | some e => if e = .skipDir then (r.1, none) else (r.1, some e)
    | none => walkKids ctx rest path r.1
end

/-- The file system: what `os.Lstat` finds at a path (`none` when it fails), as the
tree below it. -/
abbrev FileSystem := String → Option Entry

/-- Go `filepath.WalkDir` with the callback of `handleScan`. -/
def WalkDir (fs : FileSystem) (ctx : Ctx) (root : String) (st : WalkState) :
    WalkState × Option GoErr :=
  let r := match fs root with
    | none => visitErr st
    | some d => walkDir ctx d root st
  match r.2 with
  | some .skipDir => (r.1, none)
  | _ => r

/-- A value of the tool input (`map[string]any`). -/
inductive Value where
  | str (s : String) | num (n : Int) | bool (b : Bool) | null
  deriving DecidableEq, Repr

/-- The request handed to the tool handler. -/
structure ToolRequest where
  Input : List (String × Value)
  WorkspaceRoot : String
  deriving DecidableEq, Repr

/-- The response built by `resp.Build()`. -/
structure InvokeToolResponse where
  Findings : List Finding
  deriving DecidableEq, Repr

/-- The type assertion `v.(string)` with the result flag discarded. -/
def asString : Option Value → String
  | some (.str s) => s
  | _ => ""

/-- The workspace root `handleScan` uses: the tool input, else the request. -/
def workspaceRootOf (req : ToolRequest) : String :=
  let workspaceRoot := asString (req.Input.lookup "workspace_root")
  if workspaceRoot = "" then req.WorkspaceRoot else workspaceRoot

/-- The pair `handleScan` returns: a response with a nil error, or a nil response with
the error `walking workspace: cause`. -/
inductive ScanResult where
  | ok (resp : InvokeToolResponse) : ScanResult
  | error (cause : GoErr) : ScanResult
  deriving DecidableEq, Repr

/-- The tool handler `handleScan`: an empty root gives an empty response; otherwise
the tree is walked, and a walk error other than `context.Canceled` is returned. -/
def handleScan (fs : FileSystem) (ctx : Ctx) (req : ToolRequest) : ScanResult :=
  let workspaceRoot := workspaceRootOf req
  if workspaceRoot = "" then .ok { Findings := [] }
  else
    let r := WalkDir fs ctx workspaceRoot { resp := [], tick := 0 }
    match r.2 with
    | none => .ok { Findings := r.1.resp }
    | some e => if e = .canceled then .ok { Findings := r.1.resp } else .error e

/-! ## Auxiliary definitions used to state the properties -/

/-- Whether the rule has a pattern for the extension and that pattern matches the
line. -/
def ruleMatches (ext : String) (line : List Char) (r : exposureRule) : Bool :=
  match r.Patterns.lookup ext with
  | some p => MatchString p line
  | none => false

/-- The findings recorded for one line, counted from an empty builder. -/
def lineFindings (filePath ext : String) (lineNum : Nat) (line : List Char) : List Finding :=
  scanRules filePath ext lineNum line rules []

/-- One invocation of the walk callback: on an entry found at `path`, or on a
directory whose listing failed. -/
inductive Event where
  | enter (path : String) (d : Entry) : Event
  | failed (path : String) : Event

mutual
/-- The callback invocations the walk of an entry makes when nothing stops it, in
order: the entry itself, then, unless it is a directory with an excluded name, the
report of a failed listing (if any) and the invocations for its entries. -/
def eventsOf : Entry → String → List Event
  | .file name data, path => [.enter path (.file name data)]
  | .dir name readErr kids, path =>
    .enter path (.dir name readErr kids) ::
      (if skippedDirs name then []
       else (if readErr then [.failed path] else []) ++ eventsKids kids path)
/-- The callback invocations for the entries of the directory at `path`. -/
def eventsKids : List Entry → String → List Event
  | [], _ => []
  | d1 :: rest, path => eventsOf d1 (Join path d1.name) ++ eventsKids rest path
end

/-- Effect of one callback invocation on the walk: `SkipDir` does not stop it. -/
def stepEvent (ctx : Ctx) : Event → WalkState → WalkState × Option GoErr
  | .enter path d, st =>
    let r := visit ctx path d st
    (r.1, if r.2 = some .skipDir then none else r.2)
  | .failed _, st => visitErr st

/-- Run callback invocations in order until one returns an error. -/
def runEvents (ctx : Ctx) : List Event → WalkState → WalkState × Option GoErr
  | [], st => (st, none)
  | ev :: rest, st =>
    let r := stepEvent ctx ev st
    match r.2 with
    | some e => (r.1, some e)
    | none => runEvents ctx rest r.1

/-- The callback invocations of `filepath.WalkDir` on `root`: when `os.Lstat` fails,
one invocation reporting the error; otherwise those of the tree found there. -/
def rootEvents (fs : FileSystem) (root : String) : List Event :=
  match fs root with
  | none => [.failed root]
  | some d => eventsOf d root

/-- The finding was recorded by `scanFile` for some catalog rule and some line of the
file it names, and that file has a recognised extension. -/
def FromCatalog (f : Finding) : Prop :=
  supportedExtensions (Ext f.File) = true ∧
    ∃ r ∈ rules, ∃ (n : Nat) (line : List Char), f = mkFinding r f.File (Ext f.File) n line

/-- A context that is never done. -/
def background : Ctx := fun _ => none

/-- A request naming `root` in the tool input. -/
def scanRequest (root : String) : ToolRequest :=
  { Input := [("workspace_root", .str root)], WorkspaceRoot := "" }

/-- A file system holding one tree, at the path `root`. -/
def singleTree (root : String) (d : Entry) : FileSystem :=
  fun p => if p = root then some d else none

/-- A small workspace: a note, a Go file, a configuration directory and a vendored
dependency. -/
def sampleTree : Entry :=
  .dir "ws" false [
    .file "README.md" (.bytes "host 10.0.0.3\n".toList false),
    .file "app.go"
      (.bytes "var dbHost = \"10.0.1.50\"\nvar mail = \"admin@company.com\"\n".toList false),
    .dir "conf" false [
      .file "srv.yaml" (.bytes "version: \"2.4.51\"\nlog: /var/log/syslog\n".toList false)],
    .dir "vendor" false [.file "dep.go" (.bytes "peer 10.0.0.2\n".toList false)]]

mutual
/-- The tree with the data of every file whose path has no recognised extension
replaced by an unopenable file; `path` is the path of the entry during the walk. -/
def blankEntry : Entry → String → Entry
  | .file name data, path =>
    if supportedExtensions (Ext path) then .file name data else .file name .unopenable
  | .dir name readErr kids, path => .dir name readErr (blankKids kids path)
/-- The entries of the directory at `path`, each blanked at its own path. -/
def blankKids : List Entry → String → List Entry
  | [], _ => []
  | d1 :: rest, path => blankEntry d1 (Join path d1.name) :: blankKids rest path
end

mutual
/-- The tree with everything below a directory of excluded name removed. -/
def pruneEntry : Entry → Entry
  | .file name data => .file name data
  | .dir name readErr kids =>
    if skippedDirs name then .dir name readErr [] else .dir name readErr (pruneKids kids)
/-- The entries of a directory, each pruned. -/
def pruneKids : List Entry → List Entry
  | [] => []
  | d1 :: rest => pruneEntry d1 :: pruneKids rest
end

/-- A workspace whose files all have an extension outside the recognised set. -/
def unrecognisedTree : Entry :=
  .dir "ws" false [
    .file "MAIN.GO" (.bytes "var dbHost = \"10.0.1.50\"\n".toList false),
    .file "Makefile" (.bytes "HOST=10.0.1.50 admin@company.com /etc/passwd\n".toList false),
    .file "ci.yml" (.bytes "version: \"2.4.51\"\n".toList false),
    .file "notes.md" (.bytes "the database is at 10.0.1.50\n".toList false)]

/-- A workspace with a directory named `Vendor` next to one named `vendor`. -/
def casingTree : Entry :=
  .dir "ws" false [
    .dir "Vendor" false [.file "a.go" (.bytes "peer 10.0.0.1\n".toList false)],
    .dir "vendor" false [
      .dir "deep" false [.file "b.go" (.bytes "peer 10.0.0.2\n".toList false)]],
    .file "z.go" (.bytes "peer 10.0.0.3\n".toList false)]

/-- A context whose deadline has passed before the walk starts. -/
def expired : Ctx := fun _ => some .deadlineExceeded

/-- A context cancelled before the walk starts. -/
def cancelled : Ctx := fun _ => some .canceled

/-- A context cancelled between the `k`-th and the next callback invocation. -/
def cancelledAfter (k : Nat) : Ctx := fun t => if t < k then none else some .canceled

/-- A workspace whose second Go file cannot be read to the end. -/
def brokenReadTree : Entry :=
  .dir "ws" false [
    .file "a.go" (.bytes "peer 10.0.0.1\n".toList false),
    .file "b.go" (.bytes "mail admin@example.com\nlog /var/log/sys".toList true),
    .file "c.go" (.bytes "peer 10.0.0.3\n".toList false)]

/-- The catalog lookup: the pattern of the rule with the given id for the given
extension, if there is one. -/
def patternFor (id ext : String) : Option Regex :=
  (rules.find? (fun r => r.ID == id)).bind (fun r => r.Patterns.lookup ext)

/-- The decimal text of a number. -/
def octet (n : Nat) : List Char := (Nat.repr n).toList

/-- The dotted-quad text `a.b.c.d`. -/
def dottedQuad (a b c d : Nat) : List Char :=
  octet a ++ '.' :: (octet b ++ '.' :: (octet c ++ '.' :: octet d))

/-- Whether an address with first octets `a.b` lies in 10.0.0.0/8, 172.16.0.0/12 or
192.168.0.0/16. -/
def isPrivate (a b : Nat) : Bool :=
  a == 10 || (a == 172 && decide (16 ≤ b ∧ b ≤ 31)) || (a == 192 && b == 168)

/-- The two characters accepted by the pattern piece `(1[6-9]|2\d|3[01])`. -/
def secondOK (d1 d2 : Char) : Bool :=
  (d1 == '1' && decide (54 ≤ d2.toNat ∧ d2.toNat ≤ 57)) || (d1 == '2' && isDigit d2)
    || (d1 == '3' && (d2.toNat == 48 || d2.toNat == 49))

/-- Whether a text is accepted by the pattern piece `(1[6-9]|2\d|3[01])`. -/
def isSecond : List Char → Bool
  | [d1, d2] => secondOK d1 d2
  | _ => false


/-- The test fixture `testdata/vuln_app.go`, byte for byte (28 lines, the last one
without a line terminator). -/
def vulnApp : String :=
  "package main\n" ++
  "\n" ++
  "import \"fmt\"\n" ++
  "\n" ++
  "// EXPOSE-001: Exposed internal IP addresses and hostnames\n" ++
  "var dbHost = \"10.0.1.50\"\n" ++
  "var cacheHost = \"192.168.1.100\"\n" ++
  "var internalAPI = \"api.internal.corp\"\n" ++
  "\n" ++
  "// EXPOSE-002: Exposed email addresses\n" ++
  "var adminEmail = \"admin@company.com\"\n" ++
  "var supportEmail = \"support@internal.corp\"\n" ++
  "\n" ++
  "// EXPOSE-003: Exposed system paths\n" ++
  "func readConfig() \x7b\n" ++
  "\tpath := \"/etc/passwd\"\n" ++
  "\tlogPath := \"/var/log/syslog\"\n" ++
  "\tfmt.Println(path, logPath)\n" ++
  "\x7d\n" ++
  "\n" ++
  "// EXPOSE-004: Exposed version information\n" ++
  "func serverHeader() string \x7b\n" ++
  "\treturn \"Server: Apache/2.4.51\"\n" ++
  "\x7d\n" ++
  "\n" ++
  "func poweredBy() string \x7b\n" ++
  "\treturn \"X-Powered-By: Express\"\n" ++
  "\x7d"

/-- A workspace holding the test fixture. -/
def testdataTree : Entry :=
  .dir "testdata" false [.file "vuln_app.go" (.bytes vulnApp.toList false)]

/-- A workspace whose second Go file holds a line of 70000 bytes. -/
def longLineTree : Entry :=
  .dir "ws" false [
    .file "a.go" (.bytes "peer 10.0.0.1\n".toList false),
    .file "b.go" (.bytes ("mail admin@example.com\n".toList ++
      (List.replicate 70000 'x' ++ "\npeer 10.0.0.2\n".toList)) false),
    .file "c.go" (.bytes "peer 10.0.0.3\n".toList false)]

/-- A workspace root that is itself named `vendor`. -/
def vendorRootTree : Entry :=
  .dir "vendor" false [
    .file "a.go" (.bytes "peer 10.0.0.1\n".toList false),
    .dir "lib" false [.file "b.py" (.bytes "mail admin@example.com\n".toList false)]]

/-- The per-file finding list as the specification words it: for each line in order
(numbered from 1), for each rule in catalog order whose pattern for the file's
extension matches the line, one finding. -/
def fileFindings (path : String) (data : FileData) : List Finding :=
  match data with
  | .unopenable => []
  | .bytes content readFails =>
    (List.enumFrom 1 (scanTokens readFails content []).1).flatMap (fun nl =>
      (rules.filter (ruleMatches (Ext path) nl.2)).map
        (fun r => mkFinding r path (Ext path) nl.1 nl.2))

mutual
/-- The finding list of a tree as the specification words it: the concatenation, in
depth-first order and within a directory in the order of its entries, of the per-file
lists of the files in scope (recognised extension, not below a directory of excluded
name). -/
def treeFindings : Entry → String → List Finding
  | .file _ data, path => if supportedExtensions (Ext path) then fileFindings path data else []
  | .dir name _ kids, path => if skippedDirs name then [] else kidsFindings kids path
/-- The concatenation of the finding lists of the entries of the directory at `path`. -/
def kidsFindings : List Entry → String → List Finding
  | [], _ => []
  | d1 :: rest, path => treeFindings d1 (Join path d1.name) ++ kidsFindings rest path
end

/-- The finding list of the tree found at the workspace root, empty when there is
none. -/
def rootFindings (fs : FileSystem) (root : String) : List Finding :=
  match fs root with
  | none => []
  | some d => treeFindings d root

mutual
/-- Whether every file in scope can be read to its end: it cannot be opened, or the
scanner reports no error on it. -/
def readErrorFree : Entry → String → Bool
  | .file _ data, path =>
    !supportedExtensions (Ext path) ||
      (match data with
       | .unopenable => true
       | .bytes content readFails => (scanTokens readFails content []).2.isNone)
  | .dir name _ kids, path => skippedDirs name || kidsErrorFree kids path
/-- The same for the entries of the directory at `path`. -/
def kidsErrorFree : List Entry → String → Bool
  | [], _ => true
  | d1 :: rest, path => readErrorFree d1 (Join path d1.name) && kidsErrorFree rest path
end

/-- Whether the entry is a file that cannot be opened. -/
def Entry.unopenable : Entry → Bool
  | .file _ .unopenable => true
  | _ => false

mutual
/-- The tree without the files that cannot be opened (the root entry itself is kept). -/
def dropUnopenable : Entry → Entry
  | .file name data => .file name data
  | .dir name readErr kids => .dir name readErr (dropUnopenableKids kids)
/-- The entries of a directory without the files that cannot be opened. -/
def dropUnopenableKids : List Entry → List Entry
  | [] => []
  | d1 :: rest =>
    if d1.unopenable then dropUnopenableKids rest
    else dropUnopenable d1 :: dropUnopenableKids rest
end

/-- A workspace in which two files with a recognised extension cannot be opened. -/
def lockedTree : Entry :=
  .dir "ws" false [
    .file "a.go" .unopenable,
    .file "b.go" (.bytes "peer 10.0.0.1\n".toList false),
    .dir "sub" false [
      .file "c.py" .unopenable,
      .file "d.yaml" (.bytes "log: /var/log/syslog\n".toList false)]]

/-- The same workspace without those two files. -/
def unlockedTree : Entry :=
  .dir "ws" false [
    .file "b.go" (.bytes "peer 10.0.0.1\n".toList false),
    .dir "sub" false [
      .file "d.yaml" (.bytes "log: /var/log/syslog\n".toList false)]]

/-- A workspace with a Go file that cannot be opened next to one that stops being
readable after two lines. -/
def lockedBrokenTree : Entry :=
  .dir "ws" false [
    .file "a.go" .unopenable,
    .file "b.go" (.bytes "mail admin@example.com\nlog /var/log/sys".toList true)]
/-! ## The line scanner in closed form -/

theorem scanRules_eq (filePath ext : String) (n : Nat) (line : List Char) :
    ∀ (rs : List exposureRule) (resp : List Finding),
      scanRules filePath ext n line rs resp =
        resp ++ (rs.filter (ruleMatches ext line)).map
          (fun r => mkFinding r filePath ext n line) := by
  intro rs
  induction rs with
  | nil => intro resp; simp [scanRules]
  | cons r rest ih =>
    intro resp
    unfold scanRules
    cases hp : r.Patterns.lookup ext with
    | none => simp [ih, List.filter, ruleMatches, hp]
    | some p =>
      by_cases hm : MatchString p line = true
      · simp [ih, List.filter, ruleMatches, hp, hm]
      · simp [ih, List.filter, ruleMatches, hp, hm]

theorem scanLoop_eq (filePath ext : String) :
    ∀ (lines : List (List Char)) (k : Nat) (resp : List Finding),
      scanLoop filePath ext lines k resp =
        resp ++ (List.enumFrom (k + 1) lines).flatMap
          (fun nl => lineFindings filePath ext nl.1 nl.2) := by
  intro lines
  induction lines with
  | nil => intro k resp; simp [scanLoop]
  | cons line rest ih =>
    intro k resp
    simp only [scanLoop, ih, List.enumFrom_cons, List.flatMap_cons, lineFindings]
    rw [scanRules_eq, scanRules_eq]
    simp

theorem trimSpace_spec (s : List Char) :
    ∃ l r, s = l ++ trimSpace s ++ r ∧ (∀ c ∈ l, isSpaceGo c = true) ∧
      (∀ c ∈ r, isSpaceGo c = true) ∧
      (∀ c, (trimSpace s).head? = some c → isSpaceGo c = false) ∧
      (∀ c, (trimSpace s).getLast? = some c → isSpaceGo c = false) := by
  have hs : List.takeWhile isSpaceGo s ++ List.dropWhile isSpaceGo s = s :=
    List.takeWhile_append_dropWhile isSpaceGo s
  have ht : List.takeWhile isSpaceGo (List.dropWhile isSpaceGo s).reverse ++
      List.dropWhile isSpaceGo (List.dropWhile isSpaceGo s).reverse =
        (List.dropWhile isSpaceGo s).reverse :=
    List.takeWhile_append_dropWhile isSpaceGo _
  have ht2 : List.dropWhile isSpaceGo s =
      (List.dropWhile isSpaceGo (List.dropWhile isSpaceGo s).reverse).reverse ++
        (List.takeWhile isSpaceGo (List.dropWhile isSpaceGo s).reverse).reverse := by
    rw [← List.reverse_append, ht, List.reverse_reverse]
  refine ⟨List.takeWhile isSpaceGo s,
    (List.takeWhile isSpaceGo (List.dropWhile isSpaceGo s).reverse).reverse, ?_, ?_, ?_, ?_, ?_⟩
  · unfold trimSpace
    rw [List.append_assoc, ← ht2, hs]
  · intro c hc
    exact List.mem_takeWhile_imp hc
  · intro c hc
    exact List.mem_takeWhile_imp (List.mem_reverse.mp hc)
  · intro c hc
    unfold trimSpace at hc
    rw [List.head?_reverse] at hc
    have h1 : (List.dropWhile isSpaceGo s).reverse.getLast? = some c := by
      rw [← ht, List.getLast?_append, hc]; rfl
    rw [List.getLast?_reverse] at h1
    have h2 := List.head?_dropWhile_not isSpaceGo s
    rw [h1] at h2
    simpa using h2
  · intro c hc
    unfold trimSpace at hc
    rw [List.getLast?_reverse] at hc
    have h2 := List.head?_dropWhile_not isSpaceGo (List.dropWhile isSpaceGo s).reverse
    rw [hc] at h2
    simpa using h2

theorem supported_cases (ext : String) (hext : supportedExtensions ext = true) :
    ext = ".go" ∨ ext = ".py" ∨ ext = ".js" ∨ ext = ".ts" ∨ ext = ".json" ∨ ext = ".yaml" := by
  simp only [supportedExtensions, Bool.or_eq_true, beq_iff_eq] at hext
  tauto

theorem rules_have_pattern (ext : String) (hext : supportedExtensions ext = true) :
    ∀ r ∈ rules, (r.Patterns.lookup ext).isSome = true := by
  have h := supported_cases ext hext
  intro r hr
  simp only [rules, List.mem_cons, List.mem_singleton, List.not_mem_nil, or_false] at hr
  rcases h with h | h | h | h | h | h <;> subst h <;>
    rcases hr with hr | hr | hr | hr <;> subst hr <;> rfl

theorem countP_lineFindings (filePath ext : String) (n k : Nat) (line : List Char)
    (r : exposureRule) (hr : r ∈ rules) :
    (lineFindings filePath ext k line).countP
        (fun f => f.StartLine == n && f.RuleId == r.ID) =
      if k = n ∧ ruleMatches ext line r = true then 1 else 0 := by
  unfold lineFindings
  rw [scanRules_eq, List.nil_append, List.countP_map, List.countP_filter]
  by_cases hk : k = n
  · subst hk
    simp only [rules, List.mem_cons, List.mem_singleton, List.not_mem_nil, or_false] at hr
    rcases hr with hr | hr | hr | hr <;> subst hr <;>
      simp [rules, List.countP_cons, mkFinding, Function.comp_def]
  · have : ∀ x : exposureRule, ((fun f : Finding => f.StartLine == n && f.RuleId == r.ID) ∘
        (fun r => mkFinding r filePath ext k line)) x = false := by
      intro x; simp [mkFinding, hk]
    simp [hk, List.countP_eq_zero, mkFinding]

theorem countP_enumFindings (filePath ext : String) (n : Nat) (r : exposureRule)
    (hr : r ∈ rules) :
    ∀ (lines : List (List Char)) (k : Nat),
      ((List.enumFrom k lines).flatMap
          (fun nl => lineFindings filePath ext nl.1 nl.2)).countP
          (fun f => f.StartLine == n && f.RuleId == r.ID) =
        if k ≤ n then
          match lines[n - k]? with
          | some line => if ruleMatches ext line r = true then 1 else 0
          | none => 0
        else 0 := by
  intro lines
  induction lines with
  | nil => intro k; simp
  | cons line rest ih =>
    intro k
    rw [List.enumFrom_cons, List.flatMap_cons, List.countP_append,
      countP_lineFindings filePath ext n k line r hr, ih (k + 1)]
    by_cases h1 : k = n
    · subst h1; simp
    · by_cases h2 : k ≤ n
      · have h3 : k + 1 ≤ n := by omega
        have h4 : n - k = (n - (k + 1)) + 1 := by omega
        simp only [h1, false_and, if_false, h3, h2, if_true, Nat.zero_add]
        rw [h4, List.getElem?_cons_succ]
      · have h3 : ¬ (k + 1 ≤ n) := by omega
        simp [h1, h2, h3]

/-- C1: for a recognised extension and a file read without error, `scanFile` appends,
line by line (numbered from 1) and within a line in catalog order, exactly one finding
for every rule whose pattern for the extension matches the line, and nothing else;
the finding carries the rule id, the path, the line number as start and end line and
the message `Description ++ ": " ++ trimmed line`. Hence the number of findings of a
given line and rule is 1 when the pattern matches and 0 otherwise, also when two rules
match the same line or the pattern occurs several times in it. -/
theorem C1_scanFile_findings (resp : List Finding) (filePath ext : String)
    (content : List Char) (hext : supportedExtensions ext = true)
    (hread : (scanTokens false content []).2 = none) :
    (∀ r ∈ rules, (r.Patterns.lookup ext).isSome = true) ∧
    scanFile resp filePath ext (.bytes content false) =
      (resp ++ (List.enumFrom 1 (scanTokens false content []).1).flatMap (fun nl =>
        (rules.filter (ruleMatches ext nl.2)).map (fun r =>
          ({ RuleId := r.ID, Severity := r.Severity, Confidence := r.ConfLevel,
             Message := r.Description ++ ": " ++ String.mk (trimSpace nl.2),
             File := filePath, StartLine := nl.1, EndLine := nl.1,
             Metadata := [("language", extToLanguage ext)] } : Finding))), none) ∧
    (∀ (n : Nat) (line : List Char) (r : exposureRule), r ∈ rules →
      (scanTokens false content []).1[n]? = some line →
      ((scanFile [] filePath ext (.bytes content false)).1.countP
          (fun f => f.StartLine == n + 1 && f.RuleId == r.ID) =
        if ruleMatches ext line r = true then 1 else 0)) ∧
    (∀ line : List Char, ∃ l r, line = l ++ trimSpace line ++ r ∧
      (∀ c ∈ l, isSpaceGo c = true) ∧ (∀ c ∈ r, isSpaceGo c = true) ∧
      (∀ c, (trimSpace line).head? = some c → isSpaceGo c = false) ∧
      (∀ c, (trimSpace line).getLast? = some c → isSpaceGo c = false)) := by
  refine ⟨rules_have_pattern ext hext, ?_, ?_, trimSpace_spec⟩
  · simp only [scanFile, hread, scanLoop_eq, lineFindings, scanRules_eq, List.nil_append,
      mkFinding, Nat.zero_add]
  · intro n line r hr hline
    have h := countP_enumFindings filePath ext (n + 1) r hr (scanTokens false content []).1 1
    simp only [scanFile, scanLoop_eq, List.nil_append, Nat.zero_add]
    rw [h]
    simp [hline]

/-- C1, on a three-line file: line 1 holds a private address twice and a system path
(one finding for each of the two rules), line 2 nothing, line 3 an e-mail address. -/
theorem C1_scanFile_findings_witness :
    (scanFile [] "a.go" ".go"
        (.bytes "  x := 10.0.0.1 + 10.0.0.2 // /etc/passwd \r\n\nmail admin@example.com".toList
          false)).1.map (fun f => (f.RuleId, f.StartLine, f.EndLine, f.Message)) =
      [("EXPOSE-001", 1, 1,
          "Exposed internal IP address or hostname in source code: x := 10.0.0.1 + 10.0.0.2 // /etc/passwd"),
        ("EXPOSE-003", 1, 1,
          "Exposed file path pointing to system directory: x := 10.0.0.1 + 10.0.0.2 // /etc/passwd"),
        ("EXPOSE-002", 3, 3,
          "Exposed email address in source code (potential PII leak): mail admin@example.com")] ∧
    (scanFile [] "a.go" ".go"
        (.bytes "  x := 10.0.0.1 + 10.0.0.2 // /etc/passwd \r\n\nmail admin@example.com".toList
          false)).1.countP (fun f => f.StartLine == 0 + 1 && f.RuleId == "EXPOSE-001") = 1 := by
  have h := C1_scanFile_findings [] "a.go" ".go"
    "  x := 10.0.0.1 + 10.0.0.2 // /etc/passwd \r\n\nmail admin@example.com".toList
    (by decide) (by decide)
  refine ⟨by decide, ?_⟩
  have h2 := h.2.2.1 0 "  x := 10.0.0.1 + 10.0.0.2 // /etc/passwd ".toList
    (rules.get ⟨0, by decide⟩) (List.get_mem rules 0 (by decide)) (by decide)
  rw [show (rules.get ⟨0, by decide⟩).ID = "EXPOSE-001" from rfl] at h2
  rw [h2]
  decide

/-! ## The walk as a sequence of callback invocations -/

theorem runEvents_append (ctx : Ctx) :
    ∀ (a b : List Event) (st : WalkState),
      runEvents ctx (a ++ b) st =
        match (runEvents ctx a st).2 with
        | some e => ((runEvents ctx a st).1, some e)
        | none => runEvents ctx b (runEvents ctx a st).1 := by
  intro a
  induction a with
  | nil => intro b st; simp [runEvents]
  | cons ev rest ih =>
    intro b st
    simp only [List.cons_append, runEvents]
    cases h : (stepEvent ctx ev st).2 with
    | some e => simp
    | none => simp [ih]

theorem stepEvent_ne_skipDir (ctx : Ctx) (ev : Event) (st : WalkState) :
    (stepEvent ctx ev st).2 ≠ some .skipDir := by
  cases ev with
  | enter path d =>
    simp only [stepEvent]
    split <;> simp_all
  | failed path => simp [stepEvent, visitErr]

theorem runEvents_ne_skipDir (ctx : Ctx) :
    ∀ (evs : List Event) (st : WalkState), (runEvents ctx evs st).2 ≠ some .skipDir := by
  intro evs
  induction evs with
  | nil => intro st; simp [runEvents]
  | cons ev rest ih =>
    intro st
    simp only [runEvents]
    cases h : (stepEvent ctx ev st).2 with
    | some e =>
      simp only
      intro hc
      exact stepEvent_ne_skipDir ctx ev st (by rw [h]; exact hc)
    | none => exact ih _

theorem scanTokens_err (readFails : Bool) :
    ∀ (content cur : List Char),
      (scanTokens readFails content cur).2 = none ∨
      (scanTokens readFails content cur).2 = some .errTooLong ∨
      ((scanTokens readFails content cur).2 = some .readErr ∧ readFails = true) := by
  intro content
  induction content with
  | nil =>
    intro cur
    simp only [scanTokens]
    split
    · simp
    · cases readFails <;> split <;> simp
  | cons c t ih =>
    intro cur
    simp only [scanTokens]
    split
    · split
      · simp
      · exact ih []
    · exact ih (c :: cur)

theorem scanFile_err (resp : List Finding) (path ext : String) (data : FileData) :
    (scanFile resp path ext data).2 = none ∨
    (scanFile resp path ext data).2 = some .errTooLong ∨
    (scanFile resp path ext data).2 = some .readErr := by
  cases data with
  | unopenable => simp [scanFile]
  | bytes content readFails =>
    simp only [scanFile]
    rcases scanTokens_err readFails content [] with h | h | h
    · exact Or.inl h
    · exact Or.inr (Or.inl h)
    · exact Or.inr (Or.inr h.1)

theorem visit_file_ne_skipDir (ctx : Ctx) (path name : String) (data : FileData)
    (st : WalkState) : (visit ctx path (.file name data) st).2 ≠ some .skipDir := by
  unfold visit
  cases hc : ctx st.tick with
  | some e => cases e <;> simp [CtxErr.toErr]
  | none =>
    simp only
    split
    · simp
    · rcases scanFile_err st.resp path (Ext path) data with h | h | h <;> simp [h]

theorem runEvents_single (ctx : Ctx) (ev : Event) (st : WalkState) :
    runEvents ctx [ev] st = stepEvent ctx ev st := by
  simp only [runEvents]
  cases h : (stepEvent ctx ev st).2 with
  | some e => exact Prod.ext rfl (by simp [h])
  | none => exact Prod.ext rfl (by simp [h])

theorem stepEvent_file (ctx : Ctx) (path name : String) (data : FileData) (st : WalkState) :
    stepEvent ctx (.enter path (.file name data)) st = visit ctx path (.file name data) st := by
  have h := visit_file_ne_skipDir ctx path name data st
  simp only [stepEvent]
  exact Prod.ext rfl (by simp [h])

mutual
theorem walkDir_eq_run (ctx : Ctx) :
    ∀ (e : Entry) (path : String) (st : WalkState),
      walkDir ctx e path st = runEvents ctx (eventsOf e path) st
  | .file name data, path, st => by
    simp only [walkDir, eventsOf, runEvents_single, stepEvent_file]
  | .dir name readErr kids, path, st => by
    have ih := walkKids_eq_run ctx kids path
    simp only [walkDir, eventsOf, runEvents, stepEvent]
    cases hv : (visit ctx path (.dir name readErr kids) st).2 with
    | some e =>
      by_cases he : e = .skipDir
      · subst he
        have hs : skippedDirs name = true := by
          unfold visit at hv
          cases hc : ctx st.tick with
          | some c => rw [hc] at hv; cases c <;> simp [CtxErr.toErr] at hv
          | none =>
            rw [hc] at hv
            by_cases hsk : skippedDirs name = true
            · exact hsk
            · simp [hsk] at hv
        simp [hs, runEvents]
      · simp [he]
    | none =>
      have hs : skippedDirs name = false := by
        unfold visit at hv
        cases hc : ctx st.tick with
        | some c => rw [hc] at hv; simp at hv
        | none =>
          rw [hc] at hv
          by_cases hsk : skippedDirs name = true
          · simp [hsk] at hv
          · simpa using hsk
      cases readErr with
      | false => simp [hs, ih]
      | true => simp [hs, ih, runEvents, stepEvent, visitErr]
theorem walkKids_eq_run (ctx : Ctx) :
    ∀ (kids : List Entry) (path : String) (st : WalkState),
      walkKids ctx kids path st = runEvents ctx (eventsKids kids path) st
  | [], path, st => by simp [walkKids, eventsKids, runEvents]
  | d1 :: rest, path, st => by
    have ih1 := walkDir_eq_run ctx d1 (Join path d1.name) st
    have ih2 := walkKids_eq_run ctx rest path
    simp only [walkKids, eventsKids, runEvents_append, ih1]
    cases hv : (runEvents ctx (eventsOf d1 (Join path d1.name)) st).2 with
    | some e =>
      have he : e ≠ .skipDir := by
        intro hc
        exact runEvents_ne_skipDir ctx _ st (by rw [hv, hc])
      simp [he]
    | none => simp [ih2]
end

theorem WalkDir_eq_run (fs : FileSystem) (ctx : Ctx) (root : String) (st : WalkState) :
    WalkDir fs ctx root st = runEvents ctx (rootEvents fs root) st := by
  unfold WalkDir rootEvents
  cases h : fs root with
  | none => simp [runEvents_single, stepEvent, visitErr]
  | some d =>
    simp only [walkDir_eq_run]
    have hne := runEvents_ne_skipDir ctx (eventsOf d root) st
    split
    · rename_i hs; exact absurd hs hne
    · rfl

theorem handleScan_eq_run (fs : FileSystem) (ctx : Ctx) (req : ToolRequest) :
    handleScan fs ctx req =
      if workspaceRootOf req = "" then .ok { Findings := [] }
      else
        match (runEvents ctx (rootEvents fs (workspaceRootOf req)) { resp := [], tick := 0 }).2 with
        | none => .ok { Findings :=
            (runEvents ctx (rootEvents fs (workspaceRootOf req)) { resp := [], tick := 0 }).1.resp }
        | some e =>
          if e = .canceled then .ok { Findings :=
            (runEvents ctx (rootEvents fs (workspaceRootOf req)) { resp := [], tick := 0 }).1.resp }
          else .error e := by
  unfold handleScan
  simp only [WalkDir_eq_run]

theorem scanFile_mem (resp : List Finding) (path ext : String) (data : FileData) (f : Finding)
    (hf : f ∈ (scanFile resp path ext data).1) :
    f ∈ resp ∨ ∃ r ∈ rules, ∃ (n : Nat) (line : List Char), f = mkFinding r path ext n line := by
  cases data with
  | unopenable => exact Or.inl (by simpa [scanFile] using hf)
  | bytes content readFails =>
    simp only [scanFile, scanLoop_eq, lineFindings, scanRules_eq, List.nil_append,
      List.mem_append, List.mem_flatMap, List.mem_map, List.mem_filter] at hf
    rcases hf with hf | ⟨nl, _, r, ⟨hr, _⟩, rfl⟩
    · exact Or.inl hf
    · exact Or.inr ⟨r, hr, nl.1, nl.2, rfl⟩

theorem stepEvent_mem (ctx : Ctx) (ev : Event) (st : WalkState) (f : Finding)
    (hf : f ∈ (stepEvent ctx ev st).1.resp) : f ∈ st.resp ∨ FromCatalog f := by
  cases ev with
  | failed path => exact Or.inl (by simpa [stepEvent, visitErr] using hf)
  | enter path d =>
    simp only [stepEvent, visit] at hf
    cases hc : ctx st.tick with
    | some c => rw [hc] at hf; exact Or.inl hf
    | none =>
      rw [hc] at hf
      cases d with
      | dir name readErr kids =>
        simp only at hf
        split at hf <;> exact Or.inl hf
      | file name data =>
        simp only at hf
        by_cases hs : supportedExtensions (Ext path) = true
        · simp only [hs, Bool.not_true, Bool.false_eq_true, if_false] at hf
          rcases scanFile_mem _ _ _ _ _ hf with h | ⟨r, hr, n, line, rfl⟩
          · exact Or.inl h
          · exact Or.inr ⟨hs, r, hr, n, line, rfl⟩
        · simp only [hs, Bool.not_false, if_true] at hf
          exact Or.inl hf

theorem runEvents_mem (ctx : Ctx) :
    ∀ (evs : List Event) (st : WalkState) (f : Finding),
      f ∈ (runEvents ctx evs st).1.resp → f ∈ st.resp ∨ FromCatalog f := by
  intro evs
  induction evs with
  | nil => intro st f hf; exact Or.inl (by simpa [runEvents] using hf)
  | cons ev rest ih =>
    intro st f hf
    simp only [runEvents] at hf
    cases h : (stepEvent ctx ev st).2 with
    | some e =>
      rw [h] at hf
      exact stepEvent_mem ctx ev st f hf
    | none =>
      rw [h] at hf
      rcases ih _ f hf with h1 | h1
      · exact stepEvent_mem ctx ev st f h1
      · exact Or.inr h1

theorem handleScan_fromCatalog (fs : FileSystem) (ctx : Ctx) (req : ToolRequest)
    (resp : InvokeToolResponse) (h : handleScan fs ctx req = .ok resp) :
    ∀ f ∈ resp.Findings, FromCatalog f := by
  intro f hf
  rw [handleScan_eq_run] at h
  have key : ∀ g ∈ (runEvents ctx (rootEvents fs (workspaceRootOf req))
      { resp := [], tick := 0 }).1.resp, FromCatalog g := by
    intro g hg
    rcases runEvents_mem ctx _ _ g hg with h1 | h1
    · simp at h1
    · exact h1
  split at h
  · cases h; simp at hf
  · split at h
    · cases h; exact key f hf
    · split at h
      · cases h; exact key f hf
      · cases h

/-- C2: every finding of a scan result has one of the four catalog ids, with the
severity and confidence fixed for that id: EXPOSE-001 high/high, EXPOSE-002
high/medium, EXPOSE-003 medium/high, EXPOSE-004 medium/medium. -/
theorem C2_findings_carry_rule_levels (fs : FileSystem) (ctx : Ctx) (req : ToolRequest)
    (resp : InvokeToolResponse) (h : handleScan fs ctx req = .ok resp) :
    ∀ f ∈ resp.Findings,
      (f.RuleId = "EXPOSE-001" ∧ f.Severity = .high ∧ f.Confidence = .high) ∨
      (f.RuleId = "EXPOSE-002" ∧ f.Severity = .high ∧ f.Confidence = .medium) ∨
      (f.RuleId = "EXPOSE-003" ∧ f.Severity = .medium ∧ f.Confidence = .high) ∨
      (f.RuleId = "EXPOSE-004" ∧ f.Severity = .medium ∧ f.Confidence = .medium) := by
  intro f hf
  obtain ⟨_, r, hr, n, line, hfe⟩ := handleScan_fromCatalog fs ctx req resp h f hf
  simp only [rules, List.mem_cons, List.mem_singleton, List.not_mem_nil, or_false] at hr
  rcases hr with hr | hr | hr | hr <;> subst hr <;> rw [hfe] <;> simp [mkFinding]

/-- C2, on the sample workspace: the scan succeeds with four findings, one for each
rule, each with the levels of its rule. -/
theorem C2_findings_carry_rule_levels_witness :
    ∃ resp, handleScan (singleTree "ws" sampleTree) background (scanRequest "ws") = .ok resp ∧
      resp.Findings.map (fun f => (f.RuleId, f.File, f.StartLine)) =
        [("EXPOSE-001", "ws/app.go", 1), ("EXPOSE-002", "ws/app.go", 2),
          ("EXPOSE-004", "ws/conf/srv.yaml", 1), ("EXPOSE-003", "ws/conf/srv.yaml", 2)] ∧
      ∀ f ∈ resp.Findings,
        (f.RuleId = "EXPOSE-001" ∧ f.Severity = .high ∧ f.Confidence = .high) ∨
        (f.RuleId = "EXPOSE-002" ∧ f.Severity = .high ∧ f.Confidence = .medium) ∨
        (f.RuleId = "EXPOSE-003" ∧ f.Severity = .medium ∧ f.Confidence = .high) ∨
        (f.RuleId = "EXPOSE-004" ∧ f.Severity = .medium ∧ f.Confidence = .medium) :=
  ⟨_, rfl, by decide,
    C2_findings_carry_rule_levels (singleTree "ws" sampleTree) background (scanRequest "ws") _ rfl⟩

/-! ## Files outside the recognised extensions, excluded directories -/

theorem blankEntry_name (e : Entry) (path : String) : (blankEntry e path).name = e.name := by
  cases e with
  | file name data =>
    simp only [blankEntry]
    split <;> rfl
  | dir name readErr kids => simp [blankEntry, Entry.name]

theorem visit_dir_irrel (ctx : Ctx) (path name : String) (re re1 : Bool)
    (kids kids1 : List Entry) (st : WalkState) :
    visit ctx path (.dir name re kids) st = visit ctx path (.dir name re1 kids1) st := rfl

mutual
theorem walkDir_blank (ctx : Ctx) :
    ∀ (e : Entry) (path : String) (st : WalkState),
      walkDir ctx (blankEntry e path) path st = walkDir ctx e path st
  | .file name data, path, st => by
    by_cases hs : supportedExtensions (Ext path) = true
    · simp [blankEntry, hs]
    · have hb : blankEntry (.file name data) path = .file name .unopenable := by
        simp [blankEntry, hs]
      rw [hb]
      simp only [walkDir, visit]
      cases h : ctx st.tick <;> simp [hs]
  | .dir name readErr kids, path, st => by
    have ih := walkKids_blank ctx kids path
    simp only [blankEntry, walkDir, ih]
    rw [visit_dir_irrel ctx path name readErr readErr (blankKids kids path) kids st]
theorem walkKids_blank (ctx : Ctx) :
    ∀ (kids : List Entry) (path : String) (st : WalkState),
      walkKids ctx (blankKids kids path) path st = walkKids ctx kids path st
  | [], path, st => by simp [blankKids]
  | d1 :: rest, path, st => by
    have ih1 := walkDir_blank ctx d1 (Join path d1.name) st
    have ih2 := walkKids_blank ctx rest path
    simp only [blankKids, walkKids, blankEntry_name, ih1, ih2]
end

theorem pruneEntry_name (e : Entry) : (pruneEntry e).name = e.name := by
  cases e with
  | file name data => rfl
  | dir name readErr kids =>
    simp only [pruneEntry]
    split <;> rfl

theorem visit_skipped (ctx : Ctx) (path name : String) (re : Bool) (kids : List Entry)
    (st : WalkState) (hs : skippedDirs name = true) :
    (visit ctx path (.dir name re kids) st).2 ≠ none := by
  unfold visit
  cases ctx st.tick <;> simp [hs]

mutual
theorem walkDir_prune (ctx : Ctx) :
    ∀ (e : Entry) (path : String) (st : WalkState),
      walkDir ctx (pruneEntry e) path st = walkDir ctx e path st
  | .file name data, path, st => by simp [pruneEntry]
  | .dir name readErr kids, path, st => by
    have ih := walkKids_prune ctx kids path
    by_cases hs : skippedDirs name = true
    · have hv := visit_skipped ctx path name readErr kids st hs
      have hp : pruneEntry (.dir name readErr kids) = .dir name readErr [] := by
        simp [pruneEntry, hs]
      rw [hp]
      simp only [walkDir]
      rw [visit_dir_irrel ctx path name readErr readErr [] kids st]
      cases h : (visit ctx path (.dir name readErr kids) st).2 with
      | none => exact absurd h hv
      | some e => rfl
    · have hp : pruneEntry (.dir name readErr kids) = .dir name readErr (pruneKids kids) := by
        simp [pruneEntry, hs]
      rw [hp]
      simp only [walkDir, ih]
      rw [visit_dir_irrel ctx path name readErr readErr (pruneKids kids) kids st]
theorem walkKids_prune (ctx : Ctx) :
    ∀ (kids : List Entry) (path : String) (st : WalkState),
      walkKids ctx (pruneKids kids) path st = walkKids ctx kids path st
  | [], path, st => by simp [pruneKids]
  | d1 :: rest, path, st => by
    have ih1 := walkDir_prune ctx d1 (Join path d1.name) st
    have ih2 := walkKids_prune ctx rest path
    simp only [pruneKids, walkKids, pruneEntry_name, ih1, ih2]
end

theorem handleScan_congr (fs fs1 : FileSystem) (ctx : Ctx) (req : ToolRequest)
    (h : ∀ st, WalkDir fs ctx (workspaceRootOf req) st = WalkDir fs1 ctx (workspaceRootOf req) st) :
    handleScan fs ctx req = handleScan fs1 ctx req := by
  unfold handleScan
  simp only [h]

theorem extRev_suffix (suf : List Char) (h : ∀ c ∈ suf, c ≠ '.' ∧ c ≠ '/') :
    ∀ (rest acc : List Char),
      extRev (suf ++ '.' :: rest) acc = '.' :: (suf.reverse ++ acc) := by
  induction suf with
  | nil => intro rest acc; simp [extRev]
  | cons c t ih =>
    intro rest acc
    have hc := h c (List.mem_cons_self _ _)
    have h1 : ¬ c.toNat = 47 := fun hn => hc.2 (by rw [← Char.ofNat_toNat c, hn])
    have h2 : ¬ c.toNat = 46 := fun hn => hc.1 (by rw [← Char.ofNat_toNat c, hn])
    rw [List.cons_append]
    simp only [extRev, beq_iff_eq, h1, h2, if_false]
    rw [ih (fun x hx => h x (List.mem_cons_of_mem _ hx))]
    simp

theorem extRev_no_dot (base : List Char) (h : ∀ c ∈ base, c ≠ '.' ∧ c ≠ '/') :
    ∀ (rest acc : List Char), extRev (base ++ '/' :: rest) acc = [] ∧ extRev base acc = [] := by
  induction base with
  | nil => intro rest acc; simp [extRev]
  | cons c t ih =>
    intro rest acc
    have hc := h c (List.mem_cons_self _ _)
    have h1 : ¬ c.toNat = 47 := fun hn => hc.2 (by rw [← Char.ofNat_toNat c, hn])
    have h2 : ¬ c.toNat = 46 := fun hn => hc.1 (by rw [← Char.ofNat_toNat c, hn])
    rw [List.cons_append]
    simp only [extRev, beq_iff_eq, h1, h2, if_false]
    exact ih (fun x hx => h x (List.mem_cons_of_mem _ hx)) rest (c :: acc)

theorem Ext_of_suffix (pre suf : List Char) (h : ∀ c ∈ suf, c ≠ '.' ∧ c ≠ '/') :
    Ext (String.mk (pre ++ '.' :: suf)) = String.mk ('.' :: suf) := by
  unfold Ext
  have h2 : ∀ c ∈ suf.reverse, c ≠ '.' ∧ c ≠ '/' := fun c hc => h c (List.mem_reverse.mp hc)
  have := extRev_suffix suf.reverse h2 pre.reverse []
  simp only [String.toList, List.reverse_append, List.reverse_cons, List.append_assoc,
    List.singleton_append]
  rw [this]
  simp

theorem Ext_of_no_dot (pre base : List Char) (h : ∀ c ∈ base, c ≠ '.' ∧ c ≠ '/') :
    Ext (String.mk (pre ++ '/' :: base)) = "" ∧ Ext (String.mk base) = "" := by
  unfold Ext
  have h2 : ∀ c ∈ base.reverse, c ≠ '.' ∧ c ≠ '/' := fun c hc => h c (List.mem_reverse.mp hc)
  have := extRev_no_dot base.reverse h2 pre.reverse []
  simp only [String.toList, List.reverse_append, List.reverse_cons, List.append_assoc,
    List.singleton_append]
  rw [this.1, this.2]
  exact ⟨rfl, rfl⟩

theorem WalkDir_blank_congr (fs fs1 : FileSystem) (ctx : Ctx) (root : String)
    (h : (fs root).map (fun d => blankEntry d root) = (fs1 root).map (fun d => blankEntry d root))
    (st : WalkState) : WalkDir fs ctx root st = WalkDir fs1 ctx root st := by
  unfold WalkDir
  cases h1 : fs root with
  | none =>
    cases h2 : fs1 root with
    | none => rfl
    | some d1 => rw [h1, h2] at h; simp at h
  | some d =>
    cases h2 : fs1 root with
    | none => rw [h1, h2] at h; simp at h
    | some d1 =>
      rw [h1, h2] at h
      simp only [Option.map_some', Option.some.injEq] at h
      simp only
      rw [← walkDir_blank ctx d root st, ← walkDir_blank ctx d1 root st, h]

theorem WalkDir_prune_congr (fs fs1 : FileSystem) (ctx : Ctx) (root : String)
    (h : (fs root).map pruneEntry = (fs1 root).map pruneEntry)
    (st : WalkState) : WalkDir fs ctx root st = WalkDir fs1 ctx root st := by
  unfold WalkDir
  cases h1 : fs root with
  | none =>
    cases h2 : fs1 root with
    | none => rfl
    | some d1 => rw [h1, h2] at h; simp at h
  | some d =>
    cases h2 : fs1 root with
    | none => rw [h1, h2] at h; simp at h
    | some d1 =>
      rw [h1, h2] at h
      simp only [Option.map_some', Option.some.injEq] at h
      simp only
      rw [← walkDir_prune ctx d root st, ← walkDir_prune ctx d1 root st, h]

/-- C3: every finding of a scan result names a file whose extension is one of `.go`,
`.py`, `.js`, `.ts`, `.json`, `.yaml`; the extension is the suffix starting at the last
dot of the last path element (none if that element has no dot), compared as is; and
the result of a scan does not depend on what the files with another extension hold
(two file systems that agree once those files are blanked give the same result). A
workspace with only `MAIN.GO`, `Makefile`, `ci.yml` and `notes.md`, each holding
sensitive text, yields no finding. -/
theorem C3_only_recognised_extensions (fs fs1 : FileSystem) (ctx : Ctx) (req : ToolRequest) :
    (∀ resp, handleScan fs ctx req = .ok resp → ∀ f ∈ resp.Findings,
      Ext f.File = ".go" ∨ Ext f.File = ".py" ∨ Ext f.File = ".js" ∨ Ext f.File = ".ts" ∨
        Ext f.File = ".json" ∨ Ext f.File = ".yaml") ∧
    ((∀ p, (fs p).map (fun d => blankEntry d p) = (fs1 p).map (fun d => blankEntry d p)) →
      handleScan fs ctx req = handleScan fs1 ctx req) ∧
    (∀ pre suf : List Char, (∀ c ∈ suf, c ≠ '.' ∧ c ≠ '/') →
      Ext (String.mk (pre ++ '.' :: suf)) = String.mk ('.' :: suf)) ∧
    (∀ pre base : List Char, (∀ c ∈ base, c ≠ '.' ∧ c ≠ '/') →
      Ext (String.mk (pre ++ '/' :: base)) = "" ∧ Ext (String.mk base) = "") ∧
    (supportedExtensions ".md" = false ∧ supportedExtensions ".GO" = false ∧
      supportedExtensions ".yml" = false ∧ supportedExtensions "" = false) ∧
    handleScan (singleTree "ws" unrecognisedTree) background (scanRequest "ws") =
      .ok { Findings := [] } := by
  refine ⟨?_, ?_, Ext_of_suffix, Ext_of_no_dot, by decide, by decide⟩
  · intro resp h f hf
    exact supported_cases _ (handleScan_fromCatalog fs ctx req resp h f hf).1
  · intro h
    exact handleScan_congr fs fs1 ctx req
      (fun st => WalkDir_blank_congr fs fs1 ctx _ (h _) st)

/-- C3, on the sample workspace: the findings come from `app.go` and `srv.yaml`, and
they stay the same when the note `README.md` is replaced by other text. -/
theorem C3_only_recognised_extensions_witness :
    (∃ resp, handleScan (singleTree "ws" sampleTree) background (scanRequest "ws") = .ok resp ∧
      resp.Findings.map (fun f => f.File) =
        ["ws/app.go", "ws/app.go", "ws/conf/srv.yaml", "ws/conf/srv.yaml"] ∧
      ∀ f ∈ resp.Findings,
        Ext f.File = ".go" ∨ Ext f.File = ".py" ∨ Ext f.File = ".js" ∨ Ext f.File = ".ts" ∨
          Ext f.File = ".json" ∨ Ext f.File = ".yaml") ∧
    handleScan (singleTree "ws" sampleTree) background (scanRequest "ws") =
      handleScan (singleTree "ws" (.dir "ws" false [
        .file "README.md" (.bytes "mail root@example.com at 192.168.0.1\n".toList false),
        .file "app.go"
          (.bytes "var dbHost = \"10.0.1.50\"\nvar mail = \"admin@company.com\"\n".toList false),
        .dir "conf" false [
          .file "srv.yaml"
            (.bytes "version: \"2.4.51\"\nlog: /var/log/syslog\n".toList false)],
        .dir "vendor" false [.file "dep.go" (.bytes "peer 10.0.0.2\n".toList false)]]))
        background (scanRequest "ws") := by
  have h := C3_only_recognised_extensions (singleTree "ws" sampleTree)
    (singleTree "ws" (.dir "ws" false [
        .file "README.md" (.bytes "mail root@example.com at 192.168.0.1\n".toList false),
        .file "app.go"
          (.bytes "var dbHost = \"10.0.1.50\"\nvar mail = \"admin@company.com\"\n".toList false),
        .dir "conf" false [
          .file "srv.yaml"
            (.bytes "version: \"2.4.51\"\nlog: /var/log/syslog\n".toList false)],
        .dir "vendor" false [.file "dep.go" (.bytes "peer 10.0.0.2\n".toList false)]]))
    background (scanRequest "ws")
  refine ⟨⟨_, rfl, by decide, h.1 _ rfl⟩, h.2.1 ?_⟩
  · intro p
    by_cases hp : p = "ws"
    · subst hp; rfl
    · simp [singleTree, hp]

theorem walkKids_ne_skipDir (ctx : Ctx) (kids : List Entry) (path : String) (st : WalkState) :
    (walkKids ctx kids path st).2 ≠ some .skipDir := by
  rw [walkKids_eq_run]
  exact runEvents_ne_skipDir ctx _ st

theorem skippedDirs_iff (name : String) :
    skippedDirs name = true ↔
      name = ".git" ∨ name = "vendor" ∨ name = "node_modules" ∨ name = "__pycache__" ∨
        name = ".venv" := by
  simp only [skippedDirs, Bool.or_eq_true, beq_iff_eq]
  tauto

/-- C4: what lies below a directory named `.git`, `vendor`, `node_modules`,
`__pycache__` or `.venv` has no effect on the result of a scan (two file systems that
agree once those subtrees are removed give the same result), so no finding comes from
there. When the walk meets such a directory it goes on with the next entry of the
parent; a directory of any other name is walked, and the walk then goes on with the
next entry of the parent unless the walk below stopped with an error. In the workspace
`casingTree` the file under `Vendor` and the file next to the directories are
reported, the file under `vendor/deep` is not. -/
theorem C4_excluded_directories_pruned (fs fs1 : FileSystem) (ctx : Ctx) (req : ToolRequest) :
    ((∀ p, (fs p).map pruneEntry = (fs1 p).map pruneEntry) →
      handleScan fs ctx req = handleScan fs1 ctx req) ∧
    (∀ name, skippedDirs name = true ↔
      name = ".git" ∨ name = "vendor" ∨ name = "node_modules" ∨ name = "__pycache__" ∨
        name = ".venv") ∧
    (∀ (name path : String) (readErr : Bool) (kids rest : List Entry) (st : WalkState),
      skippedDirs name = true → ctx st.tick = none →
      walkKids ctx (.dir name readErr kids :: rest) path st =
        walkKids ctx rest path { st with tick := st.tick + 1 }) ∧
    (∀ (name path : String) (kids rest : List Entry) (st : WalkState),
      skippedDirs name = false → ctx st.tick = none →
      walkKids ctx (.dir name false kids :: rest) path st =
        match (walkKids ctx kids (Join path name) { st with tick := st.tick + 1 }).2 with
        | some e => ((walkKids ctx kids (Join path name) { st with tick := st.tick + 1 }).1, some e)
        | none => walkKids ctx rest path
            (walkKids ctx kids (Join path name) { st with tick := st.tick + 1 }).1) ∧
    (∃ resp, handleScan (singleTree "ws" casingTree) background (scanRequest "ws") = .ok resp ∧
      resp.Findings.map (fun f => (f.RuleId, f.File, f.StartLine)) =
        [("EXPOSE-001", "ws/Vendor/a.go", 1), ("EXPOSE-001", "ws/z.go", 1)]) := by
  refine ⟨?_, skippedDirs_iff, ?_, ?_, ⟨_, rfl, by decide⟩⟩
  · intro h
    exact handleScan_congr fs fs1 ctx req
      (fun st => WalkDir_prune_congr fs fs1 ctx _ (h _) st)
  · intro name path readErr kids rest st hs hc
    simp [walkKids, walkDir, visit, hs, hc, Entry.name]
  · intro name path kids rest st hs hc
    have hne := walkKids_ne_skipDir ctx kids (Join path name) { st with tick := st.tick + 1 }
    simp only [walkKids, walkDir, visit, hs, hc, Entry.name, Bool.false_eq_true, if_false]
    cases h : (walkKids ctx kids (Join path name) { resp := st.resp, tick := st.tick + 1 }).2 with
    | none => rfl
    | some e =>
      have he : e ≠ .skipDir := by
        intro hc2; apply hne; rw [h, hc2]
      simp [he]

/-- C4, on the sample workspace: the scan is the same after the content of `vendor`
is replaced. -/
theorem C4_excluded_directories_pruned_witness :
    handleScan (singleTree "ws" sampleTree) background (scanRequest "ws") =
      handleScan (singleTree "ws" (.dir "ws" false [
        .file "README.md" (.bytes "host 10.0.0.3\n".toList false),
        .file "app.go"
          (.bytes "var dbHost = \"10.0.1.50\"\nvar mail = \"admin@company.com\"\n".toList false),
        .dir "conf" false [
          .file "srv.yaml"
            (.bytes "version: \"2.4.51\"\nlog: /var/log/syslog\n".toList false)],
        .dir "vendor" false [
          .dir "lib" false [.file "x.py" (.bytes "a@b.example /etc/shadow\n".toList true)],
          .file "y.json" .unopenable]]))
        background (scanRequest "ws") ∧
    walkKids background [.dir "vendor" false [.file "dep.go" (.bytes "peer 10.0.0.2\n".toList false)],
        .file "z.go" (.bytes "peer 10.0.0.3\n".toList false)] "ws" { resp := [], tick := 0 } =
      walkKids background [.file "z.go" (.bytes "peer 10.0.0.3\n".toList false)] "ws"
        { resp := [], tick := 1 } := by
  have h := C4_excluded_directories_pruned (singleTree "ws" sampleTree)
    (singleTree "ws" (.dir "ws" false [
        .file "README.md" (.bytes "host 10.0.0.3\n".toList false),
        .file "app.go"
          (.bytes "var dbHost = \"10.0.1.50\"\nvar mail = \"admin@company.com\"\n".toList false),
        .dir "conf" false [
          .file "srv.yaml"
            (.bytes "version: \"2.4.51\"\nlog: /var/log/syslog\n".toList false)],
        .dir "vendor" false [
          .dir "lib" false [.file "x.py" (.bytes "a@b.example /etc/shadow\n".toList true)],
          .file "y.json" .unopenable]]))
    background (scanRequest "ws")
  refine ⟨h.1 ?_, h.2.2.1 "vendor" "ws" false _ _ _ (by decide) rfl⟩
  intro p
  by_cases hp : p = "ws"
  · subst hp; rfl
  · simp [singleTree, hp]

/-! ## The outcome of `handleScan` -/

theorem handleScan_empty_dir (fs : FileSystem) (ctx : Ctx) (req : ToolRequest)
    (name : String) (readErr : Bool)
    (hfs : fs (workspaceRootOf req) = some (.dir name readErr [])) :
    handleScan fs ctx req =
      if workspaceRootOf req = "" then .ok { Findings := [] }
      else match ctx 0 with
        | some .deadlineExceeded => .error .deadlineExceeded
        | _ => .ok { Findings := [] } := by
  unfold handleScan WalkDir
  by_cases hr : workspaceRootOf req = ""
  · simp [hr]
  · simp only [hr, if_false, hfs, walkDir, visit]
    cases hc : ctx 0 with
    | some c => cases c <;> simp [CtxErr.toErr]
    | none =>
      by_cases hs : skippedDirs name = true
      · simp [hs]
      · cases readErr <;> simp [hs, walkKids, visitErr]

/-- C5, as stated, fails: with an empty directory as root and a context whose deadline
has passed, `handleScan` returns an error. -/
theorem C5_counterexample :
    singleTree "ws" (.dir "ws" false []) "ws" = some (.dir "ws" false []) ∧
    handleScan (singleTree "ws" (.dir "ws" false [])) expired (scanRequest "ws") =
      .error .deadlineExceeded := by
  exact ⟨rfl, rfl⟩

/-- C5, amended: when the workspace root is absent or empty in both the tool input and
the request, or names a path that does not exist, `handleScan` returns a successful
response with no finding, whatever the context; when it names an empty directory it
does so unless the context reports `DeadlineExceeded` at the first entry, in which
case it returns that error. -/
theorem C5_empty_or_missing_root (fs : FileSystem) (ctx : Ctx) (req : ToolRequest) :
    (asString (req.Input.lookup "workspace_root") = "" → req.WorkspaceRoot = "" →
      handleScan fs ctx req = .ok { Findings := [] }) ∧
    (fs (workspaceRootOf req) = none → handleScan fs ctx req = .ok { Findings := [] }) ∧
    (∀ (name : String) (readErr : Bool),
      fs (workspaceRootOf req) = some (.dir name readErr []) →
      ctx 0 ≠ some .deadlineExceeded → handleScan fs ctx req = .ok { Findings := [] }) ∧
    (∀ (name : String) (readErr : Bool),
      fs (workspaceRootOf req) = some (.dir name readErr []) → workspaceRootOf req ≠ "" →
      ctx 0 = some .deadlineExceeded → handleScan fs ctx req = .error .deadlineExceeded) := by
  refine ⟨?_, ?_, ?_, ?_⟩
  · intro h1 h2
    simp [handleScan, workspaceRootOf, h1, h2]
  · intro h
    unfold handleScan WalkDir
    by_cases hr : workspaceRootOf req = ""
    · simp [hr]
    · simp [hr, h, visitErr]
  · intro name readErr hfs hc
    rw [handleScan_empty_dir fs ctx req name readErr hfs]
    split
    · rfl
    · split
      · rename_i h; exact absurd h hc
      · rfl
  · intro name readErr hfs hr hc
    rw [handleScan_empty_dir fs ctx req name readErr hfs]
    simp [hr, hc]

/-- C5, amended, on concrete requests: no root at all, a root that does not exist, an
empty directory, and an empty directory under an expired context. -/
theorem C5_empty_or_missing_root_witness :
    handleScan (singleTree "ws" sampleTree) background { Input := [], WorkspaceRoot := "" } =
      .ok { Findings := [] } ∧
    handleScan (singleTree "ws" sampleTree) expired
        { Input := [("workspace_root", .num 7)], WorkspaceRoot := "" } =
      .ok { Findings := [] } ∧
    handleScan (singleTree "ws" sampleTree) expired (scanRequest "elsewhere") =
      .ok { Findings := [] } ∧
    handleScan (singleTree "tmp" (.dir "tmp" false [])) cancelled (scanRequest "tmp") =
      .ok { Findings := [] } ∧
    handleScan (singleTree "tmp" (.dir "tmp" false [])) expired (scanRequest "tmp") =
      .error .deadlineExceeded :=
  ⟨(C5_empty_or_missing_root (singleTree "ws" sampleTree) background
      { Input := [], WorkspaceRoot := "" }).1 rfl rfl,
    (C5_empty_or_missing_root (singleTree "ws" sampleTree) expired
      { Input := [("workspace_root", .num 7)], WorkspaceRoot := "" }).1 rfl rfl,
    (C5_empty_or_missing_root (singleTree "ws" sampleTree) expired
      (scanRequest "elsewhere")).2.1 rfl,
    (C5_empty_or_missing_root (singleTree "tmp" (.dir "tmp" false [])) cancelled
      (scanRequest "tmp")).2.2.1 "tmp" false rfl (by decide),
    (C5_empty_or_missing_root (singleTree "tmp" (.dir "tmp" false [])) expired
      (scanRequest "tmp")).2.2.2 "tmp" false rfl (by decide) rfl⟩

theorem scanTokens_fail_err :
    ∀ (content cur : List Char),
      (scanTokens true content cur).2 = some .errTooLong ∨
      (scanTokens true content cur).2 = some .readErr := by
  intro content
  induction content with
  | nil =>
    intro cur
    simp only [scanTokens]
    split
    · simp
    · split <;> simp
  | cons c t ih =>
    intro cur
    simp only [scanTokens]
    split
    · split
      · simp
      · exact ih []
    · exact ih (c :: cur)

theorem runEvents_reach (ctx : Ctx) (pre post : List Event) (ev : Event)
    (st0 st1 : WalkState) (hpre : runEvents ctx pre st0 = (st1, none)) :
    runEvents ctx (pre ++ ev :: post) st0 =
      match (stepEvent ctx ev st1).2 with
      | some e => ((stepEvent ctx ev st1).1, some e)
      | none => runEvents ctx post (stepEvent ctx ev st1).1 := by
  rw [runEvents_append, hpre]
  simp only [runEvents]

theorem handleScan_of_run (fs : FileSystem) (ctx : Ctx) (req : ToolRequest)
    (hroot : workspaceRootOf req ≠ "") (st : WalkState) (e : GoErr)
    (h : runEvents ctx (rootEvents fs (workspaceRootOf req)) { resp := [], tick := 0 } =
      (st, some e)) :
    handleScan fs ctx req =
      if e = .canceled then .ok { Findings := st.resp } else .error e := by
  rw [handleScan_eq_run]
  simp [hroot, h]

/-- C6, at the failing input: in a workspace whose second file `b.go` stops being
readable after two lines, `handleScan` returns the read error and no response, although
the builder already held the finding of `a.go` and those of the two lines of `b.go`,
where the specification asks for a successful response holding them. -/
theorem C6_read_error_loses_findings :
    handleScan (singleTree "ws" brokenReadTree) background (scanRequest "ws") =
      .error .readErr ∧
    (walkDir background brokenReadTree "ws" { resp := [], tick := 0 }).1.resp.map
        (fun f => (f.RuleId, f.File, f.StartLine)) =
      [("EXPOSE-001", "ws/a.go", 1), ("EXPOSE-002", "ws/b.go", 1),
        ("EXPOSE-003", "ws/b.go", 2)] := by
  exact ⟨rfl, by decide⟩

/-- When the walk reaches a file of recognised extension whose reading fails part-way
(the callback invocations before it ran without error and the context is not done),
`scanFile` appends the findings of the lines read so far to the builder and returns the
error (the read error, or `ErrTooLong` if one of those lines is too long); the walk
stops there and `handleScan` returns that error and no response. -/
theorem read_error_aborts_scan (fs : FileSystem) (ctx : Ctx) (req : ToolRequest)
    (pre post : List Event) (path name : String) (content : List Char) (st1 : WalkState)
    (hroot : workspaceRootOf req ≠ "")
    (hev : rootEvents fs (workspaceRootOf req) =
      pre ++ .enter path (.file name (.bytes content true)) :: post)
    (hpre : runEvents ctx pre { resp := [], tick := 0 } = (st1, none))
    (hctx : ctx st1.tick = none)
    (hext : supportedExtensions (Ext path) = true) :
    ∃ e, (e = .readErr ∨ e = .errTooLong) ∧
      scanFile st1.resp path (Ext path) (.bytes content true) =
        (st1.resp ++ (List.enumFrom 1 (scanTokens true content []).1).flatMap
          (fun nl => lineFindings path (Ext path) nl.1 nl.2), some e) ∧
      handleScan fs ctx req = .error e := by
  have hstep : stepEvent ctx (.enter path (.file name (.bytes content true))) st1 =
      ({ resp := (scanFile st1.resp path (Ext path) (.bytes content true)).1,
         tick := st1.tick + 1 },
        (scanFile st1.resp path (Ext path) (.bytes content true)).2) := by
    rw [stepEvent_file]
    simp [visit, hctx, hext]
  have hrun := runEvents_reach ctx pre post
    (.enter path (.file name (.bytes content true))) _ _ hpre
  rw [← hev, hstep] at hrun
  rcases scanTokens_fail_err content [] with he | he
  · refine ⟨.errTooLong, Or.inr rfl, ?_, ?_⟩
    · simp only [scanFile, he, scanLoop_eq, Nat.zero_add]
    · have h2 : (scanFile st1.resp path (Ext path) (.bytes content true)).2 =
          some .errTooLong := by simp [scanFile, he]
      rw [h2] at hrun
      rw [handleScan_of_run fs ctx req hroot _ _ hrun]
      simp
  · refine ⟨.readErr, Or.inl rfl, ?_, ?_⟩
    · simp only [scanFile, he, scanLoop_eq, Nat.zero_add]
    · have h2 : (scanFile st1.resp path (Ext path) (.bytes content true)).2 =
          some .readErr := by simp [scanFile, he]
      rw [h2] at hrun
      rw [handleScan_of_run fs ctx req hroot _ _ hrun]
      simp

/-- The same on the workspace `brokenReadTree`: the walk reaches `b.go` after the root
and `a.go`; the scan ends with the read error. -/
theorem read_error_aborts_scan_example :
    ∃ e, (e = GoErr.readErr ∨ e = GoErr.errTooLong) ∧
      scanFile (walkKids background [.file "a.go" (.bytes "peer 10.0.0.1\n".toList false)] "ws"
          { resp := [], tick := 1 }).1.resp "ws/b.go" (Ext "ws/b.go")
          (.bytes "mail admin@example.com\nlog /var/log/sys".toList true) =
        ((walkKids background [.file "a.go" (.bytes "peer 10.0.0.1\n".toList false)] "ws"
            { resp := [], tick := 1 }).1.resp ++
          (List.enumFrom 1
            (scanTokens true "mail admin@example.com\nlog /var/log/sys".toList []).1).flatMap
            (fun nl => lineFindings "ws/b.go" (Ext "ws/b.go") nl.1 nl.2), some e) ∧
      handleScan (singleTree "ws" brokenReadTree) background (scanRequest "ws") = .error e :=
  read_error_aborts_scan (singleTree "ws" brokenReadTree) background (scanRequest "ws")
    [.enter "ws" brokenReadTree,
      .enter "ws/a.go" (.file "a.go" (.bytes "peer 10.0.0.1\n".toList false))]
    [.enter "ws/c.go" (.file "c.go" (.bytes "peer 10.0.0.3\n".toList false))]
    "ws/b.go" "b.go" "mail admin@example.com\nlog /var/log/sys".toList
    (walkKids background [.file "a.go" (.bytes "peer 10.0.0.1\n".toList false)] "ws"
      { resp := [], tick := 1 }).1
    (by decide) rfl rfl rfl (by decide)

theorem eventsOf_head (d : Entry) (path : String) :
    ∃ tail, eventsOf d path = .enter path d :: tail := by
  cases d with
  | file name data => exact ⟨[], by simp [eventsOf]⟩
  | dir name readErr kids =>
    exact ⟨if skippedDirs name then []
      else (if readErr then [.failed path] else []) ++ eventsKids kids path,
      by simp only [eventsOf]⟩

theorem stepEvent_done (ctx : Ctx) (path : String) (d : Entry) (st : WalkState) (c : CtxErr)
    (hc : ctx st.tick = some c) :
    stepEvent ctx (.enter path d) st = ({ st with tick := st.tick + 1 }, some c.toErr) := by
  simp only [stepEvent, visit, hc]
  cases c <;> simp [CtxErr.toErr]

theorem handleScan_done (fs : FileSystem) (ctx : Ctx) (req : ToolRequest)
    (pre post : List Event) (path : String) (d : Entry) (st1 : WalkState) (c : CtxErr) :
    workspaceRootOf req ≠ "" →
    rootEvents fs (workspaceRootOf req) = pre ++ .enter path d :: post →
    runEvents ctx pre { resp := [], tick := 0 } = (st1, none) →
    ctx st1.tick = some c →
    handleScan fs ctx req =
      match c with
      | .canceled => .ok { Findings := st1.resp }
      | .deadlineExceeded => .error .deadlineExceeded := by
  intro hroot hev hpre hctx
  have hrun := runEvents_reach ctx pre post (.enter path d) _ _ hpre
  rw [← hev, stepEvent_done ctx path d st1 c hctx] at hrun
  simp only at hrun
  rw [handleScan_of_run fs ctx req hroot _ _ hrun]
  cases c <;> simp [CtxErr.toErr]

theorem handleScan_ne_canceled (fs : FileSystem) (ctx : Ctx) (req : ToolRequest) :
    handleScan fs ctx req ≠ .error .canceled := by
  rw [handleScan_eq_run]
  split
  · simp
  · split
    · simp
    · split
      · simp
      · rename_i h; simpa using h

/-- C7, as stated, fails: for a context cancelled before the walk starts, `handleScan`
returns a successful response without findings, the very value it returns after the
complete walk of an empty directory. -/
theorem C7_counterexample :
    handleScan (singleTree "ws" sampleTree) cancelled (scanRequest "ws") =
      .ok { Findings := [] } ∧
    handleScan (singleTree "tmp" (.dir "tmp" false [])) background (scanRequest "tmp") =
      .ok { Findings := [] } := by
  exact ⟨rfl, rfl⟩

/-- C7, amended: when the callback finds the context done at an entry (the invocations
before it ran without error), the walk stops there: nothing is recorded for that entry
or any later one. If the context error is `Canceled`, `handleScan` returns a successful
response holding the findings recorded before; if it is `DeadlineExceeded`,
`handleScan` returns that error. In particular a context that is done at the first
entry gives an empty successful response (`Canceled`) or the error
(`DeadlineExceeded`), and `handleScan` never returns the error `Canceled`. -/
theorem C7_cancellation_outcome (fs : FileSystem) (ctx : Ctx) (req : ToolRequest) :
    (∀ (pre post : List Event) (path : String) (d : Entry) (st1 : WalkState) (c : CtxErr),
      workspaceRootOf req ≠ "" →
      rootEvents fs (workspaceRootOf req) = pre ++ .enter path d :: post →
      runEvents ctx pre { resp := [], tick := 0 } = (st1, none) →
      ctx st1.tick = some c →
      handleScan fs ctx req =
        match c with
        | .canceled => .ok { Findings := st1.resp }
        | .deadlineExceeded => .error .deadlineExceeded) ∧
    (∀ d, workspaceRootOf req ≠ "" → fs (workspaceRootOf req) = some d →
      (ctx 0 = some .canceled → handleScan fs ctx req = .ok { Findings := [] }) ∧
      (ctx 0 = some .deadlineExceeded → handleScan fs ctx req = .error .deadlineExceeded)) ∧
    handleScan fs ctx req ≠ .error .canceled := by
  refine ⟨?_, ?_, handleScan_ne_canceled fs ctx req⟩
  · intro pre post path d st1 c hroot hev hpre hctx
    exact handleScan_done fs ctx req pre post path d st1 c hroot hev hpre hctx
  · intro d hroot hfs
    obtain ⟨tail, ht⟩ := eventsOf_head d (workspaceRootOf req)
    have hev : rootEvents fs (workspaceRootOf req) =
        [] ++ .enter (workspaceRootOf req) d :: tail := by
      simp [rootEvents, hfs, ht]
    constructor
    · intro hc
      have := handleScan_done fs ctx req [] tail _ d { resp := [], tick := 0 } .canceled
        hroot hev rfl hc
      simpa using this
    · intro hc
      have := handleScan_done fs ctx req [] tail _ d { resp := [], tick := 0 }
        .deadlineExceeded hroot hev rfl hc
      simpa using this

/-- C7, amended, on the sample workspace with a context cancelled after the third
callback invocation (root, `README.md`, `app.go`): the response is successful and holds
the two findings of `app.go`, nothing of `conf/srv.yaml`. -/
theorem C7_cancellation_outcome_witness :
    handleScan (singleTree "ws" sampleTree) (cancelledAfter 3) (scanRequest "ws") =
      .ok { Findings := (walkKids (cancelledAfter 3)
        [.file "README.md" (.bytes "host 10.0.0.3\n".toList false),
          .file "app.go"
            (.bytes "var dbHost = \"10.0.1.50\"\nvar mail = \"admin@company.com\"\n".toList
              false)] "ws" { resp := [], tick := 1 }).1.resp } ∧
    (walkKids (cancelledAfter 3)
        [.file "README.md" (.bytes "host 10.0.0.3\n".toList false),
          .file "app.go"
            (.bytes "var dbHost = \"10.0.1.50\"\nvar mail = \"admin@company.com\"\n".toList
              false)] "ws" { resp := [], tick := 1 }).1.resp.map
        (fun f => (f.RuleId, f.File, f.StartLine)) =
      [("EXPOSE-001", "ws/app.go", 1), ("EXPOSE-002", "ws/app.go", 2)] :=
  ⟨(C7_cancellation_outcome (singleTree "ws" sampleTree) (cancelledAfter 3)
      (scanRequest "ws")).1
      [.enter "ws" sampleTree,
        .enter "ws/README.md" (.file "README.md" (.bytes "host 10.0.0.3\n".toList false)),
        .enter "ws/app.go" (.file "app.go"
          (.bytes "var dbHost = \"10.0.1.50\"\nvar mail = \"admin@company.com\"\n".toList false))]
      [.enter "ws/conf/srv.yaml" (.file "srv.yaml"
          (.bytes "version: \"2.4.51\"\nlog: /var/log/syslog\n".toList false)),
        .enter "ws/vendor" (.dir "vendor" false
          [.file "dep.go" (.bytes "peer 10.0.0.2\n".toList false)])]
      "ws/conf" (.dir "conf" false [
        .file "srv.yaml" (.bytes "version: \"2.4.51\"\nlog: /var/log/syslog\n".toList false)])
      _ .canceled (by decide) rfl rfl rfl,
    by decide⟩

/-! ## The matcher -/

theorem matchK_cat_cons (r : Regex) (rs : List Regex) (p : Option Char) (s : List Char)
    (k : Option Char → List Char → Bool) :
    matchK (Regex.cat (r :: rs)) p s k =
      matchK r p s (fun p1 s1 => matchK (Regex.cat rs) p1 s1 k) := by
  cases rs with
  | nil => simp [Regex.cat, matchK]
  | cons r2 rs2 => simp [Regex.cat, matchK]

theorem matchK_oneOf_cons (r : Regex) (rs : List Regex) (p : Option Char) (s : List Char)
    (k : Option Char → List Char → Bool) :
    matchK (Regex.oneOf (r :: rs)) p s k =
      (matchK r p s k || matchK (Regex.oneOf rs) p s k) := by
  cases rs with
  | nil => cases s <;> simp [Regex.oneOf, matchK]
  | cons r2 rs2 => simp [Regex.oneOf, matchK]

theorem matchK_oneOf_nil (p : Option Char) (s : List Char)
    (k : Option Char → List Char → Bool) : matchK (Regex.oneOf []) p s k = false := by
  cases s <;> simp [Regex.oneOf, matchK]

theorem matchK_oneOf_mem (r : Regex) (rs : List Regex) (hr : r ∈ rs) (p : Option Char)
    (s : List Char) (k : Option Char → List Char → Bool) (h : matchK r p s k = true) :
    matchK (Regex.oneOf rs) p s k = true := by
  induction rs with
  | nil => simp at hr
  | cons r2 rs2 ih =>
    rw [matchK_oneOf_cons]
    rcases List.mem_cons.mp hr with h1 | h1
    · subst h1; simp [h]
    · simp [ih h1]

theorem starLoop_of_k (step : Option Char → List Char → (Option Char → List Char → Bool) → Bool)
    (fuel : Nat) (p : Option Char) (s : List Char) (k : Option Char → List Char → Bool)
    (h : k p s = true) : starLoop step fuel p s k = true := by
  cases fuel <;> simp [starLoop, h]

theorem starLoop_suffix
    (step : Option Char → List Char → (Option Char → List Char → Bool) → Bool)
    (hstep : ∀ (p : Option Char) (s : List Char) (k : Option Char → List Char → Bool),
      step p s k = true → ∃ m t q, s = m ++ t ∧ k q t = true) :
    ∀ (fuel : Nat) (p : Option Char) (s : List Char) (k : Option Char → List Char → Bool),
      starLoop step fuel p s k = true → ∃ m t q, s = m ++ t ∧ k q t = true := by
  intro fuel
  induction fuel with
  | zero => intro p s k h; exact ⟨[], s, p, rfl, by simpa [starLoop] using h⟩
  | succ n ih =>
    intro p s k h
    simp only [starLoop, Bool.or_eq_true] at h
    rcases h with h | h
    · exact ⟨[], s, p, rfl, h⟩
    · obtain ⟨m1, t1, q1, hs, hk⟩ := hstep p s _ h
      simp only [Bool.and_eq_true] at hk
      obtain ⟨m2, t2, q2, hs2, hk2⟩ := ih q1 t1 k hk.2
      exact ⟨m1 ++ m2, t2, q2, by rw [hs, hs2, List.append_assoc], hk2⟩

theorem matchK_suffix :
    ∀ (r : Regex) (p : Option Char) (s : List Char) (k : Option Char → List Char → Bool),
      matchK r p s k = true → ∃ m t q, s = m ++ t ∧ k q t = true := by
  intro r
  induction r with
  | eps => intro p s k h; exact ⟨[], s, p, rfl, by simpa [matchK] using h⟩
  | chr f =>
    intro p s k h
    cases s with
    | nil => simp [matchK] at h
    | cons c t =>
      simp only [matchK, Bool.and_eq_true] at h
      exact ⟨[c], t, some c, rfl, h.2⟩
  | seq r1 r2 ih1 ih2 =>
    intro p s k h
    simp only [matchK] at h
    obtain ⟨m1, t1, q1, hs, hk⟩ := ih1 p s _ h
    obtain ⟨m2, t2, q2, hs2, hk2⟩ := ih2 q1 t1 k hk
    exact ⟨m1 ++ m2, t2, q2, by rw [hs, hs2, List.append_assoc], hk2⟩
  | alt r1 r2 ih1 ih2 =>
    intro p s k h
    simp only [matchK, Bool.or_eq_true] at h
    rcases h with h | h
    · exact ih1 p s k h
    · exact ih2 p s k h
  | star r ih =>
    intro p s k h
    simp only [matchK] at h
    exact starLoop_suffix (matchK r) ih _ p s k h
  | wordBoundary =>
    intro p s k h
    simp only [matchK, Bool.and_eq_true] at h
    exact ⟨[], s, p, rfl, h.2⟩

theorem searchFrom_of_match (r : Regex) (s : List Char)
    (h : ∀ p, matchFrom r p s = true) :
    ∀ (pre : List Char) (p : Option Char), searchFrom r p (pre ++ s) = true := by
  intro pre
  induction pre with
  | nil =>
    intro p
    cases s with
    | nil => simpa [searchFrom] using h p
    | cons c t => simp [searchFrom, h p]
  | cons c t ih =>
    intro p
    simp [searchFrom, ih (some c)]

theorem searchFrom_sound (r : Regex) :
    ∀ (line : List Char) (p : Option Char), searchFrom r p line = true →
      ∃ pre suf q, line = pre ++ suf ∧ matchFrom r q suf = true := by
  intro line
  induction line with
  | nil => intro p h; exact ⟨[], [], p, rfl, by simpa [searchFrom] using h⟩
  | cons c t ih =>
    intro p h
    simp only [searchFrom, Bool.or_eq_true] at h
    rcases h with h | h
    · exact ⟨[], c :: t, p, rfl, h⟩
    · obtain ⟨pre, suf, q, hl, hm⟩ := ih (some c) h
      exact ⟨c :: pre, suf, q, by rw [hl]; rfl, hm⟩

theorem foldEq_self (c : Char) : foldEq c c = true := by
  unfold foldEq
  split <;> simp

theorem matchK_litI_list (as : List Char) :
    ∀ (p : Option Char) (t : List Char) (k : Option Char → List Char → Bool),
      (∀ q, k q t = true) →
      matchK (Regex.cat (as.map (fun a => Regex.chr (foldEq a)))) p (as ++ t) k = true := by
  induction as with
  | nil => intro p t k hk; simpa [Regex.cat, matchK] using hk p
  | cons a rest ih =>
    intro p t k hk
    rw [List.map_cons, matchK_cat_cons]
    simp only [List.cons_append, matchK, foldEq_self, Bool.true_and]
    exact ih _ t k hk

theorem matchK_litI (str : String) (p : Option Char) (t : List Char)
    (k : Option Char → List Char → Bool) (hk : ∀ q, k q t = true) :
    matchK (Regex.litI str) p (str.toList ++ t) k = true :=
  matchK_litI_list str.toList p t k hk

/-! ## Which lines a rule flags -/

theorem mem_lineFindings (filePath ext : String) (n : Nat) (line : List Char) (f : Finding) :
    f ∈ lineFindings filePath ext n line ↔
      ∃ r ∈ rules, ruleMatches ext line r = true ∧ f = mkFinding r filePath ext n line := by
  unfold lineFindings
  rw [scanRules_eq]
  simp only [List.nil_append, List.mem_map, List.mem_filter]
  constructor
  · rintro ⟨r, ⟨hr, hm⟩, rfl⟩; exact ⟨r, hr, hm, rfl⟩
  · rintro ⟨r, hr, hm, rfl⟩; exact ⟨r, ⟨hr, hm⟩, rfl⟩

theorem flagged_iff (filePath ext id : String) (n : Nat) (line : List Char) :
    (∃ f ∈ lineFindings filePath ext n line, f.RuleId = id ∧ f.StartLine = n) ↔
      ∃ p, patternFor id ext = some p ∧ MatchString p line = true := by
  constructor
  · rintro ⟨f, hf, hid, _⟩
    obtain ⟨r, hr, hm, rfl⟩ := (mem_lineFindings filePath ext n line f).mp hf
    simp only [mkFinding] at hid
    unfold ruleMatches at hm
    cases hp : r.Patterns.lookup ext with
    | none => rw [hp] at hm; simp at hm
    | some p =>
      rw [hp] at hm
      refine ⟨p, ?_, hm⟩
      simp only [rules, List.mem_cons, List.mem_singleton, List.not_mem_nil, or_false] at hr
      rcases hr with hr | hr | hr | hr <;> subst hr <;> subst hid <;>
        simpa [patternFor, rules, List.find?] using hp
  · rintro ⟨p, hp, hm⟩
    unfold patternFor at hp
    cases hfind : rules.find? (fun r => r.ID == id) with
    | none => rw [hfind] at hp; simp at hp
    | some r =>
      rw [hfind] at hp
      change r.Patterns.lookup ext = some p at hp
      have hr : r ∈ rules := List.mem_of_find?_eq_some hfind
      have hid : r.ID = id := by
        have := List.find?_some hfind
        simpa using this
      refine ⟨mkFinding r filePath ext n line, ?_, ?_, rfl⟩
      · exact (mem_lineFindings filePath ext n line _).mpr
          ⟨r, hr, by simp [ruleMatches, hp, hm], rfl⟩
      · simp [mkFinding, hid]

theorem MatchString_infix (r : Regex) (pre s post : List Char)
    (h : ∀ p, matchFrom r p (s ++ post) = true) :
    MatchString r (pre ++ s ++ post) = true := by
  unfold MatchString
  rw [List.append_assoc]
  exact searchFrom_of_match r (s ++ post) h pre none

theorem MatchString_litI_mem (lit : String) (rs : List Regex) (h : Regex.litI lit ∈ rs)
    (pre post : List Char) :
    MatchString (Regex.oneOf rs) (pre ++ lit.toList ++ post) = true := by
  apply MatchString_infix
  intro p
  exact matchK_oneOf_mem _ rs h p _ _ (matchK_litI lit p post _ (fun _ => rfl))

theorem isWordFold_of_word (c : Char) (h : isWordChar c = true) : isWordFold c = true := by
  simp [isWordFold, h]

theorem MatchString_varlog (rs : List Regex)
    (h : Regex.cat [Regex.litI "/var/log/", reWords] ∈ rs) (pre post : List Char) (c : Char)
    (hc : isWordChar c = true) :
    MatchString (Regex.oneOf rs) (pre ++ "/var/log/".toList ++ c :: post) = true := by
  apply MatchString_infix
  intro p
  apply matchK_oneOf_mem _ rs h
  rw [matchK_cat_cons]
  apply matchK_litI
  intro q
  simp only [Regex.cat, reWords, Regex.plus, matchK, isWordFold_of_word c hc, Bool.true_and]
  exact starLoop_of_k _ _ _ _ _ rfl

theorem patternFor_systemPath (ext : String) (hext : supportedExtensions ext = true) :
    patternFor "EXPOSE-003" ext =
      some (if ext = ".json" ∨ ext = ".yaml" then patSystemPathData else patSystemPathCode) := by
  rcases supported_cases ext hext with h | h | h | h | h | h <;> subst h <;> rfl

/-- C8, as stated, fails: in a `.json` or `.yaml` file the line `/dev/null` produces no
finding at all. -/
theorem C8_counterexample :
    scanFile [] "conf.json" ".json" (.bytes "/dev/null\n".toList false) = ([], none) ∧
    scanFile [] "conf.yaml" ".yaml" (.bytes "/dev/null\n".toList false) = ([], none) := by
  decide

/-- C8, amended: in every recognised file type a line containing `/etc/passwd`,
`/etc/shadow`, `/etc/hosts`, `/proc/self`, `C:\Windows\System32`, `C:\Users\` or
`/var/log/` followed by a word character produces an EXPOSE-003 finding for that line;
a line containing `/dev/null` does so in `.go`, `.py`, `.js` and `.ts` files, while in
`.json` and `.yaml` files `/dev/null` is not among the paths of the rule (the line
`/dev/null` produces no EXPOSE-003 finding there). -/
theorem C8_system_paths (filePath : String) (n : Nat) (pre post : List Char) :
    (∀ ext, supportedExtensions ext = true →
      ∀ lit ∈ ["/etc/passwd", "/etc/shadow", "/etc/hosts", "/proc/self",
        "C:\\Windows\\System32", "C:\\Users\\"],
      ∃ f ∈ lineFindings filePath ext n (pre ++ lit.toList ++ post),
        f.RuleId = "EXPOSE-003" ∧ f.StartLine = n) ∧
    (∀ ext, supportedExtensions ext = true → ∀ c, isWordChar c = true →
      ∃ f ∈ lineFindings filePath ext n (pre ++ "/var/log/".toList ++ c :: post),
        f.RuleId = "EXPOSE-003" ∧ f.StartLine = n) ∧
    (∀ ext ∈ [".go", ".py", ".js", ".ts"],
      ∃ f ∈ lineFindings filePath ext n (pre ++ "/dev/null".toList ++ post),
        f.RuleId = "EXPOSE-003" ∧ f.StartLine = n) ∧
    (∀ ext ∈ [".json", ".yaml"],
      ∀ f ∈ lineFindings filePath ext n "/dev/null".toList, f.RuleId ≠ "EXPOSE-003") := by
  refine ⟨?_, ?_, ?_, ?_⟩
  · intro ext hext lit hlit
    rw [flagged_iff]
    refine ⟨_, patternFor_systemPath ext hext, ?_⟩
    simp only [List.mem_cons, List.mem_singleton, List.not_mem_nil, or_false] at hlit
    split
    · rcases hlit with h | h | h | h | h | h <;> subst h <;>
        exact MatchString_litI_mem _ _ (by simp) pre post
    · rcases hlit with h | h | h | h | h | h <;> subst h <;>
        exact MatchString_litI_mem _ _ (by simp) pre post
  · intro ext hext c hc
    rw [flagged_iff]
    refine ⟨_, patternFor_systemPath ext hext, ?_⟩
    split
    · exact MatchString_varlog _ (by simp) pre post c hc
    · exact MatchString_varlog _ (by simp) pre post c hc
  · intro ext hext
    rw [flagged_iff]
    simp only [List.mem_cons, List.mem_singleton, List.not_mem_nil, or_false] at hext
    refine ⟨patSystemPathCode, ?_, MatchString_litI_mem _ _ (by simp) pre post⟩
    rcases hext with h | h | h | h <;> subst h <;> rfl
  · intro ext hext f hf hid
    simp only [List.mem_cons, List.mem_singleton, List.not_mem_nil, or_false] at hext
    have hfl : ∃ g ∈ lineFindings filePath ext n "/dev/null".toList,
        g.RuleId = "EXPOSE-003" ∧ g.StartLine = n := by
      refine ⟨f, hf, hid, ?_⟩
      obtain ⟨r, _, _, rfl⟩ := (mem_lineFindings filePath ext n _ f).mp hf
      rfl
    rw [flagged_iff] at hfl
    obtain ⟨p, hp, hm⟩ := hfl
    have hp2 : p = patSystemPathData := by
      rcases hext with h | h <;> subst h <;>
        exact (Option.some.inj (hp.symm.trans rfl))
    subst hp2
    revert hm
    decide

/-- C8, amended, on a YAML line holding `/etc/shadow` and on a Go line holding
`/dev/null`. -/
theorem C8_system_paths_witness :
    (∃ f ∈ lineFindings "etc.yaml" ".yaml" 3
        ("path: ".toList ++ "/etc/shadow".toList ++ " # pw".toList),
      f.RuleId = "EXPOSE-003" ∧ f.StartLine = 3) ∧
    (∃ f ∈ lineFindings "etc.yaml" ".go" 3
        ("path: ".toList ++ "/dev/null".toList ++ " # pw".toList),
      f.RuleId = "EXPOSE-003" ∧ f.StartLine = 3) :=
  ⟨(C8_system_paths "etc.yaml" 3 "path: ".toList " # pw".toList).1 ".yaml" (by decide)
      "/etc/shadow" (by simp),
    (C8_system_paths "etc.yaml" 3 "path: ".toList " # pw".toList).2.2.1 ".go" (by simp)⟩

/-! ## Private addresses -/

set_option maxRecDepth 100000 in
theorem octet_shape :
    ∀ n < 256, (octet n).all isDigit = true ∧ 1 ≤ (octet n).length ∧ (octet n).length ≤ 3 := by
  decide

set_option maxRecDepth 100000 in
theorem octet_second : ∀ s < 32, 16 ≤ s → isSecond (octet s) = true := by
  decide

theorem matchK_octet (ds : List Char) (hd : ds.all isDigit = true) (h1 : 1 ≤ ds.length)
    (h3 : ds.length ≤ 3) (p : Option Char) (t : List Char)
    (k : Option Char → List Char → Bool) (hk : ∀ q, k q t = true) :
    matchK reOctet p (ds ++ t) k = true := by
  match ds, hd, h1, h3 with
  | [d1], hd, _, _ =>
    simp only [List.all_cons, List.all_nil, Bool.and_true] at hd
    simp [reOctet, Regex.rep13, Regex.opt, reDigit, matchK, hd, hk]
  | [d1, d2], hd, _, _ =>
    simp only [List.all_cons, List.all_nil, Bool.and_true, Bool.and_eq_true] at hd
    simp [reOctet, Regex.rep13, Regex.opt, reDigit, matchK, hd.1, hd.2, hk]
  | [d1, d2, d3], hd, _, _ =>
    simp only [List.all_cons, List.all_nil, Bool.and_true, Bool.and_eq_true] at hd
    simp [reOctet, Regex.rep13, Regex.opt, reDigit, matchK, hd.1, hd.2.1, hd.2.2, hk]
  | [], _, h1, _ => simp at h1
  | _ :: _ :: _ :: _ :: _, _, _, h3 => simp at h3

theorem matchK_octet_of_lt (n : Nat) (hn : n < 256) (p : Option Char) (t : List Char)
    (k : Option Char → List Char → Bool) (hk : ∀ q, k q t = true) :
    matchK reOctet p (octet n ++ t) k = true :=
  matchK_octet (octet n) (octet_shape n hn).1 (octet_shape n hn).2.1 (octet_shape n hn).2.2
    p t k hk

/-- The pattern piece `(1[6-9]|2\d|3[01])`. -/
theorem matchK_second_eq (d1 d2 : Char) (p : Option Char) (t : List Char)
    (k : Option Char → List Char → Bool) :
    matchK (Regex.oneOf [
        Regex.cat [Regex.litI "1", .chr (fun c => decide (54 ≤ c.toNat ∧ c.toNat ≤ 57))],
        Regex.cat [Regex.litI "2", reDigit],
        Regex.cat [Regex.litI "3", .chr (fun c => c.toNat == 48 || c.toNat == 49)]])
      p (d1 :: d2 :: t) k = (secondOK d1 d2 && k (some d2) t) := by
  have e1 : foldEq '1' d1 = (d1 == '1') := by simp [foldEq, isLower, isUpper]
  have e2 : foldEq '2' d1 = (d1 == '2') := by simp [foldEq, isLower, isUpper]
  have e3 : foldEq '3' d1 = (d1 == '3') := by simp [foldEq, isLower, isUpper]
  simp only [Regex.oneOf, Regex.cat, Regex.litI, reDigit, matchK, secondOK,
    show "1".toList = ['1'] from rfl, show "2".toList = ['2'] from rfl,
    show "3".toList = ['3'] from rfl, List.map, e1, e2, e3]
  cases (d1 == '1') <;> cases (d1 == '2') <;> cases (d1 == '3') <;>
    cases k (some d2) t <;> simp [Bool.or_assoc]

theorem matchK_second (s : Nat) (h1 : 16 ≤ s) (h2 : s ≤ 31) (p : Option Char) (t : List Char)
    (k : Option Char → List Char → Bool) (hk : ∀ q, k q t = true) :
    matchK (Regex.oneOf [
        Regex.cat [Regex.litI "1", .chr (fun c => decide (54 ≤ c.toNat ∧ c.toNat ≤ 57))],
        Regex.cat [Regex.litI "2", reDigit],
        Regex.cat [Regex.litI "3", .chr (fun c => c.toNat == 48 || c.toNat == 49)]])
      p (octet s ++ t) k = true := by
  have hs := octet_second s (by omega) h1
  match hl : octet s, hs with
  | [d1, d2], hs =>
    rw [List.cons_append, List.cons_append, List.nil_append, matchK_second_eq]
    simp only [isSecond] at hs
    simp [hs, hk]

theorem matchFrom_private (a b c d : Nat) (hb : b < 256) (hc : c < 256) (hd : d < 256)
    (hp : isPrivate a b = true) (post : List Char) (p : Option Char) :
    matchFrom patInternalHost p (dottedQuad a b c d ++ post) = true := by
  have hline : dottedQuad a b c d ++ post =
      octet a ++ (".".toList ++ (octet b ++ (".".toList ++ (octet c ++
        (".".toList ++ (octet d ++ post)))))) := by
    simp [dottedQuad, List.append_assoc]
  have k4 : ∀ q, matchK (Regex.cat [reOctet]) q (octet d ++ post) (fun _ _ => true) = true :=
    fun q => matchK_octet_of_lt d hd q post _ (fun _ => rfl)
  have k3 : ∀ q, matchK (Regex.cat [Regex.litI ".", reOctet]) q
      (".".toList ++ (octet d ++ post)) (fun _ _ => true) = true := by
    intro q; rw [matchK_cat_cons]; exact matchK_litI "." q _ _ k4
  have k2 : ∀ q, matchK (Regex.cat [reOctet, Regex.litI ".", reOctet]) q
      (octet c ++ (".".toList ++ (octet d ++ post))) (fun _ _ => true) = true := by
    intro q; rw [matchK_cat_cons]; exact matchK_octet_of_lt c hc q _ _ k3
  have k1 : ∀ q, matchK (Regex.cat [Regex.litI ".", reOctet, Regex.litI ".", reOctet]) q
      (".".toList ++ (octet c ++ (".".toList ++ (octet d ++ post)))) (fun _ _ => true) = true := by
    intro q; rw [matchK_cat_cons]; exact matchK_litI "." q _ _ k2
  rw [hline]
  unfold matchFrom patInternalHost
  simp only [isPrivate, Bool.or_eq_true, Bool.and_eq_true, beq_iff_eq, decide_eq_true_eq] at hp
  rcases hp with (ha | ⟨ha, hs⟩) | ⟨ha, hb2⟩
  · subst ha
    rw [matchK_oneOf_cons, matchK_cat_cons]
    have : matchK (Regex.litI "10") p ("10".toList ++ (".".toList ++ (octet b ++
        (".".toList ++ (octet c ++ (".".toList ++ (octet d ++ post)))))))
        (fun p1 s1 => matchK (Regex.cat [Regex.litI ".", reOctet, Regex.litI ".", reOctet,
          Regex.litI ".", reOctet]) p1 s1 (fun _ _ => true)) = true := by
      apply matchK_litI
      intro q; rw [matchK_cat_cons]; apply matchK_litI
      intro q; rw [matchK_cat_cons]; apply matchK_octet_of_lt b hb
      exact k1
    rw [show octet 10 = "10".toList from rfl, this]
    rfl
  · subst ha
    rw [matchK_oneOf_cons, matchK_oneOf_cons, matchK_cat_cons (Regex.litI "172")]
    have : matchK (Regex.litI "172") p ("172".toList ++ (".".toList ++ (octet b ++
        (".".toList ++ (octet c ++ (".".toList ++ (octet d ++ post)))))))
        (fun p1 s1 => matchK (Regex.cat [Regex.litI ".",
          Regex.oneOf [
            Regex.cat [Regex.litI "1", .chr (fun c => decide (54 ≤ c.toNat ∧ c.toNat ≤ 57))],
            Regex.cat [Regex.litI "2", reDigit],
            Regex.cat [Regex.litI "3", .chr (fun c => c.toNat == 48 || c.toNat == 49)]],
          Regex.litI ".", reOctet, Regex.litI ".", reOctet]) p1 s1 (fun _ _ => true)) = true := by
      apply matchK_litI
      intro q; rw [matchK_cat_cons]; apply matchK_litI
      intro q; rw [matchK_cat_cons]; apply matchK_second b hs.1 hs.2
      exact k1
    rw [show octet 172 = "172".toList from rfl, this]
    simp
  · subst ha; subst hb2
    rw [matchK_oneOf_cons, matchK_oneOf_cons, matchK_oneOf_cons,
      matchK_cat_cons (Regex.litI "192")]
    have : matchK (Regex.litI "192") p ("192".toList ++ (".".toList ++ (octet 168 ++
        (".".toList ++ (octet c ++ (".".toList ++ (octet d ++ post)))))))
        (fun p1 s1 => matchK (Regex.cat [Regex.litI ".", Regex.litI "168", Regex.litI ".",
          reOctet, Regex.litI ".", reOctet]) p1 s1 (fun _ _ => true)) = true := by
      apply matchK_litI
      intro q; rw [matchK_cat_cons]; apply matchK_litI
      intro q; rw [matchK_cat_cons]
      rw [show octet 168 = "168".toList from rfl]
      apply matchK_litI
      exact k1
    rw [show octet 192 = "192".toList from rfl, this]
    simp

theorem patternFor_internalHost (ext : String) (hext : supportedExtensions ext = true) :
    patternFor "EXPOSE-001" ext = some patInternalHost := by
  rcases supported_cases ext hext with h | h | h | h | h | h <;> subst h <;> rfl

/-- C10: in every recognised file type, for all octets `a`, `b`, `c` in 0..255 and `s`
in 16..31, a line containing `10.a.b.c`, `172.s.b.c` or `192.168.b.c` produces an
EXPOSE-001 finding for that line. -/
theorem C10_private_addresses_flagged (filePath ext : String) (n : Nat)
    (pre post : List Char) (a b c s : Nat)
    (hext : supportedExtensions ext = true) (ha : a < 256) (hb : b < 256) (hc : c < 256)
    (hs : 16 ≤ s ∧ s ≤ 31) :
    (∃ f ∈ lineFindings filePath ext n (pre ++ dottedQuad 10 a b c ++ post),
      f.RuleId = "EXPOSE-001" ∧ f.StartLine = n) ∧
    (∃ f ∈ lineFindings filePath ext n (pre ++ dottedQuad 172 s b c ++ post),
      f.RuleId = "EXPOSE-001" ∧ f.StartLine = n) ∧
    (∃ f ∈ lineFindings filePath ext n (pre ++ dottedQuad 192 168 b c ++ post),
      f.RuleId = "EXPOSE-001" ∧ f.StartLine = n) := by
  refine ⟨?_, ?_, ?_⟩
  · rw [flagged_iff]
    exact ⟨_, patternFor_internalHost ext hext, MatchString_infix _ pre _ post
      (fun p => matchFrom_private 10 a b c ha hb hc (by simp [isPrivate]) post p)⟩
  · rw [flagged_iff]
    exact ⟨_, patternFor_internalHost ext hext, MatchString_infix _ pre _ post
      (fun p => matchFrom_private 172 s b c (by omega) hb hc (by simp [isPrivate, hs]) post p)⟩
  · rw [flagged_iff]
    exact ⟨_, patternFor_internalHost ext hext, MatchString_infix _ pre _ post
      (fun p => matchFrom_private 192 168 b c (by omega) hb hc (by simp [isPrivate]) post p)⟩

/-- C10, on a TypeScript line: the three texts `10.255.0.7`, `172.31.0.7` and
`192.168.0.7`, each inside other text. -/
theorem C10_private_addresses_flagged_witness :
    ("const h = \"".toList ++ dottedQuad 10 255 0 7 ++ "\";".toList =
      "const h = \"10.255.0.7\";".toList) ∧
    (∃ f ∈ lineFindings "srv.ts" ".ts" 4
        ("const h = \"".toList ++ dottedQuad 10 255 0 7 ++ "\";".toList),
      f.RuleId = "EXPOSE-001" ∧ f.StartLine = 4) ∧
    (∃ f ∈ lineFindings "srv.ts" ".ts" 4
        ("const h = \"".toList ++ dottedQuad 172 31 0 7 ++ "\";".toList),
      f.RuleId = "EXPOSE-001" ∧ f.StartLine = 4) ∧
    (∃ f ∈ lineFindings "srv.ts" ".ts" 4
        ("const h = \"".toList ++ dottedQuad 192 168 0 7 ++ "\";".toList),
      f.RuleId = "EXPOSE-001" ∧ f.StartLine = 4) :=
  ⟨by decide,
    C10_private_addresses_flagged "srv.ts" ".ts" 4 "const h = \"".toList "\";".toList
      255 0 7 31 (by decide) (by decide) (by decide) (by decide) (by decide)⟩

/-! ## Addresses outside the private ranges -/

theorem foldEq_nonletter (a c : Char) (h1 : isLower a = false) (h2 : isUpper a = false)
    (h : foldEq a c = true) : c = a := by
  simpa [foldEq, h1, h2] using h

theorem matchK_litI_head (str : String) (a : Char) (as : List Char)
    (hstr : str.toList = a :: as) (p : Option Char) (s : List Char)
    (k : Option Char → List Char → Bool) (h : matchK (Regex.litI str) p s k = true) :
    ∃ c t, s = c :: t ∧ foldEq a c = true ∧
      matchK (Regex.cat (as.map (fun a => Regex.chr (foldEq a)))) (some c) t k = true := by
  unfold Regex.litI at h
  rw [hstr, List.map_cons, matchK_cat_cons] at h
  cases s with
  | nil => simp [matchK] at h
  | cons c t =>
    simp only [matchK, Bool.and_eq_true] at h
    exact ⟨c, t, rfl, h.1, h.2⟩

theorem matchK_litI_exact_list (as : List Char)
    (hnl : ∀ a ∈ as, isLower a = false ∧ isUpper a = false) :
    ∀ (p : Option Char) (s : List Char) (k : Option Char → List Char → Bool),
      matchK (Regex.cat (as.map (fun a => Regex.chr (foldEq a)))) p s k = true →
      ∃ t q, s = as ++ t ∧ k q t = true := by
  induction as with
  | nil => intro p s k h; exact ⟨s, p, rfl, by simpa [Regex.cat, matchK] using h⟩
  | cons a rest ih =>
    intro p s k h
    rw [List.map_cons, matchK_cat_cons] at h
    cases s with
    | nil => simp [matchK] at h
    | cons c t =>
      simp only [matchK, Bool.and_eq_true] at h
      have ha := hnl a (List.mem_cons_self _ _)
      have hc := foldEq_nonletter a c ha.1 ha.2 h.1
      obtain ⟨t2, q, ht, hk⟩ := ih (fun x hx => hnl x (List.mem_cons_of_mem _ hx)) _ t k h.2
      exact ⟨t2, q, by rw [hc, ht]; rfl, hk⟩

theorem matchK_litI_exact (str : String)
    (hnl : ∀ a ∈ str.toList, isLower a = false ∧ isUpper a = false)
    (p : Option Char) (s : List Char) (k : Option Char → List Char → Bool)
    (h : matchK (Regex.litI str) p s k = true) :
    ∃ t q, s = str.toList ++ t ∧ k q t = true :=
  matchK_litI_exact_list str.toList hnl p s k h

theorem split_dot :
    ∀ (x x1 y y1 : List Char), '.' ∉ x → '.' ∉ x1 → x ++ '.' :: y = x1 ++ '.' :: y1 →
      x = x1 ∧ y = y1 := by
  intro x
  induction x with
  | nil =>
    intro x1 y y1 _ h1 h
    cases x1 with
    | nil => simpa using h
    | cons c t =>
      simp only [List.nil_append, List.cons_append, List.cons.injEq] at h
      exact absurd (List.mem_cons_self _ _) (h.1 ▸ h1)
  | cons c t ih =>
    intro x1 y y1 h0 h1 h
    cases x1 with
    | nil =>
      simp only [List.nil_append, List.cons_append, List.cons.injEq] at h
      exact absurd (List.mem_cons_self _ _) (h.1 ▸ h0)
    | cons c1 t1 =>
      simp only [List.cons_append, List.cons.injEq] at h
      have := ih t1 y y1 (fun hm => h0 (List.mem_cons_of_mem _ hm))
        (fun hm => h1 (List.mem_cons_of_mem _ hm)) h.2
      exact ⟨by rw [h.1, this.1], this.2⟩

theorem digit_ne_dot (c : Char) (h : isDigit c = true) : c ≠ '.' := by
  intro hc
  subst hc
  revert h
  decide

theorem digits_no_dot (ds : List Char) (h : ds.all isDigit = true) : '.' ∉ ds := by
  intro hm
  have := List.all_eq_true.mp h _ hm
  exact digit_ne_dot _ this rfl

theorem octet_no_dot (n : Nat) (hn : n < 256) : '.' ∉ octet n :=
  digits_no_dot _ (octet_shape n hn).1

theorem count_dot_zero (l : List Char) (h : '.' ∉ l) : l.count '.' = 0 :=
  List.count_eq_zero.mpr h

theorem count_dottedQuad (a b c d : Nat) (ha : a < 256) (hb : b < 256) (hc : c < 256)
    (hd : d < 256) : (dottedQuad a b c d).count '.' = 3 := by
  simp [dottedQuad, List.count_append, List.count_cons, count_dot_zero _ (octet_no_dot a ha),
    count_dot_zero _ (octet_no_dot b hb), count_dot_zero _ (octet_no_dot c hc),
    count_dot_zero _ (octet_no_dot d hd)]

theorem tail1_count (q : Option Char) (t : List Char) (k : Option Char → List Char → Bool)
    (h : matchK (Regex.cat [reOctet, Regex.litI ".", reOctet]) q t k = true) :
    1 ≤ t.count '.' := by
  rw [matchK_cat_cons] at h
  obtain ⟨m, t1, q1, ht, hk⟩ := matchK_suffix _ _ _ _ h
  rw [matchK_cat_cons] at hk
  obtain ⟨t2, _, ht2, _⟩ := matchK_litI_exact "." (by decide) _ _ _ hk
  rw [ht, ht2]
  simp only [List.count_append, List.count_cons]
  simp
  omega

theorem tail2_count (q : Option Char) (t : List Char) (k : Option Char → List Char → Bool)
    (h : matchK (Regex.cat [reOctet, Regex.litI ".", reOctet, Regex.litI ".", reOctet])
      q t k = true) :
    2 ≤ t.count '.' := by
  rw [matchK_cat_cons] at h
  obtain ⟨m, t1, q1, ht, hk⟩ := matchK_suffix _ _ _ _ h
  rw [matchK_cat_cons] at hk
  obtain ⟨t2, q2, ht2, hk2⟩ := matchK_litI_exact "." (by decide) _ _ _ hk
  have := tail1_count _ _ _ hk2
  rw [ht, ht2]
  simp only [List.count_append, List.count_cons]
  simp
  omega

set_option maxRecDepth 100000 in
theorem octet_suffix_10 :
    ∀ a < 256, ['1', '0'] <:+ octet a → a = 10 ∨ a = 110 ∨ a = 210 := by
  decide

set_option maxRecDepth 100000 in
theorem octet_suffix_172 : ∀ a < 256, ['1', '7', '2'] <:+ octet a → a = 172 := by
  decide

set_option maxRecDepth 100000 in
theorem octet_suffix_192 : ∀ a < 256, ['1', '9', '2'] <:+ octet a → a = 192 := by
  decide

set_option maxRecDepth 100000 in
theorem octet_eq_168 : ∀ b < 256, octet b = ['1', '6', '8'] → b = 168 := by
  decide

set_option maxRecDepth 100000 in
theorem octet_second_inv : ∀ b < 256, isSecond (octet b) = true → 16 ≤ b ∧ b ≤ 31 := by
  decide

theorem secondOK_digits (d1 d2 : Char) (h : secondOK d1 d2 = true) :
    d1 ≠ '.' ∧ d2 ≠ '.' := by
  constructor
  · intro hc; subst hc; revert h; simp [secondOK]
  · intro hc; subst hc; revert h; simp [secondOK, isDigit]

/-- Common part of the three address branches: the match starts with the text `lead`
followed by a dot, inside the first octet, and at least two more dots follow. -/
theorem first_octet_suffix (a b c d : Nat) (ha : a < 256) (hb : b < 256) (hc : c < 256)
    (hd : d < 256) (pre lead t : List Char) (hlead : '.' ∉ lead) (ht : 2 ≤ t.count '.')
    (hline : dottedQuad a b c d = pre ++ (lead ++ '.' :: t)) :
    lead <:+ octet a ∧ octet b ++ '.' :: (octet c ++ '.' :: octet d) = t := by
  have hcount := count_dottedQuad a b c d ha hb hc hd
  rw [hline] at hcount
  simp only [List.count_append, List.count_cons, beq_self_eq_true, if_true,
    count_dot_zero _ hlead] at hcount
  have hpre : '.' ∉ pre := List.count_eq_zero.mp (by omega)
  have hsplit := split_dot (octet a) (pre ++ lead) _ t (octet_no_dot a ha)
    (by simp [hpre, hlead]) (by rw [List.append_assoc, ← hline]; rfl)
  exact ⟨⟨pre, hsplit.1.symm⟩, hsplit.2⟩

theorem matchK_second_inv (p : Option Char) (s : List Char)
    (k : Option Char → List Char → Bool)
    (h : matchK (Regex.oneOf [
        Regex.cat [Regex.litI "1", .chr (fun c => decide (54 ≤ c.toNat ∧ c.toNat ≤ 57))],
        Regex.cat [Regex.litI "2", reDigit],
        Regex.cat [Regex.litI "3", .chr (fun c => c.toNat == 48 || c.toNat == 49)]])
      p s k = true) :
    ∃ d1 d2 t, s = d1 :: d2 :: t ∧ secondOK d1 d2 = true ∧ k (some d2) t = true := by
  match s, h with
  | [], h =>
    simp [Regex.oneOf, Regex.cat, Regex.litI, reDigit, matchK] at h
  | [x], h =>
    simp [Regex.oneOf, Regex.cat, Regex.litI, reDigit, matchK] at h
  | d1 :: d2 :: t, h =>
    rw [matchK_second_eq, Bool.and_eq_true] at h
    exact ⟨d1, d2, t, rfl, h.1, h.2⟩

theorem host_branch (X : String) (x0 : Char) (xs : List Char) (hX : X.toList = x0 :: xs)
    (rest : List Regex) (p : Option Char) (suf : List Char)
    (k : Option Char → List Char → Bool)
    (h : matchK (Regex.cat (reWords :: Regex.litI "." :: Regex.litI X :: rest)) p suf k = true) :
    ∃ c ∈ suf, foldEq x0 c = true := by
  rw [matchK_cat_cons] at h
  obtain ⟨m, t, q, hs, hk⟩ := matchK_suffix _ _ _ _ h
  rw [matchK_cat_cons] at hk
  obtain ⟨t2, q2, ht2, hk2⟩ := matchK_litI_exact "." (by decide) _ _ _ hk
  rw [matchK_cat_cons] at hk2
  obtain ⟨c, t3, ht3, hc, _⟩ := matchK_litI_head X x0 xs hX _ _ _ hk2
  refine ⟨c, ?_, hc⟩
  rw [hs, ht2, ht3]
  simp

theorem fold_letter_not_plain (x0 c : Char) (hx : x0 = 'i' ∨ x0 = 'c' ∨ x0 = 'l')
    (h : foldEq x0 c = true) (hd : isDigit c = true ∨ c = '.') : False := by
  have hup : isUpper c = false := by
    rcases hd with hd | hd
    · simp only [isDigit, decide_eq_true_eq] at hd
      simp only [isUpper, decide_eq_false_iff_not]
      omega
    · subst hd; decide
  have hlow : asciiLower c = c := by simp [asciiLower, hup]
  have hc : c = x0 := by
    rcases hx with rfl | rfl | rfl
    · have e : foldEq 'i' c = (asciiLower c == 'i') := by
        simp [foldEq, isLower, isUpper, show asciiLower 'i' = 'i' from rfl]
      rw [e, hlow] at h
      simpa using h
    · have e : foldEq 'c' c = (asciiLower c == 'c') := by
        simp [foldEq, isLower, isUpper, show asciiLower 'c' = 'c' from rfl]
      rw [e, hlow] at h
      simpa using h
    · have e : foldEq 'l' c = (asciiLower c == 'l') := by
        simp [foldEq, isLower, isUpper, show asciiLower 'l' = 'l' from rfl]
      rw [e, hlow] at h
      simpa using h
  subst hc
  rcases hx with rfl | rfl | rfl <;> rcases hd with hd | hd <;> revert hd <;> decide

theorem dottedQuad_plain (a b c d : Nat) (ha : a < 256) (hb : b < 256) (hc : c < 256)
    (hd : d < 256) : ∀ x ∈ dottedQuad a b c d, isDigit x = true ∨ x = '.' := by
  intro x hx
  simp only [dottedQuad, List.mem_append, List.mem_cons] at hx
  have h := fun n (hn : n < 256) => List.all_eq_true.mp (octet_shape n hn).1 x
  rcases hx with hx | hx | hx | hx | hx | hx | hx
  · exact Or.inl (h a ha hx)
  · exact Or.inr hx
  · exact Or.inl (h b hb hx)
  · exact Or.inr hx
  · exact Or.inl (h c hc hx)
  · exact Or.inr hx
  · exact Or.inl (h d hd hx)

theorem public_not_matched (a b c d : Nat) (ha : a < 256) (hb : b < 256) (hc : c < 256)
    (hd : d < 256) (hp : isPrivate a b = false) (h110 : a ≠ 110) (h210 : a ≠ 210) :
    MatchString patInternalHost (dottedQuad a b c d) = false := by
  rw [Bool.eq_false_iff]
  intro hm
  obtain ⟨pre, suf, q, hline, hmatch⟩ := searchFrom_sound _ _ _ hm
  unfold matchFrom patInternalHost at hmatch
  simp only [matchK_oneOf_cons, matchK_oneOf_nil, Bool.or_false, Bool.or_eq_true] at hmatch
  have hplain := dottedQuad_plain a b c d ha hb hc hd
  have hletter : ∀ x0, (x0 = 'i' ∨ x0 = 'c' ∨ x0 = 'l') →
      (∃ x ∈ suf, foldEq x0 x = true) → False := by
    rintro x0 hx0 ⟨x, hx, hf⟩
    exact fold_letter_not_plain x0 x hx0 hf
      (hplain x (by rw [hline]; exact List.mem_append_right _ hx))
  rcases hmatch with h | h | h | h | h | h
  · rw [matchK_cat_cons] at h
    obtain ⟨t1, q1, hs1, hk1⟩ := matchK_litI_exact "10" (by decide) _ _ _ h
    rw [matchK_cat_cons] at hk1
    obtain ⟨t2, q2, hs2, hk2⟩ := matchK_litI_exact "." (by decide) _ _ _ hk1
    have hcnt := tail2_count _ _ _ hk2
    have hfo := first_octet_suffix a b c d ha hb hc hd pre "10".toList t2 (by decide) hcnt
      (by rw [hline, hs1, hs2]; rfl)
    rcases octet_suffix_10 a ha hfo.1 with h1 | h1 | h1
    · subst h1; simp [isPrivate] at hp
    · exact h110 h1
    · exact h210 h1
  · rw [matchK_cat_cons] at h
    obtain ⟨t1, q1, hs1, hk1⟩ := matchK_litI_exact "172" (by decide) _ _ _ h
    rw [matchK_cat_cons] at hk1
    obtain ⟨t2, q2, hs2, hk2⟩ := matchK_litI_exact "." (by decide) _ _ _ hk1
    rw [matchK_cat_cons] at hk2
    obtain ⟨d1, d2, t3, hs3, hsec, hk3⟩ := matchK_second_inv _ _ _ hk2
    rw [matchK_cat_cons] at hk3
    obtain ⟨t4, q4, hs4, hk4⟩ := matchK_litI_exact "." (by decide) _ _ _ hk3
    have hcnt4 := tail1_count _ _ _ hk4
    have hdots := secondOK_digits d1 d2 hsec
    have hcnt : 2 ≤ t2.count '.' := by
      rw [hs3, hs4]
      simp only [List.count_cons, List.count_append]
      simp
      omega
    have hfo := first_octet_suffix a b c d ha hb hc hd pre "172".toList t2 (by decide) hcnt
      (by rw [hline, hs1, hs2]; rfl)
    have ha2 := octet_suffix_172 a ha hfo.1
    have hsp := split_dot (octet b) [d1, d2] _ t4 (octet_no_dot b hb)
      (by simp [hdots.1.symm, hdots.2.symm]) (by rw [hfo.2, hs3, hs4]; rfl)
    have hb2 := octet_second_inv b hb (by rw [hsp.1]; exact hsec)
    subst ha2
    simp [isPrivate, hb2] at hp
  · rw [matchK_cat_cons] at h
    obtain ⟨t1, q1, hs1, hk1⟩ := matchK_litI_exact "192" (by decide) _ _ _ h
    rw [matchK_cat_cons] at hk1
    obtain ⟨t2, q2, hs2, hk2⟩ := matchK_litI_exact "." (by decide) _ _ _ hk1
    rw [matchK_cat_cons] at hk2
    obtain ⟨t3, q3, hs3, hk3⟩ := matchK_litI_exact "168" (by decide) _ _ _ hk2
    rw [matchK_cat_cons] at hk3
    obtain ⟨t4, q4, hs4, hk4⟩ := matchK_litI_exact "." (by decide) _ _ _ hk3
    have hcnt4 := tail1_count _ _ _ hk4
    have hcnt : 2 ≤ t2.count '.' := by
      rw [hs3, hs4]
      simp only [List.count_cons, List.count_append]
      simp
      omega
    have hfo := first_octet_suffix a b c d ha hb hc hd pre "192".toList t2 (by decide) hcnt
      (by rw [hline, hs1, hs2]; rfl)
    have ha2 := octet_suffix_192 a ha hfo.1
    have hsp := split_dot (octet b) "168".toList _ t4 (octet_no_dot b hb)
      (by decide) (by rw [hfo.2, hs3, hs4]; rfl)
    have hb2 := octet_eq_168 b hb hsp.1
    subst ha2; subst hb2
    simp [isPrivate] at hp
  · exact hletter 'i' (by simp) (host_branch "internal" 'i' _ rfl _ _ _ _ h)
  · exact hletter 'c' (by simp) (host_branch "corp" 'c' _ rfl _ _ _ _ h)
  · exact hletter 'l' (by simp) (host_branch "local" 'l' _ rfl _ _ _ _ h)

/-- C9, as stated, fails: `110.1.2.3` is a well-formed address outside the three
private ranges, yet a Go line consisting of it alone gets an EXPOSE-001 finding (the
pattern is not anchored and finds `10.1.2.3` inside it). -/
theorem C9_counterexample :
    dottedQuad 110 1 2 3 = "110.1.2.3".toList ∧ isPrivate 110 1 = false ∧
    (lineFindings "a.go" ".go" 1 (dottedQuad 110 1 2 3)).map
        (fun f => (f.RuleId, f.StartLine, f.Message)) =
      [("EXPOSE-001", 1, "Exposed internal IP address or hostname in source code: 110.1.2.3")] := by
  decide

/-- C9, amended: in every recognised file type, a line consisting solely of a dotted
quad `a.b.c.d` (octets in 0..255, in decimal) outside 10.0.0.0/8, 172.16.0.0/12 and
192.168.0.0/16 produces no EXPOSE-001 finding, provided its first octet is neither 110
nor 210; when the first octet is 110 or 210 the line is flagged. -/
theorem C9_public_addresses_not_flagged (filePath ext : String) (n a b c d : Nat)
    (hext : supportedExtensions ext = true) (ha : a < 256) (hb : b < 256) (hc : c < 256)
    (hd : d < 256) :
    (isPrivate a b = false → a ≠ 110 → a ≠ 210 →
      ∀ f ∈ lineFindings filePath ext n (dottedQuad a b c d), f.RuleId ≠ "EXPOSE-001") ∧
    ((a = 110 ∨ a = 210) →
      ∃ f ∈ lineFindings filePath ext n (dottedQuad a b c d),
        f.RuleId = "EXPOSE-001" ∧ f.StartLine = n) := by
  constructor
  · intro hp h110 h210 f hf hid
    have hfl : ∃ g ∈ lineFindings filePath ext n (dottedQuad a b c d),
        g.RuleId = "EXPOSE-001" ∧ g.StartLine = n := by
      refine ⟨f, hf, hid, ?_⟩
      obtain ⟨r, _, _, rfl⟩ := (mem_lineFindings filePath ext n _ f).mp hf
      rfl
    rw [flagged_iff] at hfl
    obtain ⟨p, hpat, hm⟩ := hfl
    rw [patternFor_internalHost ext hext] at hpat
    cases hpat
    rw [public_not_matched a b c d ha hb hc hd hp h110 h210] at hm
    exact Bool.noConfusion hm
  · intro h
    rw [flagged_iff]
    refine ⟨_, patternFor_internalHost ext hext, ?_⟩
    have key : ∀ x : Char, MatchString patInternalHost (x :: dottedQuad 10 b c d) = true := by
      intro x
      have := MatchString_infix patInternalHost [x] (dottedQuad 10 b c d) []
        (fun p => matchFrom_private 10 b c d hb hc hd (by simp [isPrivate]) [] p)
      simpa using this
    rcases h with h | h <;> subst h
    · exact key '1'
    · exact key '2'

/-- C9, amended, on the Python line `8.8.8.8` (not flagged) and the line `210.0.0.1`
(flagged). -/
theorem C9_public_addresses_not_flagged_witness :
    dottedQuad 8 8 8 8 = "8.8.8.8".toList ∧
    (∀ f ∈ lineFindings "dns.py" ".py" 2 (dottedQuad 8 8 8 8), f.RuleId ≠ "EXPOSE-001") ∧
    (∃ f ∈ lineFindings "dns.py" ".py" 2 (dottedQuad 210 0 0 1),
      f.RuleId = "EXPOSE-001" ∧ f.StartLine = 2) :=
  ⟨by decide,
    (C9_public_addresses_not_flagged "dns.py" ".py" 2 8 8 8 8 (by decide) (by decide)
      (by decide) (by decide) (by decide)).1 (by decide) (by decide) (by decide),
    (C9_public_addresses_not_flagged "dns.py" ".py" 2 210 0 0 1 (by decide) (by decide)
      (by decide) (by decide) (by decide)).2 (Or.inr rfl)⟩


/-! ## The test fixture, the language tag and the catalog -/

set_option maxRecDepth 1000000 in
/-- C11: scanning `testdata/vuln_app.go` as a `.go` file ends without error and gives
exactly nine findings, in this order of (line, rule): (6, 001), (7, 001), (8, 001),
(11, 002), (12, 002), (16, 003), (17, 003), (23, 004), (27, 004); the first one is the
finding of line 6, `var dbHost = "10.0.1.50"`, with rule EXPOSE-001, severity and
confidence high, start and end line 6, the description followed by the trimmed line as
message (so it contains `10.0.1.50`) and the language tag `go`. The scan of a workspace
holding the file returns the same nine findings. -/
theorem C11_vuln_app_findings :
    (scanFile [] "src/testdata/vuln_app.go" ".go" (.bytes vulnApp.toList false)).2 = none ∧
    (scanFile [] "src/testdata/vuln_app.go" ".go" (.bytes vulnApp.toList false)).1.map
        (fun f => (f.StartLine, f.RuleId)) =
      [(6, "EXPOSE-001"), (7, "EXPOSE-001"), (8, "EXPOSE-001"), (11, "EXPOSE-002"),
        (12, "EXPOSE-002"), (16, "EXPOSE-003"), (17, "EXPOSE-003"), (23, "EXPOSE-004"),
        (27, "EXPOSE-004")] ∧
    (scanFile [] "src/testdata/vuln_app.go" ".go" (.bytes vulnApp.toList false)).1.head? =
      some { RuleId := "EXPOSE-001", Severity := .high, Confidence := .high,
             Message := "Exposed internal IP address or hostname in source code: " ++
               "var dbHost = \"10.0.1.50\"",
             File := "src/testdata/vuln_app.go", StartLine := 6, EndLine := 6,
             Metadata := [("language", "go")] } ∧
    "10.0.1.50".toList <:+: ("Exposed internal IP address or hostname in source code: " ++
      "var dbHost = \"10.0.1.50\"").toList ∧
    handleScan (singleTree "src/testdata" testdataTree) background
        (scanRequest "src/testdata") =
      .ok { Findings :=
        (scanFile [] "src/testdata/vuln_app.go" ".go" (.bytes vulnApp.toList false)).1 } := by
  decide

theorem extToLanguage_cases (ext : String) (hext : supportedExtensions ext = true) :
    (ext = ".go" ∧ extToLanguage ext = "go") ∨ (ext = ".py" ∧ extToLanguage ext = "python") ∨
    (ext = ".js" ∧ extToLanguage ext = "javascript") ∨
    (ext = ".ts" ∧ extToLanguage ext = "typescript") ∨
    (ext = ".json" ∧ extToLanguage ext = "json") ∨
    (ext = ".yaml" ∧ extToLanguage ext = "yaml") := by
  rcases supported_cases ext hext with h | h | h | h | h | h <;> subst h <;> decide

/-- C15: every finding of a scan result carries exactly one metadata entry, keyed
`language`, whose value is the tag of the extension of the finding's own file: `go`
for `.go`, `python` for `.py`, `javascript` for `.js`, `typescript` for `.ts`, `json`
for `.json`, `yaml` for `.yaml`; the fallback `unknown` never appears. -/
theorem C15_language_tag (fs : FileSystem) (ctx : Ctx) (req : ToolRequest)
    (resp : InvokeToolResponse) (h : handleScan fs ctx req = .ok resp) :
    ∀ f ∈ resp.Findings,
      f.Metadata = [("language", extToLanguage (Ext f.File))] ∧
      ((Ext f.File = ".go" ∧ f.Metadata.lookup "language" = some "go") ∨
        (Ext f.File = ".py" ∧ f.Metadata.lookup "language" = some "python") ∨
        (Ext f.File = ".js" ∧ f.Metadata.lookup "language" = some "javascript") ∨
        (Ext f.File = ".ts" ∧ f.Metadata.lookup "language" = some "typescript") ∨
        (Ext f.File = ".json" ∧ f.Metadata.lookup "language" = some "json") ∨
        (Ext f.File = ".yaml" ∧ f.Metadata.lookup "language" = some "yaml")) ∧
      f.Metadata.lookup "language" ≠ some "unknown" := by
  intro f hf
  obtain ⟨hs, r, _, n, line, hfe⟩ := handleScan_fromCatalog fs ctx req resp h f hf
  have hm : f.Metadata = [("language", extToLanguage (Ext f.File))] := by
    rw [hfe]; rfl
  have hl : f.Metadata.lookup "language" = some (extToLanguage (Ext f.File)) := by
    rw [hm]; simp [List.lookup]
  refine ⟨hm, ?_, ?_⟩
  · rw [hl]
    rcases extToLanguage_cases _ hs with h1 | h1 | h1 | h1 | h1 | h1
    · exact Or.inl ⟨h1.1, by rw [h1.2]⟩
    · exact Or.inr (Or.inl ⟨h1.1, by rw [h1.2]⟩)
    · exact Or.inr (Or.inr (Or.inl ⟨h1.1, by rw [h1.2]⟩))
    · exact Or.inr (Or.inr (Or.inr (Or.inl ⟨h1.1, by rw [h1.2]⟩)))
    · exact Or.inr (Or.inr (Or.inr (Or.inr (Or.inl ⟨h1.1, by rw [h1.2]⟩))))
    · exact Or.inr (Or.inr (Or.inr (Or.inr (Or.inr ⟨h1.1, by rw [h1.2]⟩))))
  · rw [hl]
    rcases extToLanguage_cases _ hs with h1 | h1 | h1 | h1 | h1 | h1 <;> rw [h1.2] <;> decide

/-- C15, on the sample workspace: the two findings of `app.go` are tagged `go`, the two
of `conf/srv.yaml` are tagged `yaml`. -/
theorem C15_language_tag_witness :
    ∃ resp, handleScan (singleTree "ws" sampleTree) background (scanRequest "ws") = .ok resp ∧
      resp.Findings.map (fun f => (f.File, f.Metadata)) =
        [("ws/app.go", [("language", "go")]), ("ws/app.go", [("language", "go")]),
          ("ws/conf/srv.yaml", [("language", "yaml")]),
          ("ws/conf/srv.yaml", [("language", "yaml")])] ∧
      ∀ f ∈ resp.Findings,
        f.Metadata = [("language", extToLanguage (Ext f.File))] ∧
        ((Ext f.File = ".go" ∧ f.Metadata.lookup "language" = some "go") ∨
          (Ext f.File = ".py" ∧ f.Metadata.lookup "language" = some "python") ∨
          (Ext f.File = ".js" ∧ f.Metadata.lookup "language" = some "javascript") ∨
          (Ext f.File = ".ts" ∧ f.Metadata.lookup "language" = some "typescript") ∨
          (Ext f.File = ".json" ∧ f.Metadata.lookup "language" = some "json") ∨
          (Ext f.File = ".yaml" ∧ f.Metadata.lookup "language" = some "yaml")) ∧
        f.Metadata.lookup "language" ≠ some "unknown" :=
  ⟨_, rfl, by decide,
    C15_language_tag (singleTree "ws" sampleTree) background (scanRequest "ws") _ rfl⟩

theorem lookup_isSome_six (ext : String) (p1 p2 p3 p4 p5 p6 : Regex) :
    (List.lookup ext [(".go", p1), (".py", p2), (".js", p3), (".ts", p4), (".json", p5),
      (".yaml", p6)]).isSome = supportedExtensions ext := by
  by_cases h1 : ext = ".go"
  · subst h1; rfl
  by_cases h2 : ext = ".py"
  · subst h2; rfl
  by_cases h3 : ext = ".js"
  · subst h3; rfl
  by_cases h4 : ext = ".ts"
  · subst h4; rfl
  by_cases h5 : ext = ".json"
  · subst h5; rfl
  by_cases h6 : ext = ".yaml"
  · subst h6; rfl
  have e1 : (ext == ".go") = false := beq_eq_false_iff_ne.mpr h1
  have e2 : (ext == ".py") = false := beq_eq_false_iff_ne.mpr h2
  have e3 : (ext == ".js") = false := beq_eq_false_iff_ne.mpr h3
  have e4 : (ext == ".ts") = false := beq_eq_false_iff_ne.mpr h4
  have e5 : (ext == ".json") = false := beq_eq_false_iff_ne.mpr h5
  have e6 : (ext == ".yaml") = false := beq_eq_false_iff_ne.mpr h6
  simp only [List.lookup, supportedExtensions, e1, e2, e3, e4, e5, e6]
  rfl

/-- C16: the catalog holds the four ids EXPOSE-001 to EXPOSE-004, pairwise distinct;
the keys of every rule's pattern map are exactly the six recognised extensions, each
once; so a rule has a pattern for an extension exactly when the extension is
recognised, and since the walker hands a file to `scanFile` only when its extension is
recognised (a file of another extension leaves the builder untouched), the lookup in
`scanFile` never reports absence. -/
theorem C16_catalog_well_formed :
    rules.map (fun r => r.ID) = ["EXPOSE-001", "EXPOSE-002", "EXPOSE-003", "EXPOSE-004"] ∧
    (rules.map (fun r => r.ID)).Nodup ∧
    (∀ r ∈ rules, r.Patterns.map (fun kv => kv.1) =
      [".go", ".py", ".js", ".ts", ".json", ".yaml"]) ∧
    (∀ r ∈ rules, ∀ ext, (r.Patterns.lookup ext).isSome = supportedExtensions ext) ∧
    (∀ r ∈ rules, ∀ path, supportedExtensions (Ext path) = true →
      ∃ p, r.Patterns.lookup (Ext path) = some p) ∧
    (∀ (ctx : Ctx) (path name : String) (data : FileData) (st : WalkState),
      supportedExtensions (Ext path) = false →
      (visit ctx path (.file name data) st).1.resp = st.resp) := by
  refine ⟨rfl, by decide, ?_, ?_, ?_, ?_⟩
  · intro r hr
    simp only [rules, List.mem_cons, List.mem_singleton, List.not_mem_nil, or_false] at hr
    rcases hr with hr | hr | hr | hr <;> subst hr <;> rfl
  · intro r hr ext
    simp only [rules, List.mem_cons, List.mem_singleton, List.not_mem_nil, or_false] at hr
    rcases hr with hr | hr | hr | hr <;> subst hr <;> exact lookup_isSome_six ext _ _ _ _ _ _
  · intro r hr path hs
    have := rules_have_pattern (Ext path) hs r hr
    exact Option.isSome_iff_exists.mp this
  · intro ctx path name data st hs
    unfold visit
    cases ctx st.tick <;> simp [hs]

/-- C16, on the rule EXPOSE-003 and the path `conf/app.yaml`. -/
theorem C16_catalog_well_formed_witness :
    (rules.get ⟨2, by decide⟩).ID = "EXPOSE-003" ∧
    (rules.get ⟨2, by decide⟩).Patterns.map (fun kv => kv.1) =
      [".go", ".py", ".js", ".ts", ".json", ".yaml"] ∧
    (∃ p, (rules.get ⟨2, by decide⟩).Patterns.lookup (Ext "conf/app.yaml") = some p) ∧
    ((rules.get ⟨2, by decide⟩).Patterns.lookup ".yml").isSome = false :=
  ⟨rfl,
    C16_catalog_well_formed.2.2.1 _ (List.get_mem rules 2 (by decide)),
    C16_catalog_well_formed.2.2.2.2.1 _ (List.get_mem rules 2 (by decide)) "conf/app.yaml"
      (by decide),
    (C16_catalog_well_formed.2.2.2.1 _ (List.get_mem rules 2 (by decide)) ".yml").trans
      (by decide)⟩

/-! ## Version lines -/

theorem scanFile_line_mem (resp : List Finding) (filePath ext : String) (content : List Char)
    (readFails : Bool) (n : Nat) (line : List Char) (f : Finding)
    (hline : (scanTokens readFails content []).1[n]? = some line)
    (hf : f ∈ lineFindings filePath ext (n + 1) line) :
    f ∈ (scanFile resp filePath ext (.bytes content readFails)).1 := by
  simp only [scanFile, scanLoop_eq, Nat.zero_add, List.mem_append, List.mem_flatMap]
  refine Or.inr ⟨(n + 1, line), ?_, hf⟩
  rw [List.mk_mem_enumFrom_iff_le_and_getElem?_sub]
  exact ⟨by omega, by simpa using hline⟩

theorem matchK_star_chr (f : Char → Bool) (ds : List Char) (hds : ∀ c ∈ ds, f c = true) :
    ∀ (p : Option Char) (t : List Char) (k : Option Char → List Char → Bool),
      (∀ q, k q t = true) → matchK (.star (.chr f)) p (ds ++ t) k = true := by
  induction ds with
  | nil =>
    intro p t k hk
    simp only [List.nil_append, matchK]
    exact starLoop_of_k _ _ _ _ _ (hk p)
  | cons d rest ih =>
    intro p t k hk
    have hd := hds d (List.mem_cons_self _ _)
    have hrec := ih (fun c hc => hds c (List.mem_cons_of_mem _ hc)) (some d) t k hk
    simp only [matchK] at hrec
    simp only [matchK, List.cons_append, List.length_cons, starLoop, hd, Bool.true_and,
      Nat.lt_succ_self, decide_True, List.append_eq, hrec, Bool.or_true]

theorem matchK_plus_chr (f : Char → Bool) (d : Char) (ds : List Char) (hd : f d = true)
    (hds : ∀ c ∈ ds, f c = true) (p : Option Char) (t : List Char)
    (k : Option Char → List Char → Bool) (hk : ∀ q, k q t = true) :
    matchK (Regex.plus (.chr f)) p (d :: ds ++ t) k = true := by
  have := matchK_star_chr f ds hds (some d) t k hk
  simp only [Regex.plus, matchK, List.cons_append, hd, Bool.true_and]
  exact this

theorem matchK_semver (d1 d2 d3 : Char) (r1 r2 r3 : List Char)
    (h1 : ∀ c ∈ d1 :: r1, isDigit c = true) (h2 : ∀ c ∈ d2 :: r2, isDigit c = true)
    (h3 : ∀ c ∈ d3 :: r3, isDigit c = true) (p : Option Char) (t : List Char)
    (k : Option Char → List Char → Bool) (hk : ∀ q, k q t = true) :
    matchK reSemver p
      (d1 :: r1 ++ (".".toList ++ (d2 :: r2 ++ (".".toList ++ (d3 :: r3 ++ t))))) k = true := by
  unfold reSemver reDigit
  rw [matchK_cat_cons]
  apply matchK_plus_chr isDigit d1 r1 (h1 d1 (List.mem_cons_self _ _))
    (fun c hc => h1 c (List.mem_cons_of_mem _ hc))
  intro q; rw [matchK_cat_cons]; apply matchK_litI
  intro q; rw [matchK_cat_cons]
  apply matchK_plus_chr isDigit d2 r2 (h2 d2 (List.mem_cons_self _ _))
    (fun c hc => h2 c (List.mem_cons_of_mem _ hc))
  intro q; rw [matchK_cat_cons]; apply matchK_litI
  intro q
  exact matchK_plus_chr isDigit d3 r3 (h3 d3 (List.mem_cons_self _ _))
    (fun c hc => h3 c (List.mem_cons_of_mem _ hc)) q t k hk

theorem matchFrom_version_json (post : List Char) (p : Option Char) :
    matchFrom patVersionJSON p ("\"version\": \"2.4.51\"".toList ++ post) = true := by
  have hline : "\"version\": \"2.4.51\"".toList ++ post =
      "\"version\"".toList ++ ([] ++ (":".toList ++ (" ".toList ++ ("\"".toList ++
        ('2' :: [] ++ (".".toList ++ ('4' :: [] ++ (".".toList ++ ('5' :: ['1'] ++
          ("\"".toList ++ post)))))))))) := rfl
  rw [hline]
  unfold matchFrom patVersionJSON
  apply matchK_oneOf_mem (Regex.cat [Regex.litI "\"version\"", reSpaces, Regex.litI ":",
    reSpaces, Regex.litI "\"", reSemver, Regex.litI "\""]) _ (by simp)
  rw [matchK_cat_cons]; apply matchK_litI
  intro q; rw [matchK_cat_cons]
  apply matchK_star_chr isSpaceRe [] (by simp)
  intro q; rw [matchK_cat_cons]; apply matchK_litI
  intro q; rw [matchK_cat_cons]
  apply matchK_star_chr isSpaceRe " ".toList (by decide)
  intro q; rw [matchK_cat_cons]; apply matchK_litI
  intro q; rw [matchK_cat_cons]
  apply matchK_semver '2' '4' '5' [] [] ['1'] (by decide) (by decide) (by decide)
  intro q
  exact matchK_litI "\"" q post _ (fun _ => rfl)

theorem matchFrom_version_yaml (post : List Char) (p : Option Char) :
    matchFrom patVersionYAML p ("version: \"2.4.51\"".toList ++ post) = true := by
  have hline : "version: \"2.4.51\"".toList ++ post =
      "version:".toList ++ (" ".toList ++ ("\"".toList ++ ('2' :: [] ++ (".".toList ++
        ('4' :: [] ++ (".".toList ++ ('5' :: ['1'] ++ ("\"".toList ++ post)))))))) := rfl
  rw [hline]
  unfold matchFrom patVersionYAML
  apply matchK_oneOf_mem (Regex.cat [Regex.litI "version:", reSpaces,
    Regex.opt (.chr (fun c => c.toNat == 39 || c.toNat == 34)), reSemver]) _ (by simp)
  rw [matchK_cat_cons]; apply matchK_litI
  intro q; rw [matchK_cat_cons]
  apply matchK_star_chr isSpaceRe " ".toList (by decide)
  intro q; rw [matchK_cat_cons]
  have hs := matchK_semver '2' '4' '5' [] [] ['1'] (by decide) (by decide) (by decide)
    (some (Char.ofNat 34)) ("\"".toList ++ post) (fun _ _ => true) (fun _ => rfl)
  simp only [Regex.opt, matchK, Bool.or_eq_true, Bool.and_eq_true]
  exact Or.inl hs

theorem patternFor_version (ext : String) (hext : ext = ".json" ∨ ext = ".yaml") :
    patternFor "EXPOSE-004" ext =
      some (if ext = ".json" then patVersionJSON else patVersionYAML) := by
  rcases hext with h | h <;> subst h <;> rfl

/-- C12: in a `.json` file every line containing `"version": "2.4.51"` produces an
EXPOSE-004 finding for that line, tagged `json`; in a `.yaml` file every line
containing `version: "2.4.51"` produces an EXPOSE-004 finding tagged `yaml`. -/
theorem C12_version_lines (resp : List Finding) (filePath : String) (content : List Char)
    (readFails : Bool) (n : Nat) (pre post : List Char) :
    ((scanTokens readFails content []).1[n]? =
        some (pre ++ "\"version\": \"2.4.51\"".toList ++ post) →
      ∃ f ∈ (scanFile resp filePath ".json" (.bytes content readFails)).1,
        f.RuleId = "EXPOSE-004" ∧ f.File = filePath ∧ f.StartLine = n + 1 ∧
          f.Metadata = [("language", "json")]) ∧
    ((scanTokens readFails content []).1[n]? =
        some (pre ++ "version: \"2.4.51\"".toList ++ post) →
      ∃ f ∈ (scanFile resp filePath ".yaml" (.bytes content readFails)).1,
        f.RuleId = "EXPOSE-004" ∧ f.File = filePath ∧ f.StartLine = n + 1 ∧
          f.Metadata = [("language", "yaml")]) := by
  constructor
  · intro hline
    have hfl := (flagged_iff filePath ".json" "EXPOSE-004" (n + 1)
      (pre ++ "\"version\": \"2.4.51\"".toList ++ post)).mpr
      ⟨_, patternFor_version ".json" (Or.inl rfl),
        MatchString_infix _ pre _ post (fun p => matchFrom_version_json post p)⟩
    obtain ⟨f, hf, hid, hn⟩ := hfl
    refine ⟨f, scanFile_line_mem resp filePath ".json" content readFails n _ f hline hf,
      hid, ?_, hn, ?_⟩ <;>
    · obtain ⟨r, _, _, rfl⟩ := (mem_lineFindings filePath ".json" (n + 1) _ f).mp hf
      rfl
  · intro hline
    have hfl := (flagged_iff filePath ".yaml" "EXPOSE-004" (n + 1)
      (pre ++ "version: \"2.4.51\"".toList ++ post)).mpr
      ⟨_, patternFor_version ".yaml" (Or.inr rfl),
        MatchString_infix _ pre _ post (fun p => matchFrom_version_yaml post p)⟩
    obtain ⟨f, hf, hid, hn⟩ := hfl
    refine ⟨f, scanFile_line_mem resp filePath ".yaml" content readFails n _ f hline hf,
      hid, ?_, hn, ?_⟩ <;>
    · obtain ⟨r, _, _, rfl⟩ := (mem_lineFindings filePath ".yaml" (n + 1) _ f).mp hf
      rfl

/-- C12, on a three-line JSON file and a two-line YAML file. -/
theorem C12_version_lines_witness :
    (∃ f ∈ (scanFile [] "package.json" ".json"
        (.bytes "\x7b\n  \"version\": \"2.4.51\",\n\x7d\n".toList false)).1,
      f.RuleId = "EXPOSE-004" ∧ f.File = "package.json" ∧ f.StartLine = 1 + 1 ∧
        f.Metadata = [("language", "json")]) ∧
    (∃ f ∈ (scanFile [] "chart.yaml" ".yaml"
        (.bytes "name: app\nversion: \"2.4.51\"\n".toList false)).1,
      f.RuleId = "EXPOSE-004" ∧ f.File = "chart.yaml" ∧ f.StartLine = 1 + 1 ∧
        f.Metadata = [("language", "yaml")]) :=
  ⟨(C12_version_lines [] "package.json" "\x7b\n  \"version\": \"2.4.51\",\n\x7d\n".toList false 1
      "  ".toList ",".toList).1 (by decide),
    (C12_version_lines [] "chart.yaml" "name: app\nversion: \"2.4.51\"\n".toList false 1
      [] []).2 (by decide)⟩

/-! ## Letter case -/

theorem asciiLower_eq_toLower (c : Char) : asciiLower c = c.toLower := by
  simp [asciiLower, Char.toLower, isUpper]

theorem asciiLower_upper_isLower (c : Char) (hu : isUpper c = true) :
    isLower (asciiLower c) = true := by
  have hb : 65 ≤ c.toNat ∧ c.toNat ≤ 90 := by simpa [isUpper] using hu
  have hc : c = Char.ofNat c.toNat := (Char.ofNat_toNat c).symm
  generalize c.toNat = n at hb hc
  obtain ⟨h1, h2⟩ := hb
  subst hc
  interval_cases n <;> decide

theorem nonletter_of_asciiLower (a c : Char) (hal : isLower a = false)
    (h : asciiLower c = a) : c = a := by
  by_cases hu : isUpper c = true
  · have := asciiLower_upper_isLower c hu
    rw [h, hal] at this
    exact Bool.noConfusion this
  · have : asciiLower c = c := by simp [asciiLower, hu]
    rw [← h, this]

theorem foldEq_of_asciiLower (a c : Char) (h : asciiLower c = asciiLower a) :
    foldEq a c = true := by
  by_cases hl : isLower a = true
  · simp [foldEq, hl, h]
  · by_cases hu : isUpper a = true
    · simp [foldEq, hu, h]
    · have hl2 : isLower a = false := by simpa using hl
      have ha : asciiLower a = a := by simp [asciiLower, hu]
      have := nonletter_of_asciiLower a c hl2 (h.trans ha)
      subst this
      exact foldEq_self c

theorem matchK_litI_fold :
    ∀ (as cs : List Char), cs.map Char.toLower = as.map Char.toLower →
      ∀ (p : Option Char) (t : List Char) (k : Option Char → List Char → Bool),
        (∀ q, k q t = true) →
        matchK (Regex.cat (as.map (fun a => Regex.chr (foldEq a)))) p (cs ++ t) k = true := by
  intro as
  induction as with
  | nil =>
    intro cs h p t k hk
    have : cs = [] := by simpa using h
    subst this
    simpa [Regex.cat, matchK] using hk p
  | cons a rest ih =>
    intro cs h p t k hk
    cases cs with
    | nil => simp at h
    | cons c cs2 =>
      simp only [List.map_cons, List.cons.injEq] at h
      have hf : foldEq a c = true :=
        foldEq_of_asciiLower a c (by rw [asciiLower_eq_toLower, asciiLower_eq_toLower, h.1])
      rw [List.map_cons, matchK_cat_cons]
      simp only [List.cons_append, matchK, hf, Bool.true_and]
      exact ih cs2 h.2 _ t k hk

/-- C17, as stated, fails: a Go line whose only candidate text is `c:\windows\system32`
gets an EXPOSE-003 finding, as does the line with `C:\Windows\System32`. -/
theorem C17_counterexample :
    (lineFindings "a.go" ".go" 1 "dir = c:\\windows\\system32".toList).map
        (fun f => (f.RuleId, f.StartLine)) = [("EXPOSE-003", 1)] ∧
    (lineFindings "a.go" ".go" 1 "dir = C:\\Windows\\System32".toList).map
        (fun f => (f.RuleId, f.StartLine)) = [("EXPOSE-003", 1)] := by
  decide

/-- C17, amended: the patterns of EXPOSE-003 are case-insensitive throughout, the
Windows paths included: in every recognised file type a line containing
`C:\Windows\System32` produces an EXPOSE-003 finding, and so does a line containing the
same path in any other letter casing, such as `c:\windows\system32`. -/
theorem C17_windows_path_any_case (filePath ext : String) (n : Nat)
    (pre cs post : List Char) (hext : supportedExtensions ext = true)
    (hcs : cs.map Char.toLower = "C:\\Windows\\System32".toList.map Char.toLower) :
    ∃ f ∈ lineFindings filePath ext n (pre ++ cs ++ post),
      f.RuleId = "EXPOSE-003" ∧ f.StartLine = n := by
  rw [flagged_iff]
  refine ⟨_, patternFor_systemPath ext hext, ?_⟩
  have key : ∀ rs : List Regex, Regex.litI "C:\\Windows\\System32" ∈ rs →
      MatchString (Regex.oneOf rs) (pre ++ cs ++ post) = true := by
    intro rs hr
    apply MatchString_infix
    intro p
    exact matchK_oneOf_mem _ rs hr p _ _
      (matchK_litI_fold "C:\\Windows\\System32".toList cs hcs p post _ (fun _ => rfl))
  split
  · exact key _ (by simp)
  · exact key _ (by simp)

/-- C17, amended, on a YAML line with the path in lower case and a Python line with the
path in upper case. -/
theorem C17_windows_path_any_case_witness :
    (∃ f ∈ lineFindings "w.yaml" ".yaml" 5
        ("dir: ".toList ++ "c:\\windows\\system32".toList ++ "\\drivers".toList),
      f.RuleId = "EXPOSE-003" ∧ f.StartLine = 5) ∧
    (∃ f ∈ lineFindings "w.py" ".py" 5
        ("dir = ".toList ++ "C:\\WINDOWS\\SYSTEM32".toList ++ []),
      f.RuleId = "EXPOSE-003" ∧ f.StartLine = 5) :=
  ⟨C17_windows_path_any_case "w.yaml" ".yaml" 5 "dir: ".toList "c:\\windows\\system32".toList
      "\\drivers".toList (by decide) (by decide),
    C17_windows_path_any_case "w.py" ".py" 5 "dir = ".toList "C:\\WINDOWS\\SYSTEM32".toList
      [] (by decide) (by decide)⟩

/-! ## Lines that do not fit the scanner buffer -/

theorem byteLen_cons (c : Char) (l : List Char) : byteLen (c :: l) = utf8Width c + byteLen l := by
  simp [byteLen]

theorem scanTokens_full (readFails : Bool) :
    ∀ (rest cur : List Char), maxScanTokenSize ≤ byteLen cur →
      (scanTokens readFails rest cur).2 = some .errTooLong := by
  intro rest
  induction rest with
  | nil => intro cur h; simp [scanTokens, h]
  | cons c t ih =>
    intro cur h
    simp only [scanTokens]
    split
    · simp [h]
    · exact ih (c :: cur) (by rw [byteLen_cons]; omega)

theorem scanTokens_long (readFails : Bool) (rest : List Char) :
    ∀ (long cur : List Char), (∀ c ∈ long, c.toNat ≠ 10) →
      maxScanTokenSize ≤ byteLen long + byteLen cur →
      (scanTokens readFails (long ++ rest) cur).2 = some .errTooLong := by
  intro long
  induction long with
  | nil => intro cur _ h; exact scanTokens_full readFails rest cur (by simpa [byteLen] using h)
  | cons c t ih =>
    intro cur hnl h
    have hc : ¬ c.toNat = 10 := hnl c (List.mem_cons_self _ _)
    simp only [List.cons_append, scanTokens, beq_iff_eq, hc, if_false]
    exact ih (c :: cur) (fun x hx => hnl x (List.mem_cons_of_mem _ hx))
      (by rw [byteLen_cons] at h ⊢; omega)

theorem scanTokens_has_long (readFails : Bool) (long rest : List Char)
    (hnl : ∀ c ∈ long, c.toNat ≠ 10) (hlen : maxScanTokenSize ≤ byteLen long) :
    ∀ (pre cur : List Char),
      (scanTokens readFails (pre ++ (long ++ rest)) cur).2 = some .errTooLong := by
  intro pre
  induction pre with
  | nil => intro cur; exact scanTokens_long readFails rest long cur hnl (by omega)
  | cons c t ih =>
    intro cur
    simp only [List.cons_append, scanTokens]
    split
    · split
      · rfl
      · exact ih []
    · exact ih (c :: cur)

theorem byteLen_replicate_ascii (n : Nat) (c : Char) (hc : c.toNat < 128) :
    byteLen (List.replicate n c) = n := by
  induction n with
  | zero => simp [byteLen]
  | succ k ih =>
    rw [List.replicate_succ, byteLen_cons, ih]
    simp only [utf8Width, hc, if_true]
    omega

/-- C18: when the walk reaches a file of recognised extension (the callback
invocations before it ran without error and the context is not done) that holds,
anywhere, a stretch of 65536 bytes or more without a line feed, hence every line longer
than 65536 bytes, the scanner ends with `ErrTooLong`, `scanFile` returns it after
appending the findings of the lines before, and `handleScan` returns that error and no
response: nothing of what the builder held reaches the caller. -/
theorem C18_long_line_fails_scan (fs : FileSystem) (ctx : Ctx) (req : ToolRequest)
    (pre post : List Event) (path name : String) (before long after : List Char)
    (readFails : Bool) (st1 : WalkState)
    (hroot : workspaceRootOf req ≠ "")
    (hev : rootEvents fs (workspaceRootOf req) =
      pre ++ .enter path (.file name (.bytes (before ++ (long ++ after)) readFails)) :: post)
    (hpre : runEvents ctx pre { resp := [], tick := 0 } = (st1, none))
    (hctx : ctx st1.tick = none)
    (hext : supportedExtensions (Ext path) = true)
    (hnl : ∀ c ∈ long, c.toNat ≠ 10)
    (hlen : maxScanTokenSize ≤ byteLen long) :
    (scanTokens readFails (before ++ (long ++ after)) []).2 = some .errTooLong ∧
    scanFile st1.resp path (Ext path) (.bytes (before ++ (long ++ after)) readFails) =
      (st1.resp ++ (List.enumFrom 1
          (scanTokens readFails (before ++ (long ++ after)) []).1).flatMap
        (fun nl => lineFindings path (Ext path) nl.1 nl.2), some .errTooLong) ∧
    handleScan fs ctx req = .error .errTooLong := by
  have he := scanTokens_has_long readFails long after hnl hlen before []
  have hscan : scanFile st1.resp path (Ext path)
      (.bytes (before ++ (long ++ after)) readFails) =
      (st1.resp ++ (List.enumFrom 1
          (scanTokens readFails (before ++ (long ++ after)) []).1).flatMap
        (fun nl => lineFindings path (Ext path) nl.1 nl.2), some .errTooLong) := by
    simp only [scanFile, he, scanLoop_eq, Nat.zero_add]
  refine ⟨he, hscan, ?_⟩
  have hstep : stepEvent ctx
      (.enter path (.file name (.bytes (before ++ (long ++ after)) readFails))) st1 =
      ({ resp := (scanFile st1.resp path (Ext path)
            (.bytes (before ++ (long ++ after)) readFails)).1, tick := st1.tick + 1 },
        (scanFile st1.resp path (Ext path)
            (.bytes (before ++ (long ++ after)) readFails)).2) := by
    rw [stepEvent_file]
    simp [visit, hctx, hext]
  have hrun := runEvents_reach ctx pre post
    (.enter path (.file name (.bytes (before ++ (long ++ after)) readFails))) _ _ hpre
  rw [← hev, hstep, hscan] at hrun
  rw [handleScan_of_run fs ctx req hroot _ _ hrun]
  simp

/-- C18, on the workspace `longLineTree`: `b.go` holds a line of 70000 bytes after a
first line with an e-mail address; the scan returns `ErrTooLong`, although `a.go` and
the first line of `b.go` had produced findings. -/
theorem C18_long_line_fails_scan_witness :
    handleScan (singleTree "ws" longLineTree) background (scanRequest "ws") =
      .error .errTooLong ∧
    (scanFile (walkKids background [.file "a.go" (.bytes "peer 10.0.0.1\n".toList false)]
        "ws" { resp := [], tick := 1 }).1.resp "ws/b.go" (Ext "ws/b.go")
        (.bytes ("mail admin@example.com\n".toList ++
          (List.replicate 70000 'x' ++ "\npeer 10.0.0.2\n".toList)) false)).2 =
      some .errTooLong :=
  have h := C18_long_line_fails_scan (singleTree "ws" longLineTree) background
    (scanRequest "ws")
    [.enter "ws" longLineTree,
      .enter "ws/a.go" (.file "a.go" (.bytes "peer 10.0.0.1\n".toList false))]
    [.enter "ws/c.go" (.file "c.go" (.bytes "peer 10.0.0.3\n".toList false))]
    "ws/b.go" "b.go" "mail admin@example.com\n".toList (List.replicate 70000 'x')
    "\npeer 10.0.0.2\n".toList false
    (walkKids background [.file "a.go" (.bytes "peer 10.0.0.1\n".toList false)] "ws"
      { resp := [], tick := 1 }).1
    (by decide) rfl rfl rfl (by decide)
    (fun c hc => by rw [List.eq_of_mem_replicate hc]; decide)
    (by rw [byteLen_replicate_ascii 70000 'x' (by decide)]; decide)
  ⟨h.2.2, by rw [h.2.1]⟩

/-! ## Cancellation and the uncancelled scan -/

theorem stepEvent_background_of_ok (ctx : Ctx) (ev : Event) (st st1 : WalkState)
    (h : stepEvent ctx ev st = (st1, none)) : stepEvent background ev st = (st1, none) := by
  cases ev with
  | failed path => exact h
  | enter path d =>
    have hc : ctx st.tick = none := by
      cases hc : ctx st.tick with
      | none => rfl
      | some c =>
        rw [stepEvent_done ctx path d st c hc] at h
        cases c <;> simp [CtxErr.toErr] at h
    rw [← h]
    simp only [stepEvent, visit, hc, background]

theorem runEvents_background_of_ok (ctx : Ctx) :
    ∀ (evs : List Event) (st st1 : WalkState), runEvents ctx evs st = (st1, none) →
      runEvents background evs st = (st1, none) := by
  intro evs
  induction evs with
  | nil => intro st st1 h; exact h
  | cons ev rest ih =>
    intro st st1 h
    simp only [runEvents] at h
    cases hs : (stepEvent ctx ev st).2 with
    | some e => rw [hs] at h; simp at h
    | none =>
      rw [hs] at h
      have hb := stepEvent_background_of_ok ctx ev st (stepEvent ctx ev st).1
        (Prod.ext rfl hs)
      simp only [runEvents, hb]
      exact ih _ _ h

theorem scanFile_extends (resp : List Finding) (path ext : String) (data : FileData) :
    resp <+: (scanFile resp path ext data).1 := by
  cases data with
  | unopenable => exact List.prefix_refl _
  | bytes content readFails =>
    simp only [scanFile, scanLoop_eq]
    exact List.prefix_append _ _

theorem stepEvent_extends (ctx : Ctx) (ev : Event) (st : WalkState) :
    st.resp <+: (stepEvent ctx ev st).1.resp := by
  cases ev with
  | failed path => exact List.prefix_refl _
  | enter path d =>
    simp only [stepEvent, visit]
    cases ctx st.tick with
    | some c => exact List.prefix_refl _
    | none =>
      cases d with
      | dir name readErr kids =>
        simp only
        split <;> exact List.prefix_refl _
      | file name data =>
        simp only
        split
        · exact List.prefix_refl _
        · exact scanFile_extends _ _ _ _

theorem runEvents_extends (ctx : Ctx) :
    ∀ (evs : List Event) (st : WalkState), st.resp <+: (runEvents ctx evs st).1.resp := by
  intro evs
  induction evs with
  | nil => intro st; exact List.prefix_refl _
  | cons ev rest ih =>
    intro st
    simp only [runEvents]
    cases hs : (stepEvent ctx ev st).2 with
    | some e => exact stepEvent_extends ctx ev st
    | none => exact (stepEvent_extends ctx ev st).trans (ih _)

/-- C19: when the callback finds the context done at an entry (the invocations before
it ran without error), it returns before looking at the entry, the walk ends there
with the builder as it was, so no file is opened at or after that entry; and the
findings accumulated up to that point are a prefix of what the walk of the same tree
under a context that is never done accumulates, hence of the finding list the
uncancelled scan returns. -/
theorem C19_cancelled_scan_findings (fs : FileSystem) (ctx : Ctx) (req : ToolRequest)
    (pre post : List Event) (path : String) (d : Entry) (st1 : WalkState) (c : CtxErr)
    (hev : rootEvents fs (workspaceRootOf req) = pre ++ .enter path d :: post)
    (hpre : runEvents ctx pre { resp := [], tick := 0 } = (st1, none))
    (hctx : ctx st1.tick = some c) :
    (∀ d1 : Entry, visit ctx path d1 st1 = ({ st1 with tick := st1.tick + 1 }, some c.toErr)) ∧
    WalkDir fs ctx (workspaceRootOf req) { resp := [], tick := 0 } =
      ({ resp := st1.resp, tick := st1.tick + 1 }, some c.toErr) ∧
    st1.resp <+: (WalkDir fs background (workspaceRootOf req) { resp := [], tick := 0 }).1.resp ∧
    (∀ resp, workspaceRootOf req ≠ "" → handleScan fs background req = .ok resp →
      st1.resp <+: resp.Findings) := by
  have hvisit : ∀ d1 : Entry,
      visit ctx path d1 st1 = ({ st1 with tick := st1.tick + 1 }, some c.toErr) := by
    intro d1
    simp only [visit, hctx]
  have hwalk : WalkDir fs ctx (workspaceRootOf req) { resp := [], tick := 0 } =
      ({ resp := st1.resp, tick := st1.tick + 1 }, some c.toErr) := by
    rw [WalkDir_eq_run, hev, runEvents_reach ctx pre post _ _ _ hpre,
      stepEvent_done ctx path d st1 c hctx]
  have hpref : st1.resp <+:
      (WalkDir fs background (workspaceRootOf req) { resp := [], tick := 0 }).1.resp := by
    rw [WalkDir_eq_run, hev, runEvents_append,
      runEvents_background_of_ok ctx pre _ _ hpre]
    exact runEvents_extends background _ st1
  refine ⟨hvisit, hwalk, hpref, ?_⟩
  intro resp hroot h
  unfold handleScan at h
  simp only [hroot, if_false] at h
  split at h
  · cases h; exact hpref
  · split at h
    · cases h; exact hpref
    · cases h

/-- C19, on the sample workspace with a context cancelled after the third callback
invocation: the walk stops at `conf` with the two findings of `app.go`, the first two
of the four findings of the uncancelled scan. -/
theorem C19_cancelled_scan_findings_witness :
    WalkDir (singleTree "ws" sampleTree) (cancelledAfter 3) "ws" { resp := [], tick := 0 } =
      ({ resp := (walkKids (cancelledAfter 3)
          [.file "README.md" (.bytes "host 10.0.0.3\n".toList false),
            .file "app.go"
              (.bytes "var dbHost = \"10.0.1.50\"\nvar mail = \"admin@company.com\"\n".toList
                false)] "ws" { resp := [], tick := 1 }).1.resp, tick := 4 },
        some .canceled) ∧
    (∀ resp, handleScan (singleTree "ws" sampleTree) background (scanRequest "ws") = .ok resp →
      (walkKids (cancelledAfter 3)
          [.file "README.md" (.bytes "host 10.0.0.3\n".toList false),
            .file "app.go"
              (.bytes "var dbHost = \"10.0.1.50\"\nvar mail = \"admin@company.com\"\n".toList
                false)] "ws" { resp := [], tick := 1 }).1.resp <+: resp.Findings) :=
  have h := C19_cancelled_scan_findings (singleTree "ws" sampleTree) (cancelledAfter 3)
    (scanRequest "ws")
    [.enter "ws" sampleTree,
      .enter "ws/README.md" (.file "README.md" (.bytes "host 10.0.0.3\n".toList false)),
      .enter "ws/app.go" (.file "app.go"
        (.bytes "var dbHost = \"10.0.1.50\"\nvar mail = \"admin@company.com\"\n".toList false))]
    [.enter "ws/conf/srv.yaml" (.file "srv.yaml"
        (.bytes "version: \"2.4.51\"\nlog: /var/log/syslog\n".toList false)),
      .enter "ws/vendor" (.dir "vendor" false
        [.file "dep.go" (.bytes "peer 10.0.0.2\n".toList false)])]
    "ws/conf" (.dir "conf" false [
      .file "srv.yaml" (.bytes "version: \"2.4.51\"\nlog: /var/log/syslog\n".toList false)])
    (walkKids (cancelledAfter 3)
      [.file "README.md" (.bytes "host 10.0.0.3\n".toList false),
        .file "app.go"
          (.bytes "var dbHost = \"10.0.1.50\"\nvar mail = \"admin@company.com\"\n".toList
            false)] "ws" { resp := [], tick := 1 }).1
    .canceled rfl rfl rfl
  ⟨h.2.1, fun resp hr => h.2.2.2 resp (by decide) hr⟩

/-! ## An excluded name at the root -/

/-- C20, as stated, fails: for a root directory named `vendor` and a context whose
deadline has passed, `handleScan` returns an error, not an empty successful
response. -/
theorem C20_counterexample :
    skippedDirs vendorRootTree.name = true ∧
    handleScan (singleTree "/src/vendor" vendorRootTree) expired (scanRequest "/src/vendor") =
      .error .deadlineExceeded := by
  exact ⟨rfl, rfl⟩

/-- C20, amended: the exclusion check is applied to the workspace root itself. If the
root is a directory named `.git`, `vendor`, `node_modules`, `__pycache__` or `.venv`
and the context is not done, the walk makes a single callback invocation, which prunes
the root, and the scan returns a successful response with zero findings, whatever the
root contains; the same response is returned when the context reports `Canceled` at
that first entry, while a context that reports `DeadlineExceeded` there makes
`handleScan` return that error. -/
theorem C20_excluded_root (fs : FileSystem) (ctx : Ctx) (req : ToolRequest)
    (name : String) (readErr : Bool) (kids : List Entry)
    (hroot : workspaceRootOf req ≠ "")
    (hfs : fs (workspaceRootOf req) = some (.dir name readErr kids))
    (hname : skippedDirs name = true) :
    (ctx 0 = none →
      WalkDir fs ctx (workspaceRootOf req) { resp := [], tick := 0 } =
        ({ resp := [], tick := 1 }, none)) ∧
    (ctx 0 ≠ some .deadlineExceeded → handleScan fs ctx req = .ok { Findings := [] }) ∧
    (ctx 0 = some .deadlineExceeded → handleScan fs ctx req = .error .deadlineExceeded) := by
  refine ⟨?_, ?_, ?_⟩
  · intro hc
    simp [WalkDir, hfs, walkDir, visit, hc, hname]
  · intro hc
    unfold handleScan WalkDir
    simp only [hroot, if_false, hfs, walkDir, visit]
    cases h : ctx 0 with
    | none => simp [hname]
    | some c =>
      cases c with
      | canceled => simp [CtxErr.toErr]
      | deadlineExceeded => exact absurd h hc
  · intro hc
    unfold handleScan WalkDir
    simp [hroot, hfs, walkDir, visit, hc, CtxErr.toErr]

/-- C20, amended, on a root named `vendor` that holds a Go file with a private
address: nothing is reported under a context that is not done or is cancelled, and the
error is returned under an expired one. -/
theorem C20_excluded_root_witness :
    WalkDir (singleTree "/src/vendor" vendorRootTree) background "/src/vendor"
        { resp := [], tick := 0 } = ({ resp := [], tick := 1 }, none) ∧
    handleScan (singleTree "/src/vendor" vendorRootTree) background
        (scanRequest "/src/vendor") = .ok { Findings := [] } ∧
    handleScan (singleTree "/src/vendor" vendorRootTree) cancelled
        (scanRequest "/src/vendor") = .ok { Findings := [] } ∧
    handleScan (singleTree "/src/vendor" vendorRootTree) expired
        (scanRequest "/src/vendor") = .error .deadlineExceeded :=
  ⟨(C20_excluded_root (singleTree "/src/vendor" vendorRootTree) background
      (scanRequest "/src/vendor") "vendor" false _ (by decide) rfl rfl).1 rfl,
    (C20_excluded_root (singleTree "/src/vendor" vendorRootTree) background
      (scanRequest "/src/vendor") "vendor" false _ (by decide) rfl rfl).2.1 (by decide),
    (C20_excluded_root (singleTree "/src/vendor" vendorRootTree) cancelled
      (scanRequest "/src/vendor") "vendor" false _ (by decide) rfl rfl).2.1 (by decide),
    (C20_excluded_root (singleTree "/src/vendor" vendorRootTree) expired
      (scanRequest "/src/vendor") "vendor" false _ (by decide) rfl rfl).2.2 rfl⟩

/-! ## The finding list of a tree -/

theorem scanFile_eq_fileFindings (resp : List Finding) (path : String) (data : FileData) :
    (scanFile resp path (Ext path) data).1 = resp ++ fileFindings path data := by
  cases data with
  | unopenable => simp [scanFile, fileFindings]
  | bytes content readFails =>
    simp only [scanFile, fileFindings, scanLoop_eq, lineFindings, scanRules_eq,
      List.nil_append, Nat.zero_add]

theorem walkDir_ne_skipDir (ctx : Ctx) (e : Entry) (path : String) (st : WalkState) :
    (walkDir ctx e path st).2 ≠ some .skipDir := by
  rw [walkDir_eq_run]
  exact runEvents_ne_skipDir ctx _ st

theorem visit_dir_cases (ctx : Ctx) (path name : String) (readErr : Bool) (kids : List Entry)
    (st : WalkState) :
    (visit ctx path (.dir name readErr kids) st).1.resp = st.resp ∧
    ((visit ctx path (.dir name readErr kids) st).2 = none → skippedDirs name = false) ∧
    ((visit ctx path (.dir name readErr kids) st).2 = some .skipDir →
      skippedDirs name = true) := by
  unfold visit
  cases hc : ctx st.tick with
  | some c => cases c <;> simp [CtxErr.toErr]
  | none =>
    by_cases hs : skippedDirs name = true
    · simp [hs]
    · simp [hs]

mutual
theorem walkDir_findings (ctx : Ctx) :
    ∀ (e : Entry) (path : String) (st : WalkState),
      ∃ l, (walkDir ctx e path st).1.resp = st.resp ++ l ∧ l <+: treeFindings e path ∧
        ((walkDir ctx e path st).2 = none → l = treeFindings e path)
  | .file name data, path, st => by
    simp only [walkDir, visit, treeFindings]
    cases hc : ctx st.tick with
    | some c => exact ⟨[], by simp, List.nil_prefix, by simp⟩
    | none =>
      by_cases hs : supportedExtensions (Ext path) = true
      · simp only [hs, Bool.not_true, Bool.false_eq_true, if_false, if_true]
        exact ⟨fileFindings path data, scanFile_eq_fileFindings _ _ _, List.prefix_refl _,
          fun _ => rfl⟩
      · simp only [hs, Bool.not_false, if_true, if_false]
        exact ⟨[], by simp, List.prefix_refl _, fun _ => rfl⟩
  | .dir name readErr kids, path, st => by
    obtain ⟨hresp, hnone, hskip⟩ := visit_dir_cases ctx path name readErr kids st
    simp only [walkDir, treeFindings]
    cases hv : (visit ctx path (.dir name readErr kids) st).2 with
    | some e =>
      simp only
      refine ⟨[], by simp [hresp], List.nil_prefix, ?_⟩
      intro he
      by_cases hsk : e = .skipDir
      · subst hsk
        simp [hskip hv]
      · simp [hsk] at he
    | none =>
      have hs := hnone hv
      have ih := walkKids_findings ctx kids path
      cases readErr with
      | false =>
        simp only [Bool.false_eq_true, if_false, hs]
        obtain ⟨l, h1, h2, h3⟩ := ih (visit ctx path (.dir name false kids) st).1
        exact ⟨l, by rw [h1, hresp], h2, h3⟩
      | true =>
        simp only [if_true, visitErr, hs, Bool.false_eq_true, if_false]
        obtain ⟨l, h1, h2, h3⟩ := ih
          { (visit ctx path (.dir name true kids) st).1 with
            tick := (visit ctx path (.dir name true kids) st).1.tick + 1 }
        exact ⟨l, by rw [h1, hresp], h2, h3⟩
theorem walkKids_findings (ctx : Ctx) :
    ∀ (kids : List Entry) (path : String) (st : WalkState),
      ∃ l, (walkKids ctx kids path st).1.resp = st.resp ++ l ∧ l <+: kidsFindings kids path ∧
        ((walkKids ctx kids path st).2 = none → l = kidsFindings kids path)
  | [], path, st => ⟨[], by simp [walkKids], by simp [kidsFindings], by simp [kidsFindings]⟩
  | d1 :: rest, path, st => by
    obtain ⟨l1, h1, h2, h3⟩ := walkDir_findings ctx d1 (Join path d1.name) st
    have hne := walkDir_ne_skipDir ctx d1 (Join path d1.name) st
    simp only [walkKids, kidsFindings]
    cases hv : (walkDir ctx d1 (Join path d1.name) st).2 with
    | some e =>
      have he : e ≠ .skipDir := by
        intro hc; apply hne; rw [hv, hc]
      simp only [he, if_false]
      exact ⟨l1, h1, h2.trans (List.prefix_append _ _), by simp⟩
    | none =>
      simp only
      obtain ⟨l2, g1, g2, g3⟩ :=
        walkKids_findings ctx rest path (walkDir ctx d1 (Join path d1.name) st).1
      have hl1 := h3 hv
      refine ⟨l1 ++ l2, by rw [g1, h1, List.append_assoc], ?_, ?_⟩
      · rw [hl1]; exact (List.prefix_append_right_inj _).mpr g2
      · intro hn; rw [hl1, g3 hn]
end

theorem WalkDir_findings (fs : FileSystem) (ctx : Ctx) (root : String) :
    ∃ l, (WalkDir fs ctx root { resp := [], tick := 0 }).1.resp = l ∧
      l <+: rootFindings fs root ∧
      ((WalkDir fs ctx root { resp := [], tick := 0 }).2 = none → l = rootFindings fs root) := by
  unfold WalkDir rootFindings
  cases hfs : fs root with
  | none => exact ⟨[], by simp [visitErr], List.prefix_refl _, fun _ => rfl⟩
  | some d =>
    obtain ⟨l, h1, h2, h3⟩ := walkDir_findings ctx d root { resp := [], tick := 0 }
    have hne := walkDir_ne_skipDir ctx d root { resp := [], tick := 0 }
    show ∃ l, (match (walkDir ctx d root { resp := [], tick := 0 }).2 with
        | some .skipDir => ((walkDir ctx d root { resp := [], tick := 0 }).1, none)
        | _ => walkDir ctx d root { resp := [], tick := 0 }).1.resp = l ∧
      l <+: treeFindings d root ∧
      ((match (walkDir ctx d root { resp := [], tick := 0 }).2 with
        | some .skipDir => ((walkDir ctx d root { resp := [], tick := 0 }).1, none)
        | _ => walkDir ctx d root { resp := [], tick := 0 }).2 = none → l = treeFindings d root)
    have hw : (match (walkDir ctx d root { resp := [], tick := 0 }).2 with
        | some .skipDir => ((walkDir ctx d root { resp := [], tick := 0 }).1, none)
        | _ => walkDir ctx d root { resp := [], tick := 0 }) =
        walkDir ctx d root { resp := [], tick := 0 } := by
      split
      · rename_i hsk; exact absurd hsk hne
      · rfl
    rw [hw]
    exact ⟨l, by simpa using h1, h2, h3⟩

mutual
theorem walkDir_complete :
    ∀ (e : Entry) (path : String) (st : WalkState),
      readErrorFree e path = true → (walkDir background e path st).2 = none
  | .file name data, path, st => by
    intro h
    simp only [walkDir, visit, background]
    by_cases hs : supportedExtensions (Ext path) = true
    · simp only [hs, Bool.not_true, Bool.false_eq_true, if_false]
      cases data with
      | unopenable => simp [scanFile]
      | bytes content readFails =>
        simp only [readErrorFree, hs, Bool.not_true, Bool.false_or] at h
        simp only [scanFile]
        exact Option.isNone_iff_eq_none.mp h
    · simp only [hs, Bool.not_false, if_true]
  | .dir name readErr kids, path, st => by
    intro h
    simp only [readErrorFree, Bool.or_eq_true] at h
    simp only [walkDir, visit, background]
    by_cases hs : skippedDirs name = true
    · simp [hs]
    · have hk : kidsErrorFree kids path = true := by
        rcases h with h | h
        · exact absurd h hs
        · exact h
      simp only [hs, Bool.false_eq_true, if_false]
      cases readErr with
      | false =>
        simp only [Bool.false_eq_true, if_false]
        exact walkKids_complete kids path _ hk
      | true =>
        simp only [if_true, visitErr]
        exact walkKids_complete kids path _ hk
theorem walkKids_complete :
    ∀ (kids : List Entry) (path : String) (st : WalkState),
      kidsErrorFree kids path = true → (walkKids background kids path st).2 = none
  | [], path, st => by
    intro _
    simp [walkKids]
  | d1 :: rest, path, st => by
    intro h
    simp only [kidsErrorFree, Bool.and_eq_true] at h
    have h1 := walkDir_complete d1 (Join path d1.name) st h.1
    simp only [walkKids, h1]
    exact walkKids_complete rest path _ h.2
end

theorem WalkDir_complete (fs : FileSystem) (root : String) (d : Entry)
    (hfs : fs root = some d) (h : readErrorFree d root = true) :
    (WalkDir fs background root { resp := [], tick := 0 }).2 = none := by
  have h1 := walkDir_complete d root { resp := [], tick := 0 } h
  simp only [WalkDir, hfs, h1]

set_option maxRecDepth 100000 in
/-- C14, as stated, fails: the list returned by a scan is not a function of the tree
alone. Two scans of the same unchanged tree both succeed; the one whose context is never
done returns the four findings of the files in scope, the one whose context is cancelled
after the third callback invocation returns only the first two of them. -/
theorem C14_counterexample :
    (rootFindings (singleTree "ws" sampleTree) "ws").map
        (fun f => (f.File, f.StartLine, f.RuleId)) =
      [("ws/app.go", 1, "EXPOSE-001"), ("ws/app.go", 2, "EXPOSE-002"),
       ("ws/conf/srv.yaml", 1, "EXPOSE-004"), ("ws/conf/srv.yaml", 2, "EXPOSE-003")] ∧
    handleScan (singleTree "ws" sampleTree) background (scanRequest "ws") =
      .ok { Findings := rootFindings (singleTree "ws" sampleTree) "ws" } ∧
    handleScan (singleTree "ws" sampleTree) (cancelledAfter 3) (scanRequest "ws") =
      .ok { Findings := (rootFindings (singleTree "ws" sampleTree) "ws").take 2 } := by
  decide

/-- C14, amended: for a non-empty workspace root, whenever the walk runs to its end
without error, under any context, `handleScan` returns exactly `rootFindings`: the
concatenation, depth-first and within a directory in the order of its entries, of the
per-file lists of the files in scope, each ordered by line and then by rule in catalog
order, nothing removed and nothing reordered; so two such scans of the same tree return
the same list. Every successful response, also that of a cancelled scan, holds a prefix
of that list. With a context that is never done the walk does run to its end whenever
every file in scope can be read to its end. -/
theorem C14_finding_list (fs : FileSystem) (ctx : Ctx) (req : ToolRequest)
    (hroot : workspaceRootOf req ≠ "") :
    ((WalkDir fs ctx (workspaceRootOf req) { resp := [], tick := 0 }).2 = none →
      handleScan fs ctx req = .ok { Findings := rootFindings fs (workspaceRootOf req) }) ∧
    (∀ resp, handleScan fs ctx req = .ok resp →
      resp.Findings <+: rootFindings fs (workspaceRootOf req)) ∧
    (∀ d, fs (workspaceRootOf req) = some d → readErrorFree d (workspaceRootOf req) = true →
      handleScan fs background req =
        .ok { Findings := rootFindings fs (workspaceRootOf req) }) ∧
    (∀ resp path data, (scanFile resp path (Ext path) data).1 = resp ++ fileFindings path data) := by
  have key : ∀ c : Ctx, (WalkDir fs c (workspaceRootOf req) { resp := [], tick := 0 }).2 = none →
      handleScan fs c req = .ok { Findings := rootFindings fs (workspaceRootOf req) } := by
    intro c hn
    obtain ⟨l, h1, _, h3⟩ := WalkDir_findings fs c (workspaceRootOf req)
    simp only [handleScan, hroot, if_false, hn]
    rw [h1, h3 hn]
  refine ⟨key ctx, ?_, ?_, scanFile_eq_fileFindings⟩
  · intro resp h
    obtain ⟨l, h1, h2, _⟩ := WalkDir_findings fs ctx (workspaceRootOf req)
    simp only [handleScan, hroot, if_false] at h
    cases hw : (WalkDir fs ctx (workspaceRootOf req) { resp := [], tick := 0 }).2 with
    | none =>
      simp only [hw, ScanResult.ok.injEq] at h
      rw [← h]
      simpa [h1] using h2
    | some e =>
      simp only [hw] at h
      by_cases he : e = .canceled
      · simp only [he, if_true, ScanResult.ok.injEq] at h
        rw [← h]
        simpa [h1] using h2
      · simp [he] at h
  · intro d hfs hd
    exact key background (WalkDir_complete fs (workspaceRootOf req) d hfs hd)

set_option maxRecDepth 100000 in
/-- C14, amended, at the sample workspace scanned under a context cancelled after the
third callback invocation. -/
theorem C14_finding_list_witness :
    workspaceRootOf (scanRequest "ws") ≠ "" ∧
    ∀ resp, handleScan (singleTree "ws" sampleTree) (cancelledAfter 3) (scanRequest "ws") =
        .ok resp →
      resp.Findings <+: rootFindings (singleTree "ws" sampleTree)
        (workspaceRootOf (scanRequest "ws")) :=
  ⟨by decide,
   (C14_finding_list (singleTree "ws" sampleTree) (cancelledAfter 3) (scanRequest "ws")
      (by decide)).2.1⟩

/-! ## Files that cannot be opened -/

theorem visit_background_file (path name : String) (data : FileData) (st st1 : WalkState)
    (h : st.resp = st1.resp) :
    (visit background path (.file name data) st).1.resp =
      (visit background path (.file name data) st1).1.resp ∧
    (visit background path (.file name data) st).2 =
      (visit background path (.file name data) st1).2 := by
  simp only [visit, background]
  by_cases hs : supportedExtensions (Ext path) = true
  · simp [hs, h]
  · simp [hs, h]

theorem visit_background_unopenable (path name : String) (st : WalkState) :
    (visit background path (.file name .unopenable) st).1.resp = st.resp ∧
    (visit background path (.file name .unopenable) st).2 = none := by
  simp only [visit, background]
  by_cases hs : supportedExtensions (Ext path) = true
  · simp [hs, scanFile]
  · simp [hs]

theorem dropUnopenable_name (e : Entry) : (dropUnopenable e).name = e.name := by
  cases e <;> rfl

mutual
theorem walkDir_drop :
    ∀ (e : Entry) (path : String) (st st1 : WalkState), st.resp = st1.resp →
      (walkDir background (dropUnopenable e) path st).1.resp =
        (walkDir background e path st1).1.resp ∧
      (walkDir background (dropUnopenable e) path st).2 = (walkDir background e path st1).2
  | .file name data, path, st, st1 => by
    intro h
    simp only [dropUnopenable, walkDir]
    exact visit_background_file path name data st st1 h
  | .dir name readErr kids, path, st, st1 => by
    intro h
    simp only [dropUnopenable, walkDir, visit, background]
    by_cases hs : skippedDirs name = true
    · simp [hs, h]
    · simp only [hs, Bool.false_eq_true, if_false]
      cases readErr with
      | false =>
        simp only [Bool.false_eq_true, if_false]
        exact walkKids_drop kids path _ _ h
      | true =>
        simp only [if_true, visitErr]
        exact walkKids_drop kids path _ _ h
theorem walkKids_drop :
    ∀ (kids : List Entry) (path : String) (st st1 : WalkState), st.resp = st1.resp →
      (walkKids background (dropUnopenableKids kids) path st).1.resp =
        (walkKids background kids path st1).1.resp ∧
      (walkKids background (dropUnopenableKids kids) path st).2 =
        (walkKids background kids path st1).2
  | [], path, st, st1 => by
    intro h
    simp [dropUnopenableKids, walkKids, h]
  | d1 :: rest, path, st, st1 => by
    intro h
    have ih1 := walkDir_drop d1 (Join path d1.name) st st1 h
    have ih2 := walkKids_drop rest path
    by_cases hu : d1.unopenable = true
    · obtain ⟨name, hd⟩ : ∃ name, d1 = .file name .unopenable := by
        cases d1 with
        | dir name readErr kids => simp [Entry.unopenable] at hu
        | file name data =>
          cases data with
          | unopenable => exact ⟨name, rfl⟩
          | bytes content readFails => simp [Entry.unopenable] at hu
      obtain ⟨h1, h2⟩ := visit_background_unopenable (Join path d1.name) name st1
      simp only [dropUnopenableKids, hu, if_true]
      rw [hd] at h1 h2 ⊢
      simp only [walkKids, walkDir, h2]
      exact ih2 st _ (by rw [h1, h])
    · simp only [dropUnopenableKids, hu, Bool.false_eq_true, if_false, walkKids,
        dropUnopenable_name]
      rw [ih1.2]
      cases hv : (walkDir background d1 (Join path d1.name) st1).2 with
      | none => exact ih2 _ _ ih1.1
      | some e =>
        by_cases he : e = .skipDir
        · simp [he, ih1.1]
        · simp [he, ih1.1]
end

theorem handleScan_drop (fs fs1 : FileSystem) (req : ToolRequest)
    (h : Option.map dropUnopenable (fs (workspaceRootOf req)) =
      Option.map dropUnopenable (fs1 (workspaceRootOf req))) :
    handleScan fs background req = handleScan fs1 background req := by
  have key : ∀ (g : FileSystem) (root : String) (st : WalkState),
      (match Option.map dropUnopenable (g root) with
        | none => visitErr st
        | some d => walkDir background d root st).1.resp =
        (match g root with
          | none => visitErr st
          | some d => walkDir background d root st).1.resp ∧
      (match Option.map dropUnopenable (g root) with
        | none => visitErr st
        | some d => walkDir background d root st).2 =
        (match g root with
          | none => visitErr st
          | some d => walkDir background d root st).2 := by
    intro g root st
    cases g root with
    | none => exact ⟨rfl, rfl⟩
    | some d => exact walkDir_drop d root st st rfl
  have h1 := key fs (workspaceRootOf req) { resp := [], tick := 0 }
  have h2 := key fs1 (workspaceRootOf req) { resp := [], tick := 0 }
  rw [h] at h1
  have hr := h1.1.symm.trans h2.1
  have he := h1.2.symm.trans h2.2
  have wrap : ∀ a b : WalkState × Option GoErr, a.1.resp = b.1.resp → a.2 = b.2 →
      (match a.2 with
        | some .skipDir => (a.1, none)
        | _ => a).1.resp =
        (match b.2 with
          | some .skipDir => (b.1, none)
          | _ => b).1.resp ∧
      (match a.2 with
        | some .skipDir => (a.1, none)
        | _ => a).2 =
        (match b.2 with
          | some .skipDir => (b.1, none)
          | _ => b).2 := by
    rintro ⟨a1, a2⟩ ⟨b1, b2⟩ h3 h4
    simp only at h3 h4
    subst h4
    cases a2 with
    | none => exact ⟨h3, rfl⟩
    | some e => cases e <;> exact ⟨h3, rfl⟩
  have hW : (WalkDir fs background (workspaceRootOf req) { resp := [], tick := 0 }).1.resp =
        (WalkDir fs1 background (workspaceRootOf req) { resp := [], tick := 0 }).1.resp ∧
      (WalkDir fs background (workspaceRootOf req) { resp := [], tick := 0 }).2 =
        (WalkDir fs1 background (workspaceRootOf req) { resp := [], tick := 0 }).2 :=
    wrap _ _ hr he
  simp only [handleScan, hW.1, hW.2]

mutual
theorem treeFindings_drop :
    ∀ (e : Entry) (path : String), treeFindings (dropUnopenable e) path = treeFindings e path
  | .file name data, path => by simp [dropUnopenable]
  | .dir name readErr kids, path => by
    simp only [dropUnopenable, treeFindings, kidsFindings_drop kids path]
theorem kidsFindings_drop :
    ∀ (kids : List Entry) (path : String),
      kidsFindings (dropUnopenableKids kids) path = kidsFindings kids path
  | [], path => by simp [dropUnopenableKids]
  | d1 :: rest, path => by
    have ih1 := treeFindings_drop d1 (Join path d1.name)
    have ih2 := kidsFindings_drop rest path
    by_cases hu : d1.unopenable = true
    · have hd : treeFindings d1 (Join path d1.name) = [] := by
        cases d1 with
        | dir name readErr kids => simp [Entry.unopenable] at hu
        | file name data =>
          cases data with
          | unopenable => simp [treeFindings, fileFindings]
          | bytes content readFails => simp [Entry.unopenable] at hu
      simp only [dropUnopenableKids, hu, if_true, kidsFindings, hd, ih2, List.nil_append]
    · simp only [dropUnopenableKids, hu, Bool.false_eq_true, if_false, kidsFindings,
        dropUnopenable_name, ih1, ih2]
end

theorem rootFindings_drop (fs fs1 : FileSystem) (root : String)
    (h : Option.map dropUnopenable (fs root) = Option.map dropUnopenable (fs1 root)) :
    rootFindings fs root = rootFindings fs1 root := by
  unfold rootFindings
  cases h0 : fs root with
  | none =>
    cases h1 : fs1 root with
    | none => rfl
    | some d1 => rw [h0, h1] at h; simp at h
  | some d =>
    cases h1 : fs1 root with
    | none => rw [h0, h1] at h; simp at h
    | some d1 =>
      rw [h0, h1] at h
      simp only [Option.map_some', Option.some.injEq] at h
      simp only
      rw [← treeFindings_drop d, ← treeFindings_drop d1, h]

theorem handleScan_ok_initial (fs : FileSystem) (ctx : Ctx) (req : ToolRequest)
    (hroot : workspaceRootOf req ≠ "") (resp : InvokeToolResponse)
    (h : handleScan fs ctx req = .ok resp) :
    resp.Findings <+: rootFindings fs (workspaceRootOf req) := by
  obtain ⟨l, h1, h2, _⟩ := WalkDir_findings fs ctx (workspaceRootOf req)
  simp only [handleScan, hroot, if_false] at h
  cases hw : (WalkDir fs ctx (workspaceRootOf req) { resp := [], tick := 0 }).2 with
  | none =>
    simp only [hw, ScanResult.ok.injEq] at h
    rw [← h]
    simpa [h1] using h2
  | some e =>
    simp only [hw] at h
    by_cases he : e = .canceled
    · simp only [he, if_true, ScanResult.ok.injEq] at h
      rw [← h]
      simpa [h1] using h2
    · simp [he] at h

set_option maxRecDepth 100000 in
/-- C13, as stated, fails: the scan of a tree with a file that cannot be opened does
not always succeed, nor does it always return what the scan of the tree without the
file returns. Next to a file that stops being readable, `handleScan` returns the read
error; and under a context cancelled after the second callback invocation the scan of
`lockedTree` returns no finding, while the scan of the same tree without the files
that cannot be opened returns the finding of `b.go`. -/
theorem C13_counterexample :
    handleScan (singleTree "ws" lockedBrokenTree) background (scanRequest "ws") =
      .error .readErr ∧
    handleScan (singleTree "ws" lockedTree) (cancelledAfter 2) (scanRequest "ws") =
      .ok { Findings := [] } ∧
    handleScan (singleTree "ws" unlockedTree) (cancelledAfter 2) (scanRequest "ws") =
      .ok { Findings := (rootFindings (singleTree "ws" unlockedTree) "ws").take 1 } ∧
    ((rootFindings (singleTree "ws" unlockedTree) "ws").take 1).map
        (fun f => (f.File, f.StartLine, f.RuleId)) = [("ws/b.go", 1, "EXPOSE-001")] := by
  decide

/-- C13, amended: a file that cannot be opened adds nothing and stops nothing.
`scanFile` on it returns the builder unchanged and no error; in the walk of a
directory, under any context not done at that invocation, the walk goes on with the
next entry from the same builder. For every pair of file systems whose trees at the
workspace root differ only in files that cannot be opened (in particular: one such
file present or absent), `handleScan` under a context that is never done returns the
same outcome for both; when every other file in scope can be read to its end, that
outcome is a successful response holding the finding list of the tree without the
file, which is the concatenation of the per-file lists of the other files in scope, in
order. Under any context, a successful response holds a prefix of that list. -/
theorem C13_unopenable_file_skipped (fs fs1 : FileSystem) (req : ToolRequest)
    (hdrop : Option.map dropUnopenable (fs (workspaceRootOf req)) =
      Option.map dropUnopenable (fs1 (workspaceRootOf req))) :
    (∀ resp path ext, scanFile resp path ext .unopenable = (resp, none)) ∧
    (∀ (ctx : Ctx) name rest path (st : WalkState), ctx st.tick = none →
      walkKids ctx (.file name .unopenable :: rest) path st =
        walkKids ctx rest path { st with tick := st.tick + 1 }) ∧
    handleScan fs background req = handleScan fs1 background req ∧
    (∀ d, workspaceRootOf req ≠ "" → fs (workspaceRootOf req) = some d →
      readErrorFree d (workspaceRootOf req) = true →
      handleScan fs background req =
        .ok { Findings := rootFindings fs1 (workspaceRootOf req) }) ∧
    (∀ (ctx : Ctx) resp, workspaceRootOf req ≠ "" → handleScan fs ctx req = .ok resp →
      resp.Findings <+: rootFindings fs1 (workspaceRootOf req)) := by
  refine ⟨fun _ _ _ => rfl, ?_, handleScan_drop fs fs1 req hdrop, ?_, ?_⟩
  · intro ctx name rest path st hc
    simp only [walkKids, walkDir, visit, hc, Entry.name]
    by_cases hs : supportedExtensions (Ext (Join path name)) = true
    · simp [hs, scanFile]
    · simp [hs]
  · intro d hroot hfs hd
    have hn := WalkDir_complete fs (workspaceRootOf req) d hfs hd
    obtain ⟨l, h1, _, h3⟩ := WalkDir_findings fs background (workspaceRootOf req)
    simp only [handleScan, hroot, if_false, hn]
    rw [h1, h3 hn, rootFindings_drop fs fs1 (workspaceRootOf req) hdrop]
  · intro ctx resp hroot h
    rw [← rootFindings_drop fs fs1 (workspaceRootOf req) hdrop]
    exact handleScan_ok_initial fs ctx req hroot resp h

set_option maxRecDepth 100000 in
/-- C13, amended, at a workspace with two files that cannot be opened and the same
workspace without them: under a context that is never done both scans succeed with the
same two findings, and under a context cancelled after the second callback invocation
the scan with the files returns a prefix of them. -/
theorem C13_unopenable_file_skipped_witness :
    Option.map dropUnopenable (singleTree "ws" lockedTree (workspaceRootOf (scanRequest "ws"))) =
      Option.map dropUnopenable
        (singleTree "ws" unlockedTree (workspaceRootOf (scanRequest "ws"))) ∧
    handleScan (singleTree "ws" lockedTree) background (scanRequest "ws") =
      handleScan (singleTree "ws" unlockedTree) background (scanRequest "ws") ∧
    handleScan (singleTree "ws" unlockedTree) background (scanRequest "ws") =
      .ok { Findings := rootFindings (singleTree "ws" unlockedTree) "ws" } ∧
    (rootFindings (singleTree "ws" unlockedTree) "ws").map
        (fun f => (f.File, f.StartLine, f.RuleId)) =
      [("ws/b.go", 1, "EXPOSE-001"), ("ws/sub/d.yaml", 1, "EXPOSE-003")] ∧
    ([] : List Finding) <+:
      rootFindings (singleTree "ws" unlockedTree) (workspaceRootOf (scanRequest "ws")) :=
  ⟨rfl,
   (C13_unopenable_file_skipped (singleTree "ws" lockedTree) (singleTree "ws" unlockedTree)
      (scanRequest "ws") rfl).2.2.1,
   by decide, by decide,
   (C13_unopenable_file_skipped (singleTree "ws" lockedTree) (singleTree "ws" unlockedTree)
      (scanRequest "ws") rfl).2.2.2.2 (cancelledAfter 2) { Findings := [] } (by decide)
      (by decide)⟩

end Exposure
